import Mathlib

/-!
# Klondike: redacted state synchronisation

A shallow embedding of `src/klondike.c` and the properties of its
synchronisation, move and draw/recycle routines.

Conventions of the embedding.

* `int` fields (`last_modified`, `count`, the generation `t`, loop counters)
  are `Int`: counts and indices stay within the capacity of the arrays,
  generations are only compared and copied, and the game mode is a small
  selector, so no wrap-around is modelled.
* `struct card *cs` is the list of the slots of the backing array it points
  to; the length of the list is the capacity of the array.  An access outside
  the array (undefined behaviour in C) makes the operation return `none`.
* Byte sizes passed to `memcpy`/`memset` are counted in cards
  (`25 * sizeof(struct card)` is `25`).
* Every stack owns its card array: no two stacks share slots.  Routines that
  receive several pointers return every structure they were handed, so that
  "is left unchanged" is a statement about the returned value.
* `IS_NULLCARD` (a `memcmp` of the whole struct) is equality of cards.
-/

namespace Klondike

/-! ## Declarations of `klondike.h` -/

/-- Modelled from the spec: the header `klondike.h` is absent; `enum color` has the sentinel
"none" as its zero value (a slot cleared by `memset` is the empty slot), the four suits
`HEARTS .. CLUBS` consecutive, and the sentinel "unknown" outside of them. -/
def NO_COLOR : Int := 0

/-- Modelled from the spec: first suit of `enum color` (header absent). -/
def HEARTS : Int := 1

/-- Modelled from the spec: last suit of `enum color` (header absent), `HEARTS + 3`. -/
def CLUBS : Int := 4

/-- Modelled from the spec: the "unknown" sentinel of `enum color` (header absent). -/
def UNKNOWN_COLOR : Int := 5

/-- Modelled from the spec: the "none" sentinel of `enum rank` (header absent), its zero
value. -/
def NO_RANK : Int := 0

/-- Modelled from the spec: first rank of `enum rank` (header absent). -/
def ACE : Int := 1

/-- Modelled from the spec: last rank of `enum rank` (header absent), `ACE + 12`. -/
def KING : Int := 13

/-- Modelled from the spec: the "unknown" sentinel of `enum rank` (header absent). -/
def UNKNOWN_RANK : Int := 14

/-- Modelled from the spec: `struct card` of the absent header, fields in the order of the
initialisers `{ NO_COLOR, NO_RANK, false }`. -/
structure card where
  c : Int
  r : Int
  face_up : Bool
deriving DecidableEq, Repr

/-- Modelled from the spec: `struct stack_of_cards` of the absent header, fields in the order
of the initialisers `{ -1, cs_shadow_deck, 0 }` of `main`. -/
structure stack_of_cards where
  last_modified : Int
  cs : List card
  count : Int
deriving DecidableEq, Repr

/-- Modelled from the spec: `struct game_state` of the absent header: a top-level clock, the
deck, the waste, 4 foundations and 7 tableaus. -/
structure game_state where
  last_modified : Int
  deck : stack_of_cards
  waste : stack_of_cards
  foundation : Fin 4 → stack_of_cards
  tableau : Fin 7 → stack_of_cards

/-- Modelled from the spec: `DECK_RECYCLED` of the absent header, a value distinct from every
draw count. -/
def DECK_RECYCLED : Int := -1

/-- Modelled from the spec: `CLASSIC` of the absent `enum mode`, the selector 0. -/
def CLASSIC : Int := 0

/-! ## Constants and memory primitives of `klondike.c` -/

/-- Line 34: `const struct card NULLCARD = { NO_COLOR, NO_RANK, false }`. -/
def NULLCARD : card := ⟨NO_COLOR, NO_RANK, false⟩

/-- Line 35: `const struct card UNKNOWNCARD = { UNKNOWN_COLOR, UNKNOWN_RANK, false }`. -/
def UNKNOWNCARD : card := ⟨UNKNOWN_COLOR, UNKNOWN_RANK, false⟩

/-- The card all of whose bytes are zero: what `memset(p, 0, ...)` writes. -/
def ZEROCARD : card := ⟨0, 0, false⟩

/-- Reading `cs[i]` for an `int` index: `none` outside the array. -/
def rd (cs : List card) (i : Int) : Option card :=
  if 0 ≤ i then cs[i.toNat]? else none

/-- Writing `cs[i] = x` for an `int` index: `none` outside the array. -/
def wr (cs : List card) (i : Int) (x : card) : Option (List card) :=
  if 0 ≤ i ∧ i.toNat < cs.length then some (cs.set i.toNat x) else none

/-- The call `memcpy(dst, src, n * sizeof(struct card))` on two disjoint arrays. -/
def memcpy (dst src : List card) (n : Nat) : Option (List card) :=
  if n ≤ dst.length ∧ n ≤ src.length then some (src.take n ++ dst.drop n) else none

/-- The call `memset(dst, 0, n * sizeof(struct card))`. -/
def memset0 (dst : List card) (n : Nat) : Option (List card) :=
  if n ≤ dst.length then some (List.replicate n ZEROCARD ++ dst.drop n) else none

/-! ## The redaction engine -/

/-- Lines 97-103, the loop `for (i = 0 ; !IS_NULLCARD(&(dst->cs[i])) ; i++)` of
`redacted_copy`, on the slots from the current index `i` on: it stops at the first empty
slot, replaces every face-down card met before it by `UNKNOWNCARD`, and runs off the array
(`none`) when there is no empty slot. -/
def redact_loop : List card → Option (List card)
  | [] => none
  | x :: rest =>
    if x = NULLCARD then some (x :: rest)
    else
      match redact_loop rest with
      | none => none
      | some rest' => some ((if !x.face_up then UNKNOWNCARD else x) :: rest')

/-- Lines 86-105: `redacted_copy(dst, src, dstsz)` with `dstsz = n` cards. Returns the
destination and the source. -/
def redacted_copy (dst src : stack_of_cards) (n : Nat) :
    Option (stack_of_cards × stack_of_cards) :=
  if dst.last_modified < src.last_modified then
    match memcpy dst.cs src.cs n with
    | none => none
    | some cs =>
      let dst : stack_of_cards :=
        { last_modified := src.last_modified, cs := cs, count := src.count }
      match redact_loop dst.cs with
      | none => none
      | some cs' => some ({ dst with cs := cs' }, src)
  else some (dst, src)

/-- Lines 106-117: `plain_copy(dst, src, dstsz)` with `dstsz = n` cards. Returns the
destination and the source. -/
def plain_copy (dst src : stack_of_cards) (n : Nat) :
    Option (stack_of_cards × stack_of_cards) :=
  if dst.last_modified < src.last_modified then
    match memcpy dst.cs src.cs n with
    | none => none
    | some cs =>
      some ({ last_modified := src.last_modified, cs := cs, count := src.count }, src)
  else some (dst, src)

/-- Lines 135-140: the first `k` rounds `i = 0 .. k-1` of the loop over the foundations in
`update_client_data`. -/
def update_foundations (client shadow : game_state) :
    Nat → Option (game_state × game_state)
  | 0 => some (client, shadow)
  | k + 1 =>
    match update_foundations client shadow k with
    | none => none
    | some (cl, sh) =>
      if h : k < 4 then
        match plain_copy (cl.foundation ⟨k, h⟩) (sh.foundation ⟨k, h⟩) 14 with
        | none => none
        | some (d, s) =>
          some ({ cl with foundation := Function.update cl.foundation ⟨k, h⟩ d },
                { sh with foundation := Function.update sh.foundation ⟨k, h⟩ s })
      else none

/-- Lines 143-148: the first `k` rounds `i = 0 .. k-1` of the loop over the tableaus in
`update_client_data`. -/
def update_tableaus (client shadow : game_state) :
    Nat → Option (game_state × game_state)
  | 0 => some (client, shadow)
  | k + 1 =>
    match update_tableaus client shadow k with
    | none => none
    | some (cl, sh) =>
      if h : k < 7 then
        match redacted_copy (cl.tableau ⟨k, h⟩) (sh.tableau ⟨k, h⟩) 20 with
        | none => none
        | some (d, s) =>
          some ({ cl with tableau := Function.update cl.tableau ⟨k, h⟩ d },
                { sh with tableau := Function.update sh.tableau ⟨k, h⟩ s })
      else none

/-- Lines 119-150: `update_client_data(client, shadow)`. Returns the client and the
shadow. -/
def update_client_data (client shadow : game_state) : Option (game_state × game_state) :=
  if client.last_modified < shadow.last_modified then
    let client := { client with last_modified := shadow.last_modified }
    match redacted_copy client.deck shadow.deck 25 with
    | none => none
    | some (d, s) =>
      let client := { client with deck := d }
      let shadow := { shadow with deck := s }
      match plain_copy client.waste shadow.waste 25 with
      | none => none
      | some (d, s) =>
        let client := { client with waste := d }
        let shadow := { shadow with waste := s }
        match update_foundations client shadow 4 with
        | none => none
        | some (client, shadow) => update_tableaus client shadow 7
  else some (client, shadow)

/-! ## The move primitive and the draw/recycle engine -/

/-- Lines 223-239: `move_card(dst, src, t)` on two distinct stacks. Returns the result, the
destination and the source. -/
def move_card (dst src : stack_of_cards) (t : Int) :
    Option (Bool × stack_of_cards × stack_of_cards) :=
  if src.count ≥ 1 then
    match rd src.cs (src.count - 1) with
    | none => none
    | some top =>
      match wr dst.cs dst.count top with
      | none => none
      | some dcs =>
        let dst : stack_of_cards :=
          { last_modified := t, cs := dcs, count := dst.count + 1 }
        match wr src.cs (src.count - 1) ZEROCARD with
        | none => none
        | some scs =>
          let src : stack_of_cards :=
            { last_modified := t, cs := scs, count := src.count - 1 }
          some (true, dst, src)
  else some (false, dst, src)

/-- The assignment `s->cs[i].face_up = b`. -/
def set_face_up (s : stack_of_cards) (i : Int) (b : Bool) : Option stack_of_cards :=
  match rd s.cs i with
  | none => none
  | some x =>
    match wr s.cs i { x with face_up := b } with
    | none => none
    | some cs => some { s with cs := cs }

/-- Lines 247-251: the loop `for (i = 0 ; shadow->waste.count > 0 ; i++)` of the recycle
branch of `pull_from_deck`, from the index `i` on. Each round lowers `waste.count` by one,
so `fuel = waste.count` rounds are enough; the first argument is that bound. -/
def recycle_loop (t : Int) : Nat → Int → game_state → Option game_state
  | 0, _, shadow => if shadow.waste.count > 0 then none else some shadow
  | fuel + 1, i, shadow =>
    if shadow.waste.count > 0 then
      match move_card shadow.deck shadow.waste t with
      | none => none
      | some (_, d, w) =>
        match set_face_up d i false with
        | none => none
        | some d' => recycle_loop t fuel (i + 1) { shadow with deck := d', waste := w }
    else some shadow

/-- Modelled from the spec: `enum mode` of the absent header is a small enumerated selector
without negative value, hence a 32-bit unsigned type. Line 257 computes the bound
`1 + 2 * game_mode` of the draw loop in that type, that is modulo 2^32 = 4294967296, and
compares `i`, which is never negative, with it. A `game_mode` outside `0 .. 2^32 - 1`
stands for the value it converts to. -/
def draw_bound (game_mode : Int) : Nat := ((1 + 2 * game_mode) % 4294967296).toNat

/-- Lines 257-267: the loop `for (i = 0 ; i < 1 + 2 * game_mode; i++)` of the draw branch
of `pull_from_deck` and the `return i` after it; the first argument is the number of
rounds left before `i` reaches the bound `draw_bound game_mode`. -/
def draw_loop (t : Int) : Nat → Int → game_state → Option (Int × game_state)
  | 0, i, shadow => some (i, shadow)
  | rounds + 1, i, shadow =>
    match move_card shadow.waste shadow.deck t with
    | none => none
    | some (false, w, d) => some (i, { shadow with waste := w, deck := d })
    | some (true, w, d) =>
      match set_face_up w (w.count - 1) true with
      | none => none
      | some w' =>
        draw_loop t rounds (i + 1)
          { shadow with waste := w', deck := d, last_modified := t }

/-- Lines 241-268: `pull_from_deck(shadow, game_mode, t)`. Returns the result and the
shadow state. -/
def pull_from_deck (shadow : game_state) (game_mode : Int) (t : Int) :
    Option (Int × game_state) :=
  if shadow.deck.count = 0 ∧ shadow.waste.count > 0 then
    match recycle_loop t shadow.waste.count.toNat 0 shadow with
    | none => none
    | some shadow => some (DECK_RECYCLED, { shadow with last_modified := t })
  else draw_loop t (draw_bound game_mode) 0 shadow

/-! ## Game initialisation -/

/-- Lines 158-170: the local array `cs_tmp_deck[53]` after the `memset` and the two nested
loops `for (c = HEARTS ; c <= CLUBS ; c++) for (r = ACE ; r <= KING ; r++)`: the 52 cards
suit by suit, all face-down, and one zeroed slot; `card_curr` is then at index 52. -/
def cs_tmp_deck : List card :=
  ((List.range (CLUBS - HEARTS + 1).toNat).map (fun c =>
      (List.range (KING - ACE + 1).toNat).map (fun r =>
        ({ c := HEARTS + c, r := ACE + r, face_up := false } : card)))).flatten
    ++ [ZEROCARD]

/-- Lines 177-179: the exchange of `cs[i]` and `cs[j]` through `tmp`. -/
def swap_cards (cs : List card) (i j : Nat) : Option (List card) :=
  match cs[i]?, cs[j]? with
  | some tmp, some x => some ((cs.set i x).set j tmp)
  | _, _ => none

/-- Lines 173-180: the rounds `i, i-1, .., 1` of the Fisher-Yates loop; `rnd i` is the
value returned by `arc4random_uniform(i + 1)` in round `i`, below `i + 1` by the contract
of that library function. -/
def shuffle_loop (rnd : (i : Nat) → Fin (i + 1)) : Nat → List card → Option (List card)
  | 0, cs => some cs
  | i + 1, cs =>
    match swap_cards cs (i + 1) (rnd (i + 1)).val with
    | none => none
    | some cs' => shuffle_loop rnd i cs'

/-- Lines 183-193: the rounds `i = 1 .. k` of the loop that deals the tableaus; the state
of the loop is the shadow state and the index `card_curr` into `cs_tmp_deck`. -/
def deal_tableaus (tmp : List card) (shadow : game_state) (card_curr : Nat) :
    Nat → Option (game_state × Nat)
  | 0 => some (shadow, card_curr)
  | k + 1 =>
    match deal_tableaus tmp shadow card_curr k with
    | none => none
    | some (sh, cur) =>
      if h : k < 7 then
        let i := k + 1
        let tb := sh.tableau ⟨k, h⟩
        match memset0 tb.cs 20 with
        | none => none
        | some cs0 =>
          if i ≤ cur then
            match memcpy cs0 (tmp.drop (cur - i)) i with
            | none => none
            | some cs1 =>
              match set_face_up { tb with cs := cs1 } ((i : Int) - 1) true with
              | none => none
              | some tb1 =>
                let tb2 : stack_of_cards :=
                  { tb1 with count := tb1.count + i, last_modified := sh.last_modified }
                some ({ sh with tableau := Function.update sh.tableau ⟨k, h⟩ tb2 }, cur - i)
          else none
      else none

/-- Lines 196-201: the rounds `i = 0 .. k-1` of the loop that empties the foundations. -/
def init_foundations (shadow : game_state) : Nat → Option game_state
  | 0 => some shadow
  | k + 1 =>
    match init_foundations shadow k with
    | none => none
    | some sh =>
      if h : k < 4 then
        match memset0 (sh.foundation ⟨k, h⟩).cs 14 with
        | none => none
        | some cs0 =>
          let f : stack_of_cards :=
            { last_modified := sh.last_modified, cs := cs0, count := 0 }
          some { sh with foundation := Function.update sh.foundation ⟨k, h⟩ f }
      else none

/-- Lines 152-221: `init_game(shadow, client, t)`, with the outcomes `rnd` of the random
draws of the shuffle. Returns the shadow and the client. -/
def init_game (rnd : (i : Nat) → Fin (i + 1)) (shadow client : game_state) (t : Int) :
    Option (game_state × game_state) :=
  let shadow := { shadow with last_modified := t }
  match shuffle_loop rnd 51 cs_tmp_deck with
  | none => none
  | some tmp =>
    match deal_tableaus tmp shadow 52 7 with
    | none => none
    | some (shadow, card_curr) =>
      match init_foundations shadow 4 with
      | none => none
      | some shadow =>
        match memset0 shadow.waste.cs 25 with
        | none => none
        | some wcs =>
          let shadow :=
            { shadow with waste :=
                { last_modified := shadow.last_modified, cs := wcs, count := 0 } }
          match memset0 shadow.deck.cs 25 with
          | none => none
          | some dcs0 =>
            let nc_rem := card_curr
            match memcpy dcs0 tmp nc_rem with
            | none => none
            | some dcs =>
              let shadow :=
                { shadow with deck :=
                    { last_modified := shadow.last_modified, cs := dcs, count := nc_rem } }
              match update_client_data client shadow with
              | none => none
              | some (client, shadow) => some (shadow, client)

/-! ## Calls on the stacks of a game state -/

/-- The 13 stacks of a game state. -/
inductive stack_id where
  | deck
  | waste
  | foundation (i : Fin 4)
  | tableau (i : Fin 7)
deriving DecidableEq, Repr

/-- The stack `&gs->...` named by a `stack_id`. -/
def game_state.get (gs : game_state) : stack_id → stack_of_cards
  | .deck => gs.deck
  | .waste => gs.waste
  | .foundation i => gs.foundation i
  | .tableau i => gs.tableau i

/-- The game state with one stack replaced. -/
def game_state.put (gs : game_state) : stack_id → stack_of_cards → game_state
  | .deck, s => { gs with deck := s }
  | .waste, s => { gs with waste := s }
  | .foundation i, s => { gs with foundation := Function.update gs.foundation i s }
  | .tableau i, s => { gs with tableau := Function.update gs.tableau i s }

/-- The number of card slots `update_client_data` copies for each stack (lines 128, 132,
139, 147). -/
def copy_size : stack_id → Nat
  | .deck => 25
  | .waste => 25
  | .foundation _ => 14
  | .tableau _ => 20

/-- The copy strategy `update_client_data` applies to each stack: `redacted_copy` for the
deck and the tableaus, `plain_copy` for the waste and the foundations. -/
def copy_of : stack_id → stack_of_cards → stack_of_cards → Nat →
    Option (stack_of_cards × stack_of_cards)
  | .deck => redacted_copy
  | .waste => plain_copy
  | .foundation _ => plain_copy
  | .tableau _ => redacted_copy

/-- The call `move_card(&gs->dst, &gs->src, t)` on two distinct stacks of one state. -/
def move_in_state (gs : game_state) (dst src : stack_id) (t : Int) :
    Option (Bool × game_state) :=
  match move_card (gs.get dst) (gs.get src) t with
  | none => none
  | some (b, d, s) => some (b, (gs.put dst d).put src s)

/-- One step of play after the deal: a call `pull_from_deck(&shadow, game_mode, t)` or a
call `update_client_data(&client, &shadow)`. -/
inductive play_step where
  | pull (game_mode t : Int)
  | sync
deriving DecidableEq, Repr

/-- A sequence of steps of play on the shadow and the client, results of the pulls
dropped. Returns the shadow and the client. -/
def play : game_state → game_state → List play_step → Option (game_state × game_state)
  | shadow, client, [] => some (shadow, client)
  | shadow, client, .pull m t :: rest =>
    match pull_from_deck shadow m t with
    | none => none
    | some (_, shadow1) => play shadow1 client rest
  | shadow, client, .sync :: rest =>
    match update_client_data client shadow with
    | none => none
    | some (client1, shadow1) => play shadow1 client1 rest

/-! ## Predicates of the specification -/

/-- Well-formed stack: `count` live (non-empty) cards followed only by empty slots. -/
def stack_wf (s : stack_of_cards) : Prop :=
  0 ≤ s.count ∧ s.count.toNat ≤ s.cs.length ∧
    (∀ x ∈ s.cs.take s.count.toNat, x ≠ NULLCARD) ∧
    (∀ x ∈ s.cs.drop s.count.toNat, x = NULLCARD)

instance (s : stack_of_cards) : Decidable (stack_wf s) := by
  unfold stack_wf; infer_instance

/-- The source stack holds `count` live cards followed by an empty slot, all inside the
`n` copied slots. -/
def stack_terminated (s : stack_of_cards) (n : Nat) : Prop :=
  0 ≤ s.count ∧ s.count.toNat < n ∧ n ≤ s.cs.length ∧
    (∀ x ∈ s.cs.take s.count.toNat, x ≠ NULLCARD) ∧
    s.cs[s.count.toNat]? = some NULLCARD

instance (s : stack_of_cards) (n : Nat) : Decidable (stack_terminated s n) := by
  unfold stack_terminated; infer_instance

/-- Every stack of a state is well formed. -/
def state_wf (gs : game_state) : Prop :=
  stack_wf gs.deck ∧ stack_wf gs.waste ∧ (∀ i, stack_wf (gs.foundation i)) ∧
    ∀ i, stack_wf (gs.tableau i)

instance (gs : game_state) : Decidable (state_wf gs) := by
  unfold state_wf; infer_instance

/-- Two stacks that differ at most in the suit and rank of their face-down cards: same
clock, same count, same `face_up` flag in every slot, same suit and rank in every face-up
slot. -/
def stacks_agree (a b : stack_of_cards) : Prop :=
  a.last_modified = b.last_modified ∧ a.count = b.count ∧
    a.cs.map (fun x => x.face_up) = b.cs.map (fun x => x.face_up) ∧
    ∀ p ∈ a.cs.zip b.cs, p.1.face_up = true → p.1.c = p.2.c ∧ p.1.r = p.2.r

instance (a b : stack_of_cards) : Decidable (stacks_agree a b) := by
  unfold stacks_agree; infer_instance

/-- Two shadow states that agree on every clock, count and `face_up` flag, on the whole
content of the waste and the foundations, and on the suit and rank of every face-up card of
the deck and the tableaus. -/
def shadows_agree (s1 s2 : game_state) : Prop :=
  s1.last_modified = s2.last_modified ∧ stacks_agree s1.deck s2.deck ∧
    s1.waste = s2.waste ∧ (∀ i, s1.foundation i = s2.foundation i) ∧
    ∀ i, stacks_agree (s1.tableau i) (s2.tableau i)

instance (s1 s2 : game_state) : Decidable (shadows_agree s1 s2) := by
  unfold shadows_agree; infer_instance

/-- The top-level clock and the 13 stack clocks of a state are all strictly below `t`. -/
def clocks_below (gs : game_state) (t : Int) : Prop :=
  gs.last_modified < t ∧ gs.deck.last_modified < t ∧ gs.waste.last_modified < t ∧
    (∀ i, (gs.foundation i).last_modified < t) ∧ ∀ i, (gs.tableau i).last_modified < t

instance (gs : game_state) (t : Int) : Decidable (clocks_below gs t) := by
  unfold clocks_below; infer_instance

/-- The stacks `update_client_data` copies with `redacted_copy`. -/
def is_redacted : stack_id → Bool
  | .deck => true
  | .waste => false
  | .foundation _ => false
  | .tableau _ => true

/-- The state `sh1` is the state `sh` after `k` cards have been drawn with generation `t`:
the deck has lost its `k` top cards, the waste has gained them on top, face-up, the old
deck top deepest, and nothing else has changed (with `k = 0` nothing at all). -/
def drawn (t : Int) (sh sh1 : game_state) (k : Nat) : Prop :=
  sh1.deck.count = sh.deck.count - k ∧ sh1.waste.count = sh.waste.count + k ∧
    sh1.deck.cs.length = sh.deck.cs.length ∧ sh1.waste.cs.length = sh.waste.cs.length ∧
    (∀ j, sh1.deck.cs[j]? =
      if sh.deck.count.toNat - k ≤ j ∧ j < sh.deck.count.toNat then some NULLCARD
      else sh.deck.cs[j]?) ∧
    (∀ j, sh1.waste.cs[j]? =
      if sh.waste.count.toNat ≤ j ∧ j < sh.waste.count.toNat + k then
        (sh.deck.cs[sh.deck.count.toNat - 1 - (j - sh.waste.count.toNat)]?).map
          (fun x => { x with face_up := true })
      else sh.waste.cs[j]?) ∧
    sh1.foundation = sh.foundation ∧ sh1.tableau = sh.tableau ∧
    (k = 0 → sh1 = sh) ∧
    (0 < k → sh1.last_modified = t ∧ sh1.deck.last_modified = t ∧
      sh1.waste.last_modified = t)

/-- Every live entry of the stack is `UNKNOWNCARD`. -/
def hidden_pile (s : stack_of_cards) : Prop :=
  ∀ (i : Nat) (x : card), (i : Int) < s.count → s.cs[i]? = some x → x = UNKNOWNCARD

/-- The invariant of deck and waste during play: together they hold at most 24 cards in
arrays of at least 25 slots; the live deck cards have a suit and are face-down, the deck
slots after them, up to slot 24, are empty; the live waste cards have a suit. -/
def deck_waste_ok (sh : game_state) : Prop :=
  0 ≤ sh.deck.count ∧ 0 ≤ sh.waste.count ∧ sh.deck.count + sh.waste.count ≤ 24 ∧
    25 ≤ sh.deck.cs.length ∧ 25 ≤ sh.waste.cs.length ∧
    (∀ (i : Nat) (x : card), sh.deck.cs[i]? = some x →
      ((i : Int) < sh.deck.count → x.c ≠ NO_COLOR ∧ x.face_up = false) ∧
      (sh.deck.count ≤ (i : Int) → i < 25 → x = NULLCARD)) ∧
    (∀ (i : Nat) (x : card), sh.waste.cs[i]? = some x → (i : Int) < sh.waste.count →
      x.c ≠ NO_COLOR)

/-- The scenario of the redaction invariant: `init_game`, then any sequence of calls of
`pull_from_deck` (with calls of `update_client_data` anywhere in between, as in the loop of
`main`, or none), then `update_client_data`; the result is the client and the shadow at
that point. -/
def deal_play_sync (rnd : (i : Nat) → Fin (i + 1)) (shadow client : game_state) (t : Int)
    (steps : List play_step) : Option (game_state × game_state) :=
  match init_game rnd shadow client t with
  | none => none
  | some (sh0, cl0) =>
    match play sh0 cl0 steps with
    | none => none
    | some (sh1, cl1) => update_client_data cl1 sh1

/-- The number of cards dealt to the tableaus `1 .. k`: `1 + 2 + .. + k`. -/
def dealt_before : Nat → Nat
  | 0 => 0
  | k + 1 => dealt_before k + (k + 1)

/-- The stack `new` is the tableau of index `j` (the `j+1`-th) as the deal leaves it, given
the stack `old` it was before, the shuffled array `tmp`, the index `base` of its first
card in `tmp` and the clock `lm` of the shadow state: `j` cards of `tmp` face-down as they
are, the next one turned face-up, empty slots up to slot 19, the old slots from 20 on; the
count has grown by `j + 1`. -/
def tableau_dealt (tmp : List card) (old new : stack_of_cards) (lm : Int) (base j : Nat) :
    Prop :=
  new.last_modified = lm ∧ new.count = old.count + (j + 1 : Nat) ∧
    new.cs.length = old.cs.length ∧ 20 ≤ new.cs.length ∧ base + j < tmp.length ∧
    (∀ m : Nat, m < j → new.cs[m]? = tmp[base + m]?) ∧
    new.cs[j]? = (tmp[base + j]?).map (fun x => { x with face_up := true }) ∧
    (∀ m : Nat, j < m → m < 20 → new.cs[m]? = some NULLCARD) ∧
    (∀ m : Nat, 20 ≤ m → new.cs[m]? = old.cs[m]?)

/-- The shuffled array: 53 slots, the first 52 of which hold face-down cards with a
suit. -/
def shuffled_ok (cs : List card) : Prop :=
  cs.length = 53 ∧
    ∀ (i : Nat) (x : card), i < 52 → cs[i]? = some x → x.c ≠ NO_COLOR ∧ x.face_up = false

/-- The stack `new` is the stack `old` emptied by `init_game`: clock `lm`, count 0, the
first `n` slots empty, the old slots from `n` on. -/
def pile_fresh (old new : stack_of_cards) (lm : Int) (n : Nat) : Prop :=
  new.last_modified = lm ∧ new.count = 0 ∧ new.cs.length = old.cs.length ∧
    n ≤ new.cs.length ∧ (∀ m : Nat, m < n → new.cs[m]? = some NULLCARD) ∧
    (∀ m : Nat, n ≤ m → new.cs[m]? = old.cs[m]?)

/-- Redaction of one card as seen by the client: a face-down card shows as
`UNKNOWNCARD`. -/
def redact_card (x : card) : card := if !x.face_up then UNKNOWNCARD else x

/-- The redaction invariant on one client stack against the shadow stack: every live entry
(index below the client count) that is face-down is `UNKNOWNCARD`, and every live entry
that is face-up has the suit and rank of the shadow entry at the same index. -/
def stack_redacted (cl sh : stack_of_cards) : Prop :=
  ∀ i : Nat, (i : Int) < cl.count → ∀ x, cl.cs[i]? = some x →
    (x.face_up = false → x = UNKNOWNCARD) ∧
    (x.face_up = true → ∃ y, sh.cs[i]? = some y ∧ x.c = y.c ∧ x.r = y.r)

/-- The redaction invariant of the client view: it holds for the deck and the 7
tableaus. -/
def redaction_invariant (client shadow : game_state) : Prop :=
  stack_redacted client.deck shadow.deck ∧
    ∀ k : Fin 7, stack_redacted (client.tableau k) (shadow.tableau k)

/-- The frame of one stack across a call with generation `t`: its clock is kept or set to
`t`. -/
def clock_kept_or (t : Int) (old new : stack_of_cards) : Prop :=
  new.last_modified = old.last_modified ∨ new.last_modified = t

/-- One mutating call on the shadow state: `pull_from_deck(&shadow, game_mode, t)` or
`move_card(&shadow->dst, &shadow->src, t)`. -/
inductive shadow_step where
  | pull (game_mode t : Int)
  | move (dst src : stack_id) (t : Int)
deriving DecidableEq, Repr

/-- A sequence of mutating calls on the shadow state, results dropped. -/
def shadow_steps : game_state → List shadow_step → Option game_state
  | shadow, [] => some shadow
  | shadow, .pull m t :: rest =>
    match pull_from_deck shadow m t with
    | none => none
    | some (_, shadow1) => shadow_steps shadow1 rest
  | shadow, .move dst src t :: rest =>
    match move_in_state shadow dst src t with
    | none => none
    | some (_, shadow1) => shadow_steps shadow1 rest

/-- Every `move_card` of the sequence is between two distinct stacks. -/
def distinct_moves : List shadow_step → Prop
  | [] => True
  | .pull _ _ :: rest => distinct_moves rest
  | .move dst src _ :: rest => dst ≠ src ∧ distinct_moves rest

/-- The sum of the count fields of the deck, the waste, the 4 foundations and the 7
tableaus. -/
def total_count (gs : game_state) : Int :=
  gs.deck.count + gs.waste.count + (∑ i, (gs.foundation i).count)
    + ∑ i, (gs.tableau i).count

/-- The scenario of the conservation of cards: `init_game`, then a sequence of mutating
calls on the shadow state; the result is the shadow state at that point. -/
def deal_then_steps (rnd : (i : Nat) → Fin (i + 1)) (shadow client : game_state) (t : Int)
    (steps : List shadow_step) : Option game_state :=
  match init_game rnd shadow client t with
  | none => none
  | some (sh0, _) => shadow_steps sh0 steps

/-- The state `sh1` is the state `sh` after the `k` top cards of the waste have been moved
back to the deck with generation `t`: the deck has gained them on top, face-down, the old
waste top deepest, the waste has lost them, and nothing else has changed (with `k = 0`
nothing at all). -/
def recycled (t : Int) (sh sh1 : game_state) (k : Nat) : Prop :=
  sh1.deck.count = sh.deck.count + k ∧ sh1.waste.count = sh.waste.count - k ∧
    sh1.deck.cs.length = sh.deck.cs.length ∧ sh1.waste.cs.length = sh.waste.cs.length ∧
    (∀ j, sh1.deck.cs[j]? =
      if sh.deck.count.toNat ≤ j ∧ j < sh.deck.count.toNat + k then
        (sh.waste.cs[sh.waste.count.toNat - 1 - (j - sh.deck.count.toNat)]?).map
          (fun x => { x with face_up := false })
      else sh.deck.cs[j]?) ∧
    (∀ j, sh1.waste.cs[j]? =
      if sh.waste.count.toNat - k ≤ j ∧ j < sh.waste.count.toNat then some NULLCARD
      else sh.waste.cs[j]?) ∧
    sh1.foundation = sh.foundation ∧ sh1.tableau = sh.tableau ∧
    sh1.last_modified = sh.last_modified ∧
    (k = 0 → sh1 = sh) ∧
    (0 < k → sh1.deck.last_modified = t ∧ sh1.waste.last_modified = t)

/-- The strict well-formedness of a stack: `count` equals the number of leading non-empty
entries, `count` is strictly below the capacity of the array, and every entry from index
`count` on is the empty card. -/
def stack_wf_strict (s : stack_of_cards) : Prop :=
  stack_wf s ∧ s.count.toNat < s.cs.length

instance (s : stack_of_cards) : Decidable (stack_wf_strict s) := by
  unfold stack_wf_strict; infer_instance

/-- The card without suit and rank that is face-up: not the empty card for
`IS_NULLCARD`, and the empty card once turned face-down. -/
def BLANK_FACE_UP : card := ⟨NO_COLOR, NO_RANK, true⟩

/-- The loop of `main`, lines 333-338, cut after `k` rounds: `k` successive calls
`pull_from_deck(&shadow, game_mode, ++t)` with `t` starting at `t0`, so that call `k` has
generation `t0 + k`. Returns the values returned by the calls, in order, and the shadow
state after the last one. -/
def pulls (game_mode : Int) (t0 : Int) (shadow : game_state) :
    Nat → Option (List Int × game_state)
  | 0 => some ([], shadow)
  | k + 1 =>
    match pulls game_mode t0 shadow k with
    | none => none
    | some (rs, sh) =>
      match pull_from_deck sh game_mode (t0 + k + 1) with
      | none => none
      | some (r, sh1) => some (rs ++ [r], sh1)

/-- The arrays of a state have the capacities `main` gives them (lines 274-279), or more:
25 slots for the deck and the waste, 14 for each foundation, 20 for each tableau. -/
def state_sized (gs : game_state) : Prop :=
  25 ≤ gs.deck.cs.length ∧ 25 ≤ gs.waste.cs.length ∧
    (∀ i, 14 ≤ (gs.foundation i).cs.length) ∧ ∀ k, 20 ≤ (gs.tableau k).cs.length

instance (gs : game_state) : Decidable (state_sized gs) := by
  unfold state_sized; infer_instance

/-- A real card: one with a concrete suit, `HEARTS .. CLUBS`, and a concrete rank,
`ACE .. KING`. -/
def is_real (x : card) : Prop :=
  HEARTS ≤ x.c ∧ x.c ≤ CLUBS ∧ ACE ≤ x.r ∧ x.r ≤ KING

instance (x : card) : Decidable (is_real x) := by
  unfold is_real; infer_instance

/-- The suit and the rank of a card, `face_up` ignored. -/
def suit_rank (x : card) : Int × Int := (x.c, x.r)

/-- The cards the deal has placed in a shadow state: the first 24 slots of the deck and the
first `k` slots of tableau `k`, `k = 1 .. 7`. -/
def dealt_cards (sh : game_state) : List card :=
  sh.deck.cs.take 24
    ++ (List.finRange 7).flatMap (fun k => (sh.tableau k).cs.take (k.val + 1))

/-! ## Concrete states -/

/-- A stack with the given clock and live cards in an array of `cap` slots, the other slots
empty. -/
def pile (t : Int) (cards : List card) (cap : Nat) : stack_of_cards :=
  { last_modified := t,
    cs := cards ++ List.replicate (cap - cards.length) NULLCARD,
    count := cards.length }

/-- A client as `main` declares it: every clock -1, every stack empty. -/
def ex_blank : game_state :=
  { last_modified := -1,
    deck := pile (-1) [] 25,
    waste := pile (-1) [] 25,
    foundation := fun _ => pile (-1) [] 14,
    tableau := fun _ => pile (-1) [] 20 }

/-- A shadow state at generation 3: the draw of generation 3 has moved one card from the
deck to the waste; one foundation was last touched at generation 2, the tableaus at
generation 0. -/
def ex_shadow : game_state :=
  { last_modified := 3,
    deck := pile 3 [⟨1, 2, false⟩, ⟨3, 7, false⟩] 25,
    waste := pile 3 [⟨4, 9, true⟩] 25,
    foundation := ![pile 2 [⟨1, 1, true⟩] 14, pile 0 [] 14, pile 0 [] 14, pile 0 [] 14],
    tableau := ![pile 0 [⟨2, 13, true⟩] 20, pile 0 [⟨2, 12, false⟩, ⟨4, 13, true⟩] 20,
      pile 0 [] 20, pile 0 [] 20, pile 0 [] 20, pile 0 [] 20, pile 0 [] 20] }

/-- The client view synchronised at generation 2, before the draw of `ex_shadow`. -/
def ex_client : game_state :=
  { last_modified := 2,
    deck := pile 2 [UNKNOWNCARD, UNKNOWNCARD, UNKNOWNCARD] 25,
    waste := pile 0 [] 25,
    foundation := ![pile 2 [⟨1, 1, true⟩] 14, pile 0 [] 14, pile 0 [] 14, pile 0 [] 14],
    tableau := ![pile 0 [⟨2, 13, true⟩] 20, pile 0 [UNKNOWNCARD, ⟨4, 13, true⟩] 20,
      pile 0 [] 20, pile 0 [] 20, pile 0 [] 20, pile 0 [] 20, pile 0 [] 20] }

/-- The client view of `ex_shadow`. -/
def ex_synced : game_state :=
  { last_modified := 3,
    deck := pile 3 [UNKNOWNCARD, UNKNOWNCARD] 25,
    waste := pile 3 [⟨4, 9, true⟩] 25,
    foundation := ![pile 2 [⟨1, 1, true⟩] 14, pile 0 [] 14, pile 0 [] 14, pile 0 [] 14],
    tableau := ![pile 0 [⟨2, 13, true⟩] 20, pile 0 [UNKNOWNCARD, ⟨4, 13, true⟩] 20,
      pile 0 [] 20, pile 0 [] 20, pile 0 [] 20, pile 0 [] 20, pile 0 [] 20] }

/-- A stale, empty destination of 20 slots. -/
def ex_dst : stack_of_cards := pile 0 [] 20

/-- A source of 20 slots with one live card, its terminator, and a card left behind the
terminator. -/
def ex_src_tail : stack_of_cards :=
  { last_modified := 1,
    cs := [⟨1, 1, true⟩, NULLCARD, ⟨2, 2, true⟩] ++ List.replicate 17 NULLCARD,
    count := 1 }

/-- A shadow state that differs from `ex_shadow` only in the suit and rank of face-down
cards of the deck and of one tableau. -/
def ex_shadow_alt : game_state :=
  { last_modified := 3,
    deck := pile 3 [⟨2, 5, false⟩, ⟨4, 1, false⟩] 25,
    waste := pile 3 [⟨4, 9, true⟩] 25,
    foundation := ![pile 2 [⟨1, 1, true⟩] 14, pile 0 [] 14, pile 0 [] 14, pile 0 [] 14],
    tableau := ![pile 0 [⟨2, 13, true⟩] 20, pile 0 [⟨3, 3, false⟩, ⟨4, 13, true⟩] 20,
      pile 0 [] 20, pile 0 [] 20, pile 0 [] 20, pile 0 [] 20, pile 0 [] 20] }

/-- The state `ex_shadow` after `move_card(&foundation[1], &waste, 4)`: the top-level clock
is still 3. -/
def ex_moved : game_state :=
  (ex_shadow.put (.foundation 1) (pile 4 [⟨4, 9, true⟩] 14)).put .waste (pile 4 [] 25)

/-- The client view of `ex_moved` once its top-level clock is 4. -/
def ex_moved_view : game_state :=
  { last_modified := 4,
    deck := pile 3 [UNKNOWNCARD, UNKNOWNCARD] 25,
    waste := pile 4 [] 25,
    foundation := ![pile 2 [⟨1, 1, true⟩] 14, pile 4 [⟨4, 9, true⟩] 14, pile 0 [] 14,
      pile 0 [] 14],
    tableau := ![pile 0 [⟨2, 13, true⟩] 20, pile 0 [UNKNOWNCARD, ⟨4, 13, true⟩] 20,
      pile 0 [] 20, pile 0 [] 20, pile 0 [] 20, pile 0 [] 20, pile 0 [] 20] }

/-- An outcome of the random draws of the shuffle: `arc4random_uniform(i + 1)` returns
`i / 2` in round `i`. -/
def ex_rnd : (i : Nat) → Fin (i + 1) := fun i => ⟨i / 2, by omega⟩

/-- The state `ex_shadow` once its three deck and waste cards have all been drawn at
generation 5: the deck is empty and the waste holds them face-up. -/
def ex_spent : game_state :=
  { ex_shadow with
    last_modified := 5,
    deck := pile 5 [] 25,
    waste := pile 5 [⟨4, 9, true⟩, ⟨3, 7, true⟩, ⟨1, 2, true⟩] 25 }

/-- A state whose deck is empty and whose waste holds one card, face-up, without suit and
rank. -/
def ex_blank_waste : game_state :=
  { ex_blank with waste := pile (-1) [BLANK_FACE_UP] 25 }

/-- A state as the deal leaves deck and waste: a deck of 24 face-down cards in 25 slots and
an empty waste. -/
def ex_full_deck : game_state :=
  { ex_blank with
    last_modified := 0,
    deck := pile 0 (cs_tmp_deck.take 24) 25,
    waste := pile 0 [] 25 }

/-! ## Lemmas on the memory primitives and the copies -/

theorem rd_eq_some {cs : List card} {i : Int} {x : card} (h : rd cs i = some x) :
    0 ≤ i ∧ cs[i.toNat]? = some x := by
  unfold rd at h
  split at h
  · exact ⟨by assumption, h⟩
  · cases h

theorem rd_of_lt {cs : List card} {i : Int} (h0 : 0 ≤ i) (h1 : i.toNat < cs.length) :
    rd cs i = some (cs.get ⟨i.toNat, h1⟩) := by
  unfold rd
  rw [if_pos h0]
  exact List.getElem?_eq_getElem h1

theorem wr_of_lt {cs : List card} {i : Int} (x : card) (h0 : 0 ≤ i)
    (h1 : i.toNat < cs.length) : wr cs i x = some (cs.set i.toNat x) := by
  unfold wr
  rw [if_pos ⟨h0, h1⟩]

theorem wr_eq_some {cs cs' : List card} {i : Int} {x : card} (h : wr cs i x = some cs') :
    0 ≤ i ∧ i.toNat < cs.length ∧ cs' = cs.set i.toNat x := by
  unfold wr at h
  split at h
  · rename_i hc
    exact ⟨hc.1, hc.2, (Option.some.inj h).symm⟩
  · cases h

theorem memcpy_of_le {dst src : List card} {n : Nat} (hd : n ≤ dst.length)
    (hs : n ≤ src.length) : memcpy dst src n = some (src.take n ++ dst.drop n) := by
  unfold memcpy
  rw [if_pos ⟨hd, hs⟩]

theorem memcpy_eq_some {dst src cs : List card} {n : Nat} (h : memcpy dst src n = some cs) :
    n ≤ dst.length ∧ n ≤ src.length ∧ cs = src.take n ++ dst.drop n := by
  unfold memcpy at h
  split at h
  · rename_i hc
    exact ⟨hc.1, hc.2, (Option.some.inj h).symm⟩
  · cases h

theorem copied_length {dst src : List card} {n : Nat} (hd : n ≤ dst.length)
    (hs : n ≤ src.length) : (src.take n ++ dst.drop n).length = dst.length := by
  simp [List.length_take, List.length_drop, Nat.min_eq_left hs]
  omega

theorem copied_get_lt {dst src : List card} {n i : Nat} (hs : n ≤ src.length) (hi : i < n) :
    (src.take n ++ dst.drop n)[i]? = src[i]? := by
  rw [List.getElem?_append_left (by simp [List.length_take]; omega)]
  rw [List.getElem?_take_of_lt hi]

theorem copied_get_ge {dst src : List card} {n i : Nat} (hs : n ≤ src.length) (hi : n ≤ i) :
    (src.take n ++ dst.drop n)[i]? = dst[i]? := by
  have hl : (src.take n).length = n := by simp [List.length_take]; omega
  rw [List.getElem?_append_right (by omega), hl, List.getElem?_drop]
  congr 1
  omega

theorem redacted_copy_src {dst src d s : stack_of_cards} {n : Nat}
    (h : redacted_copy dst src n = some (d, s)) : s = src := by
  unfold redacted_copy at h
  split at h
  · split at h
    · cases h
    · dsimp only at h
      split at h
      · cases h
      · simp only [Option.some.injEq, Prod.mk.injEq] at h
        exact h.2.symm
  · simp only [Option.some.injEq, Prod.mk.injEq] at h
    exact h.2.symm

theorem plain_copy_src {dst src d s : stack_of_cards} {n : Nat}
    (h : plain_copy dst src n = some (d, s)) : s = src := by
  unfold plain_copy at h
  split at h
  · split at h
    · cases h
    · simp only [Option.some.injEq, Prod.mk.injEq] at h
      exact h.2.symm
  · simp only [Option.some.injEq, Prod.mk.injEq] at h
    exact h.2.symm

theorem redacted_copy_skip {dst src : stack_of_cards} (n : Nat)
    (h : src.last_modified ≤ dst.last_modified) :
    redacted_copy dst src n = some (dst, src) := by
  unfold redacted_copy
  rw [if_neg (by omega)]

theorem plain_copy_skip {dst src : stack_of_cards} (n : Nat)
    (h : src.last_modified ≤ dst.last_modified) :
    plain_copy dst src n = some (dst, src) := by
  unfold plain_copy
  rw [if_neg (by omega)]

theorem redacted_copy_clock {dst src d s : stack_of_cards} {n : Nat}
    (h : redacted_copy dst src n = some (d, s)) :
    src.last_modified ≤ d.last_modified := by
  unfold redacted_copy at h
  split at h
  · split at h
    · cases h
    · dsimp only at h
      split at h
      · cases h
      · simp only [Option.some.injEq, Prod.mk.injEq] at h
        rw [← h.1]
  · simp only [Option.some.injEq, Prod.mk.injEq] at h
    rw [← h.1]; omega

theorem plain_copy_clock {dst src d s : stack_of_cards} {n : Nat}
    (h : plain_copy dst src n = some (d, s)) :
    src.last_modified ≤ d.last_modified := by
  unfold plain_copy at h
  split at h
  · split at h
    · cases h
    · simp only [Option.some.injEq, Prod.mk.injEq] at h
      rw [← h.1]
  · simp only [Option.some.injEq, Prod.mk.injEq] at h
    rw [← h.1]; omega

/-- What the first `k` rounds of the loop over the foundations compute. -/
theorem update_foundations_spec (c s : game_state) :
    ∀ (k : Nat) (c' s' : game_state), update_foundations c s k = some (c', s') →
      s' = s ∧ c'.last_modified = c.last_modified ∧ c'.deck = c.deck ∧
      c'.waste = c.waste ∧ c'.tableau = c.tableau ∧
      (∀ i : Fin 4, i.val < k →
        plain_copy (c.foundation i) (s.foundation i) 14
          = some (c'.foundation i, s.foundation i)) ∧
      (∀ i : Fin 4, k ≤ i.val → c'.foundation i = c.foundation i)
  | 0, c', s', h => by
    simp only [update_foundations, Option.some.injEq, Prod.mk.injEq] at h
    obtain ⟨rfl, rfl⟩ := h
    exact ⟨rfl, rfl, rfl, rfl, rfl, fun i hi => absurd hi (Nat.not_lt_zero _), fun _ _ => rfl⟩
  | k + 1, c', s', h => by
    rw [update_foundations] at h
    split at h
    · cases h
    · rename_i cl sh hk
      obtain ⟨rfl, h1, h2, h3, h4, h5, h6⟩ := update_foundations_spec c s k cl sh hk
      split at h
      · rename_i hlt
        split at h
        · cases h
        · rename_i d s0 hp
          have hs0 := plain_copy_src hp
          subst hs0
          simp only [Option.some.injEq, Prod.mk.injEq] at h
          obtain ⟨rfl, rfl⟩ := h
          refine ⟨?_, h1, h2, h3, h4, ?_, ?_⟩
          · simp
          · intro i hi
            by_cases hik : i = ⟨k, hlt⟩
            · subst hik
              simp only [Function.update_same]
              rw [← h6 ⟨k, hlt⟩ (Nat.le_refl _)]
              exact hp
            · have : i.val ≠ k := fun e => hik (Fin.ext e)
              simp only [Function.update_noteq hik]
              exact h5 i (by omega)
          · intro i hi
            have hik : i ≠ ⟨k, hlt⟩ := by
              intro e; rw [e] at hi; simp at hi
            simp only [Function.update_noteq hik]
            exact h6 i (by omega)
      · cases h

/-- What the first `k` rounds of the loop over the tableaus compute. -/
theorem update_tableaus_spec (c s : game_state) :
    ∀ (k : Nat) (c' s' : game_state), update_tableaus c s k = some (c', s') →
      s' = s ∧ c'.last_modified = c.last_modified ∧ c'.deck = c.deck ∧
      c'.waste = c.waste ∧ c'.foundation = c.foundation ∧
      (∀ i : Fin 7, i.val < k →
        redacted_copy (c.tableau i) (s.tableau i) 20
          = some (c'.tableau i, s.tableau i)) ∧
      (∀ i : Fin 7, k ≤ i.val → c'.tableau i = c.tableau i)
  | 0, c', s', h => by
    simp only [update_tableaus, Option.some.injEq, Prod.mk.injEq] at h
    obtain ⟨rfl, rfl⟩ := h
    exact ⟨rfl, rfl, rfl, rfl, rfl, fun i hi => absurd hi (Nat.not_lt_zero _), fun _ _ => rfl⟩
  | k + 1, c', s', h => by
    rw [update_tableaus] at h
    split at h
    · cases h
    · rename_i cl sh hk
      obtain ⟨rfl, h1, h2, h3, h4, h5, h6⟩ := update_tableaus_spec c s k cl sh hk
      split at h
      · rename_i hlt
        split at h
        · cases h
        · rename_i d s0 hp
          have hs0 := redacted_copy_src hp
          subst hs0
          simp only [Option.some.injEq, Prod.mk.injEq] at h
          obtain ⟨rfl, rfl⟩ := h
          refine ⟨?_, h1, h2, h3, h4, ?_, ?_⟩
          · simp
          · intro i hi
            by_cases hik : i = ⟨k, hlt⟩
            · subst hik
              simp only [Function.update_same]
              rw [← h6 ⟨k, hlt⟩ (Nat.le_refl _)]
              exact hp
            · have : i.val ≠ k := fun e => hik (Fin.ext e)
              simp only [Function.update_noteq hik]
              exact h5 i (by omega)
          · intro i hi
            have hik : i ≠ ⟨k, hlt⟩ := by
              intro e; rw [e] at hi; simp at hi
            simp only [Function.update_noteq hik]
            exact h6 i (by omega)
      · cases h

/-- The loop over the foundations succeeds when each of its copies does. -/
theorem update_foundations_complete (c s : game_state) (f : Fin 4 → stack_of_cards)
    (hf : ∀ i : Fin 4, plain_copy (c.foundation i) (s.foundation i) 14
      = some (f i, s.foundation i)) :
    ∀ k : Nat, k ≤ 4 → update_foundations c s k
      = some ({ c with foundation := fun i => if i.val < k then f i else c.foundation i }, s)
  | 0, _ => by
    simp [update_foundations]
  | k + 1, hk => by
    rw [update_foundations, update_foundations_complete c s f hf k (by omega)]
    have hlt : k < 4 := by omega
    simp only [dif_pos hlt, lt_self_iff_false, if_false, hf ⟨k, hlt⟩]
    simp only [Function.update_eq_self, Option.some.injEq, Prod.mk.injEq, and_true]
    congr 1
    funext i
    by_cases hik : i = ⟨k, hlt⟩
    · subst hik; simp
    · have : i.val ≠ k := fun e => hik (Fin.ext e)
      simp only [Function.update_noteq hik]
      by_cases hl : i.val < k
      · simp [hl, Nat.lt_succ_of_lt hl]
      · have : ¬ i.val < k + 1 := by omega
        simp [hl, this]

/-- The loop over the tableaus succeeds when each of its copies does. -/
theorem update_tableaus_complete (c s : game_state) (f : Fin 7 → stack_of_cards)
    (hf : ∀ i : Fin 7, redacted_copy (c.tableau i) (s.tableau i) 20
      = some (f i, s.tableau i)) :
    ∀ k : Nat, k ≤ 7 → update_tableaus c s k
      = some ({ c with tableau := fun i => if i.val < k then f i else c.tableau i }, s)
  | 0, _ => by
    simp [update_tableaus]
  | k + 1, hk => by
    rw [update_tableaus, update_tableaus_complete c s f hf k (by omega)]
    have hlt : k < 7 := by omega
    simp only [dif_pos hlt, lt_self_iff_false, if_false, hf ⟨k, hlt⟩]
    simp only [Function.update_eq_self, Option.some.injEq, Prod.mk.injEq, and_true]
    congr 1
    funext i
    by_cases hik : i = ⟨k, hlt⟩
    · subst hik; simp
    · have : i.val ≠ k := fun e => hik (Fin.ext e)
      simp only [Function.update_noteq hik]
      by_cases hl : i.val < k
      · simp [hl, Nat.lt_succ_of_lt hl]
      · have : ¬ i.val < k + 1 := by omega
        simp [hl, this]

/-- What `update_client_data` computes when the client is behind the shadow. -/
theorem update_client_data_spec {c s c' s' : game_state}
    (hlt : c.last_modified < s.last_modified)
    (h : update_client_data c s = some (c', s')) :
    s' = s ∧ c'.last_modified = s.last_modified ∧
      redacted_copy c.deck s.deck 25 = some (c'.deck, s.deck) ∧
      plain_copy c.waste s.waste 25 = some (c'.waste, s.waste) ∧
      (∀ i : Fin 4, plain_copy (c.foundation i) (s.foundation i) 14
        = some (c'.foundation i, s.foundation i)) ∧
      (∀ i : Fin 7, redacted_copy (c.tableau i) (s.tableau i) 20
        = some (c'.tableau i, s.tableau i)) := by
  unfold update_client_data at h
  rw [if_pos hlt] at h
  dsimp only at h
  split at h
  · cases h
  · rename_i d0 s0 hd
    have e0 := redacted_copy_src hd
    subst e0
    split at h
    · cases h
    · rename_i d1 s1 hw
      have e1 := plain_copy_src hw
      subst e1
      split at h
      · cases h
      · rename_i c2 s2 hf
        obtain ⟨rfl, f1, f2, f3, f4, f5, _⟩ := update_foundations_spec _ _ 4 c2 s2 hf
        obtain ⟨rfl, t1, t2, t3, t4, t5, _⟩ := update_tableaus_spec _ _ 7 c' s' h
        dsimp only at f1 f2 f3 f4 f5 t1 t2 t3 t4 t5 hw
        refine ⟨by cases s; rfl, by rw [t1, f1], ?_, ?_, ?_, ?_⟩
        · rw [t2, f2]; exact hd
        · rw [t3, f3]; exact hw
        · intro i; rw [t4]; exact f5 i i.isLt
        · intro i; have := t5 i i.isLt; rw [f4] at this; exact this

/-- The driver succeeds when each copy does, and its result is made of their results. -/
theorem update_client_data_complete {c s : game_state} {d w : stack_of_cards}
    {f : Fin 4 → stack_of_cards} {g : Fin 7 → stack_of_cards}
    (hlt : c.last_modified < s.last_modified)
    (hd : redacted_copy c.deck s.deck 25 = some (d, s.deck))
    (hw : plain_copy c.waste s.waste 25 = some (w, s.waste))
    (hf : ∀ i : Fin 4, plain_copy (c.foundation i) (s.foundation i) 14
      = some (f i, s.foundation i))
    (ht : ∀ i : Fin 7, redacted_copy (c.tableau i) (s.tableau i) 20
      = some (g i, s.tableau i)) :
    update_client_data c s
      = some ({ last_modified := s.last_modified, deck := d, waste := w,
                foundation := f, tableau := g }, s) := by
  unfold update_client_data
  rw [if_pos hlt]
  dsimp only
  rw [hd]
  dsimp only
  rw [hw]
  dsimp only
  have hs : game_state.mk s.last_modified s.deck s.waste s.foundation s.tableau = s := by
    cases s; rfl
  rw [hs]
  have h1 := update_foundations_complete
    (game_state.mk s.last_modified d w c.foundation c.tableau) s f hf 4 (Nat.le_refl _)
  rw [h1]
  dsimp only
  have h2 := update_tableaus_complete
    (game_state.mk s.last_modified d w
      (fun i => if i.val < 4 then f i else c.foundation i) c.tableau) s g ht 7 (Nat.le_refl _)
  rw [h2]
  simp only [Option.some.injEq, Prod.mk.injEq, and_true]
  congr 1
  · funext i; simp [i.isLt]
  · funext i; simp [i.isLt]

theorem update_client_data_skip {c s : game_state}
    (h : s.last_modified ≤ c.last_modified) :
    update_client_data c s = some (c, s) := by
  unfold update_client_data
  rw [if_neg (by omega)]

/-- The driver hands the shadow back unchanged. -/
theorem update_client_data_shadow {c s c1 s1 : game_state}
    (h : update_client_data c s = some (c1, s1)) : s1 = s := by
  by_cases hlt : c.last_modified < s.last_modified
  · exact (update_client_data_spec hlt h).1
  · rw [update_client_data_skip (by omega)] at h
    simp only [Option.some.injEq, Prod.mk.injEq] at h
    exact h.2.symm

/-- The redaction loop on an array whose first empty slot is at index `k`: the `k` cards
before it are redacted, the slots from `k` on are untouched. -/
theorem redact_loop_of_terminated :
    ∀ (L : List card) (k : Nat), L[k]? = some NULLCARD →
      (∀ x ∈ L.take k, x ≠ NULLCARD) →
      redact_loop L = some ((L.take k).map redact_card ++ L.drop k)
  | [], k, hk, _ => by simp at hk
  | x :: r, 0, hk, _ => by
    simp only [List.getElem?_cons_zero, Option.some.injEq] at hk
    simp [redact_loop, hk]
  | x :: r, k + 1, hk, hl => by
    have hx : x ≠ NULLCARD := hl x (by simp)
    have ih := redact_loop_of_terminated r k (by simpa using hk)
      (fun y hy => hl y (by simp [hy]))
    simp [redact_loop, hx, ih, redact_card]

theorem redacted_get_lt {L : List card} {k i : Nat} (hi : i < k) (hk : k ≤ L.length) :
    ((L.take k).map redact_card ++ L.drop k)[i]? = (L[i]?).map redact_card := by
  rw [List.getElem?_append_left (by simp [List.length_take]; omega)]
  rw [List.getElem?_map, List.getElem?_take_of_lt hi]

theorem redacted_get_ge {L : List card} {k i : Nat} (hi : k ≤ i) (hk : k ≤ L.length) :
    ((L.take k).map redact_card ++ L.drop k)[i]? = L[i]? := by
  have hl : ((L.take k).map redact_card).length = k := by
    simp [List.length_take]; omega
  rw [List.getElem?_append_right (by omega), hl, List.getElem?_drop]
  congr 1
  omega

theorem redacted_length {L : List card} {k : Nat} :
    ((L.take k).map redact_card ++ L.drop k).length = L.length := by
  simp [List.length_take, List.length_drop]
  omega

/-- `redacted_copy` of a terminated source into a stale destination, as a list. -/
theorem redacted_copy_of_terminated {dst src : stack_of_cards} {n : Nat}
    (hlt : dst.last_modified < src.last_modified) (hd : n ≤ dst.cs.length)
    (hs : stack_terminated src n) :
    redacted_copy dst src n = some
      ({ last_modified := src.last_modified,
         cs := ((src.cs.take n ++ dst.cs.drop n).take src.count.toNat).map redact_card
                ++ (src.cs.take n ++ dst.cs.drop n).drop src.count.toNat,
         count := src.count }, src) := by
  obtain ⟨_, h1, h2, h3, h4⟩ := hs
  unfold redacted_copy
  rw [if_pos hlt, memcpy_of_le hd h2]
  dsimp only
  rw [redact_loop_of_terminated _ src.count.toNat]
  · rw [copied_get_lt h2 h1]; exact h4
  · intro x hx
    apply h3
    rw [List.take_append_of_le_length (by simp [List.length_take]; omega)] at hx
    rw [List.take_take] at hx
    rwa [Nat.min_eq_left (Nat.le_of_lt h1)] at hx

/-- Two arrays that carry, on their first `k` slots, non-empty cards with the same
orientation and the same face-up identities, and are equal from slot `k` on, are redacted
to the same array. -/
theorem redact_loop_agree :
    ∀ (l1 l2 : List card) (k : Nat), l1.length = l2.length →
      (∀ i x y, i < k → l1[i]? = some x → l2[i]? = some y →
        x ≠ NULLCARD ∧ y ≠ NULLCARD ∧ x.face_up = y.face_up ∧ (x.face_up = true → x = y)) →
      (∀ i, k ≤ i → l1[i]? = l2[i]?) →
      redact_loop l1 = redact_loop l2
  | [], [], _, _, _, _ => rfl
  | [], _ :: _, _, hl, _, _ => by simp at hl
  | _ :: _, [], _, hl, _, _ => by simp at hl
  | x :: r1, y :: r2, 0, _, _, h2 => by
    have : x :: r1 = y :: r2 := by
      apply List.ext_getElem?
      intro i
      exact h2 i (Nat.zero_le _)
    rw [this]
  | x :: r1, y :: r2, k + 1, hl, h1, h2 => by
    obtain ⟨hx, hy, hf, he⟩ := h1 0 x y (Nat.succ_pos _) (by simp) (by simp)
    have ih := redact_loop_agree r1 r2 k (by simpa using hl)
      (fun i a b hi ha hb => h1 (i + 1) a b (by omega) (by simpa using ha) (by simpa using hb))
      (fun i hi => by simpa using h2 (i + 1) (by omega))
    have hr : (if !x.face_up then UNKNOWNCARD else x) = (if !y.face_up then UNKNOWNCARD else y) := by
      cases hxf : x.face_up
      · have hyf : y.face_up = false := by rw [← hf, hxf]
        simp [hyf]
      · have hyf : y.face_up = true := by rw [← hf, hxf]
        simp [hyf, he hxf]
    simp only [redact_loop, hx, hy, if_false, ih, hr]

theorem card_ext {x y : card} (h1 : x.c = y.c) (h2 : x.r = y.r) (h3 : x.face_up = y.face_up) :
    x = y := by
  cases x; cases y; simp_all

theorem mem_take_of_get {l : List card} {k i : Nat} {x : card} (hi : i < k)
    (h : l[i]? = some x) : x ∈ l.take k :=
  List.getElem?_mem (by rw [List.getElem?_take_of_lt hi]; exact h)

theorem mem_drop_of_get {l : List card} {k i : Nat} {x : card} (hi : k ≤ i)
    (h : l[i]? = some x) : x ∈ l.drop k :=
  List.getElem?_mem (n := i - k) (by
    rw [List.getElem?_drop]
    rw [show k + (i - k) = i by omega]
    exact h)

/-- In a well-formed stack the slots from `count` on are empty. -/
theorem stack_wf_get_ge {s : stack_of_cards} (hs : stack_wf s) {i : Nat}
    (hi : s.count.toNat ≤ i) (hl : i < s.cs.length) : s.cs[i]? = some NULLCARD := by
  have hx : s.cs[i]? = some (s.cs.get ⟨i, hl⟩) := List.getElem?_eq_getElem hl
  rw [hx, hs.2.2.2 _ (mem_drop_of_get hi hx)]

/-- In a well-formed stack the slots below `count` are not empty. -/
theorem stack_wf_get_lt {s : stack_of_cards} (hs : stack_wf s) {i : Nat} {x : card}
    (hi : i < s.count.toNat) (hx : s.cs[i]? = some x) : x ≠ NULLCARD :=
  hs.2.2.1 x (mem_take_of_get hi hx)

/-- Slot-wise reading of `stacks_agree` for well-formed stacks. -/
theorem stacks_agree_slots {a b : stack_of_cards} (hab : stacks_agree a b)
    (ha : stack_wf a) (hb : stack_wf b) :
    a.cs.length = b.cs.length ∧
    (∀ i x y, i < a.count.toNat → a.cs[i]? = some x → b.cs[i]? = some y →
      x ≠ NULLCARD ∧ y ≠ NULLCARD ∧ x.face_up = y.face_up ∧ (x.face_up = true → x = y)) ∧
    (∀ i, a.count.toNat ≤ i → a.cs[i]? = b.cs[i]?) := by
  obtain ⟨_, hc, hf, hz⟩ := hab
  have hlen : a.cs.length = b.cs.length := by
    have := congrArg List.length hf
    simpa using this
  refine ⟨hlen, ?_, ?_⟩
  · intro i x y hi hx hy
    have hfi : x.face_up = y.face_up := by
      have := congrArg (fun l => l[i]?) hf
      simpa [List.getElem?_map, hx, hy] using this
    have hzi : (x, y) ∈ a.cs.zip b.cs :=
      List.getElem?_mem (n := i) (by rw [List.getElem?_zip_eq_some]; exact ⟨hx, hy⟩)
    refine ⟨stack_wf_get_lt ha hi hx, stack_wf_get_lt hb (by rw [← hc]; exact hi) hy,
      hfi, fun hup => ?_⟩
    obtain ⟨e1, e2⟩ := hz (x, y) hzi hup
    exact card_ext e1 e2 hfi
  · intro i hi
    by_cases hil : i < a.cs.length
    · rw [stack_wf_get_ge ha hi hil, stack_wf_get_ge hb (by rw [← hc]; exact hi) (by omega)]
    · rw [List.getElem?_eq_none (by omega), List.getElem?_eq_none (by omega)]

/-! ## Stacks of a state -/

theorem get_put_same (gs : game_state) (id : stack_id) (s : stack_of_cards) :
    (gs.put id s).get id = s := by
  cases id <;> simp [game_state.put, game_state.get]

theorem get_put_ne (gs : game_state) {id id' : stack_id} (h : id' ≠ id) (s : stack_of_cards) :
    (gs.put id s).get id' = gs.get id' := by
  cases id <;> cases id' <;> simp_all [game_state.put, game_state.get]

theorem get_set_clock (gs : game_state) (t : Int) (id : stack_id) :
    ({ gs with last_modified := t } : game_state).get id = gs.get id := by
  cases id <;> rfl

/-! ## `move_card` -/

/-- What a successful `move_card` has done. -/
theorem move_card_true {dst src d s : stack_of_cards} {t : Int}
    (h : move_card dst src t = some (true, d, s)) :
    1 ≤ src.count ∧ (src.count - 1).toNat < src.cs.length ∧
      0 ≤ dst.count ∧ dst.count.toNat < dst.cs.length ∧
      ∃ top, src.cs[(src.count - 1).toNat]? = some top ∧
        d = { last_modified := t, cs := dst.cs.set dst.count.toNat top,
              count := dst.count + 1 } ∧
        s = { last_modified := t, cs := src.cs.set (src.count - 1).toNat ZEROCARD,
              count := src.count - 1 } := by
  unfold move_card at h
  split at h
  · rename_i hc
    split at h
    · cases h
    · rename_i top hr
      split at h
      · cases h
      · rename_i dcs hw
        dsimp only at h
        split at h
        · cases h
        · rename_i scs hw2
          obtain ⟨_, hr2⟩ := rd_eq_some hr
          obtain ⟨a1, a2, a3⟩ := wr_eq_some hw
          obtain ⟨b1, b2, b3⟩ := wr_eq_some hw2
          simp only [Option.some.injEq, Prod.mk.injEq, true_and] at h
          refine ⟨by omega, b2, a1, a2, top, hr2, ?_, ?_⟩
          · rw [← h.1, a3]
          · rw [← h.2, b3]
  · simp at h

/-- Slot-wise reading of `stack_wf`. -/
theorem stack_wf_iff (s : stack_of_cards) :
    stack_wf s ↔ 0 ≤ s.count ∧ s.count.toNat ≤ s.cs.length ∧
      ∀ i x, s.cs[i]? = some x →
        (i < s.count.toNat → x ≠ NULLCARD) ∧ (s.count.toNat ≤ i → x = NULLCARD) := by
  constructor
  · intro h
    refine ⟨h.1, h.2.1, fun i x hx => ⟨fun hi => stack_wf_get_lt h hi hx, fun hi => ?_⟩⟩
    exact h.2.2.2 x (mem_drop_of_get hi hx)
  · rintro ⟨h0, h1, h2⟩
    refine ⟨h0, h1, ?_, ?_⟩
    · intro x hx
      obtain ⟨i, hi⟩ := List.mem_iff_getElem?.1 hx
      rw [List.getElem?_take] at hi
      split at hi
      · rename_i hlt
        exact (h2 i x hi).1 hlt
      · cases hi
    · intro x hx
      obtain ⟨i, hi⟩ := List.mem_iff_getElem?.1 hx
      rw [List.getElem?_drop] at hi
      exact (h2 _ x hi).2 (Nat.le_add_right _ _)

/-- A successful `move_card` between two well-formed stacks leaves both well formed. -/
theorem move_card_wf {dst src d s : stack_of_cards} {t : Int}
    (hd : stack_wf dst) (hs : stack_wf src)
    (h : move_card dst src t = some (true, d, s)) : stack_wf d ∧ stack_wf s := by
  obtain ⟨h1, h2, h3, h4, top, htop, rfl, rfl⟩ := move_card_true h
  rw [stack_wf_iff] at hd hs
  obtain ⟨_, _, hd3⟩ := hd
  obtain ⟨_, _, hs3⟩ := hs
  have htop_ne : top ≠ NULLCARD := (hs3 _ top htop).1 (by omega)
  constructor
  · rw [stack_wf_iff]
    refine ⟨by dsimp only; omega, by dsimp only; rw [List.length_set]; omega, ?_⟩
    intro i x hx
    dsimp only at hx ⊢
    rw [List.getElem?_set] at hx
    split at hx
    · rename_i he
      simp only [Option.some.injEq] at hx
      subst hx
      exact ⟨fun _ => htop_ne, fun hi => by omega⟩
    · rename_i hne
      obtain ⟨a, b⟩ := hd3 i x hx
      exact ⟨fun hi => a (by omega), fun hi => b (by omega)⟩
  · rw [stack_wf_iff]
    refine ⟨by dsimp only; omega, by dsimp only; rw [List.length_set]; omega, ?_⟩
    intro i x hx
    dsimp only at hx ⊢
    rw [List.getElem?_set] at hx
    split at hx
    · rename_i he
      simp only [Option.some.injEq] at hx
      subst hx
      exact ⟨fun hi => by omega, fun _ => rfl⟩
    · rename_i hne
      obtain ⟨a, b⟩ := hs3 i x hx
      exact ⟨fun hi => a (by omega), fun hi => b (by omega)⟩

/-- The redaction loop, when it returns, has redacted every slot that lies before the
first empty one. -/
theorem redact_loop_live :
    ∀ (L L' : List card) (k : Nat), redact_loop L = some L' →
      (∀ x ∈ L.take k, x ≠ NULLCARD) →
      ∀ i, i < k → L'[i]? = (L[i]?).map redact_card
  | [], _, _, h, _, _, _ => by simp [redact_loop] at h
  | x :: r, L', 0, _, _, i, hi => absurd hi (Nat.not_lt_zero _)
  | x :: r, L', k + 1, h, hl, i, hi => by
    have hx : x ≠ NULLCARD := hl x (by simp)
    rw [redact_loop, if_neg hx] at h
    split at h
    · cases h
    · rename_i r' hr
      simp only [Option.some.injEq] at h
      subst h
      cases i with
      | zero => simp [redact_card]
      | succ j =>
        simp only [List.getElem?_cons_succ]
        exact redact_loop_live r r' k hr (fun y hy => hl y (by simp [hy])) j (by omega)

/-- A `redacted_copy` that copies from a well-formed source: the destination gets the
count and clock of the source, the redacted live cards and, after them, the slots of the
source, over the `n` copied slots. -/
theorem redacted_copy_reflects {dst src d s : stack_of_cards} {n : Nat}
    (hlt : dst.last_modified < src.last_modified) (hwf : stack_wf src)
    (h : redacted_copy dst src n = some (d, s)) :
    d.count = src.count ∧ d.last_modified = src.last_modified ∧
      ∀ i x, i < n → src.cs[i]? = some x →
        d.cs[i]? = some (if i < src.count.toNat then redact_card x else x) := by
  unfold redacted_copy at h
  rw [if_pos hlt] at h
  split at h
  · cases h
  · rename_i L hm
    obtain ⟨hd, hs, rfl⟩ := memcpy_eq_some hm
    dsimp only at h
    split at h
    · cases h
    · rename_i L' hr
      simp only [Option.some.injEq, Prod.mk.injEq] at h
      obtain ⟨rfl, _⟩ := h
      refine ⟨rfl, rfl, ?_⟩
      intro i x hi hx
      dsimp only
      by_cases hc : src.count.toNat < n
      · have hterm : (src.cs.take n ++ dst.cs.drop n)[src.count.toNat]? = some NULLCARD := by
          rw [copied_get_lt hs hc]
          exact stack_wf_get_ge hwf (Nat.le_refl _) (by omega)
        have hlive : ∀ y ∈ (src.cs.take n ++ dst.cs.drop n).take src.count.toNat,
            y ≠ NULLCARD := by
          intro y hy
          rw [List.take_append_of_le_length (by simp [List.length_take]; omega),
            List.take_take, Nat.min_eq_left (Nat.le_of_lt hc)] at hy
          exact hwf.2.2.1 y hy
        rw [redact_loop_of_terminated _ _ hterm hlive] at hr
        simp only [Option.some.injEq] at hr
        subst hr
        have hk : src.count.toNat ≤ (src.cs.take n ++ dst.cs.drop n).length := by
          rw [copied_length hd hs]; omega
        by_cases hic : i < src.count.toNat
        · rw [redacted_get_lt hic hk, copied_get_lt hs hi, hx, if_pos hic]; rfl
        · rw [redacted_get_ge (by omega) hk, copied_get_lt hs hi, hx, if_neg hic]
      · have hlive : ∀ y ∈ (src.cs.take n ++ dst.cs.drop n).take n, y ≠ NULLCARD := by
          intro y hy
          rw [List.take_append_of_le_length (by simp [List.length_take]; omega),
            List.take_take, Nat.min_self] at hy
          exact hwf.2.2.1 y (List.take_subset_take_left _ (by omega) hy)
        rw [redact_loop_live _ _ n hr hlive i hi, copied_get_lt hs hi, hx,
          if_pos (by omega)]
        rfl

/-- A `plain_copy` that copies: the destination gets the count, the clock and, over the
`n` copied slots, the cards of the source. -/
theorem plain_copy_reflects {dst src d s : stack_of_cards} {n : Nat}
    (hlt : dst.last_modified < src.last_modified)
    (h : plain_copy dst src n = some (d, s)) :
    d.count = src.count ∧ d.last_modified = src.last_modified ∧
      ∀ i, i < n → d.cs[i]? = src.cs[i]? := by
  unfold plain_copy at h
  rw [if_pos hlt] at h
  split at h
  · cases h
  · rename_i L hm
    obtain ⟨hd, hs, rfl⟩ := memcpy_eq_some hm
    simp only [Option.some.injEq, Prod.mk.injEq] at h
    obtain ⟨rfl, _⟩ := h
    exact ⟨rfl, rfl, fun i hi => copied_get_lt hs hi⟩

/-! ## The draw loop -/

theorem set_face_up_top {cs : List card} {t c : Int} {i : Nat} {x : card} {b : Bool}
    (hi : i < cs.length) (hc : 0 ≤ c) (hci : c.toNat = i) :
    set_face_up { last_modified := t, cs := cs.set i x, count := c + 1 } (c + 1 - 1) b
      = some { last_modified := t, cs := cs.set i { x with face_up := b },
               count := c + 1 } := by
  have e : c + 1 - 1 = c := by omega
  have hl : (c.toNat) < (cs.set i x).length := by rw [List.length_set]; omega
  unfold set_face_up
  dsimp only
  rw [e, rd_of_lt hc hl]
  dsimp only
  rw [wr_of_lt _ hc hl]
  dsimp only
  congr 2
  subst hci
  simp [List.set_set]

/-- One round of the draw loop on an empty deck: `move_card` fails and the loop is left. -/
theorem draw_loop_empty (t : Int) (r : Nat) (i : Int) (sh : game_state)
    (h : sh.deck.count < 1) : draw_loop t (r + 1) i sh = some (i, sh) := by
  have hm : move_card sh.waste sh.deck t = some (false, sh.waste, sh.deck) := by
    unfold move_card
    rw [if_neg (by omega)]
  rw [draw_loop, hm]

/-- One round of the draw loop on a non-empty deck: the top card of the deck goes to the
top of the waste, face-up, and the three clocks are set. -/
theorem draw_loop_step (t : Int) (r : Nat) (i : Int) (sh : game_state) (top : card)
    (h1 : 1 ≤ sh.deck.count) (htop : sh.deck.cs[(sh.deck.count - 1).toNat]? = some top)
    (h3 : 0 ≤ sh.waste.count) (h4 : sh.waste.count.toNat < sh.waste.cs.length) :
    draw_loop t (r + 1) i sh = draw_loop t r (i + 1)
      { sh with
        waste := { last_modified := t,
                   cs := sh.waste.cs.set sh.waste.count.toNat { top with face_up := true },
                   count := sh.waste.count + 1 },
        deck := { last_modified := t,
                  cs := sh.deck.cs.set (sh.deck.count - 1).toNat ZEROCARD,
                  count := sh.deck.count - 1 },
        last_modified := t } := by
  have hi0 : 0 ≤ sh.deck.count - 1 := by omega
  have hi1 : (sh.deck.count - 1).toNat < sh.deck.cs.length := by
    by_contra hc
    rw [List.getElem?_eq_none (by omega)] at htop
    cases htop
  have hm : move_card sh.waste sh.deck t = some (true,
      { last_modified := t, cs := sh.waste.cs.set sh.waste.count.toNat top,
        count := sh.waste.count + 1 },
      { last_modified := t, cs := sh.deck.cs.set (sh.deck.count - 1).toNat ZEROCARD,
        count := sh.deck.count - 1 }) := by
    unfold move_card
    have hr : rd sh.deck.cs (sh.deck.count - 1) = some top := by
      unfold rd; rw [if_pos hi0]; exact htop
    rw [if_pos (by omega), hr]
    dsimp only
    rw [wr_of_lt _ h3 h4]
    dsimp only
    rw [wr_of_lt _ hi0 hi1]
  rw [draw_loop, hm]
  dsimp only
  rw [set_face_up_top h4 h3 rfl]

theorem drawn_zero (t : Int) (sh : game_state) : drawn t sh sh 0 :=
  ⟨by simp, by simp, rfl, rfl, fun j => by rw [if_neg (by omega)],
    fun j => by rw [if_neg (by omega)], rfl, rfl, fun _ => rfl,
    fun h => absurd h (Nat.lt_irrefl 0)⟩

/-- The draw loop with `r` rounds left moves `min deck.count r` cards, one by one. -/
theorem draw_loop_spec (t : Int) :
    ∀ (r : Nat) (i : Int) (sh : game_state), 0 ≤ sh.deck.count →
      sh.deck.count.toNat ≤ sh.deck.cs.length → 0 ≤ sh.waste.count →
      sh.waste.count.toNat + min sh.deck.count.toNat r ≤ sh.waste.cs.length →
      ∃ sh1, draw_loop t r i sh = some (i + ((min sh.deck.count.toNat r : Nat) : Int), sh1) ∧
        drawn t sh sh1 (min sh.deck.count.toNat r)
  | 0, i, sh, _, _, _, _ => by
    refine ⟨sh, by simp [draw_loop], ?_⟩
    rw [Nat.min_zero]
    exact drawn_zero t sh
  | r + 1, i, sh, hd0, hd1, hw0, hw1 => by
    by_cases hc : sh.deck.count < 1
    · have hz : sh.deck.count.toNat = 0 := by omega
      refine ⟨sh, by rw [draw_loop_empty t r i sh hc, hz]; simp, ?_⟩
      rw [hz, Nat.zero_min]
      exact drawn_zero t sh
    · have hn : (sh.deck.count - 1).toNat = sh.deck.count.toNat - 1 := by omega
      have hpos : 0 < sh.deck.count.toNat := by omega
      have hmin : min sh.deck.count.toNat (r + 1)
          = min (sh.deck.count.toNat - 1) r + 1 := by omega
      have hlt : (sh.deck.count - 1).toNat < sh.deck.cs.length := by omega
      obtain ⟨top, htop⟩ : ∃ top, sh.deck.cs[(sh.deck.count - 1).toNat]? = some top :=
        ⟨_, List.getElem?_eq_getElem hlt⟩
      have hw2 : sh.waste.count.toNat < sh.waste.cs.length := by omega
      rw [draw_loop_step t r i sh top (by omega) htop hw0 hw2]
      obtain ⟨sh1, hrun, hdr⟩ := draw_loop_spec t r (i + 1)
        { sh with
          waste := { last_modified := t,
                     cs := sh.waste.cs.set sh.waste.count.toNat
                       { top with face_up := true },
                     count := sh.waste.count + 1 },
          deck := { last_modified := t,
                    cs := sh.deck.cs.set (sh.deck.count - 1).toNat ZEROCARD,
                    count := sh.deck.count - 1 },
          last_modified := t }
        (by dsimp only; omega) (by dsimp only; rw [List.length_set]; omega)
        (by dsimp only; omega) (by dsimp only; rw [List.length_set]; omega)
      dsimp only at hrun hdr
      have hn1 : (sh.deck.count - 1).toNat = sh.deck.count.toNat - 1 := hn
      have hw3 : (sh.waste.count + 1).toNat = sh.waste.count.toNat + 1 := by omega
      refine ⟨sh1, ?_, ?_⟩
      · rw [hrun, hn1, hmin]
        congr 2
        push_cast
        omega
      · obtain ⟨a1, a2, a3, a4, a5, a6, a7, a8, a9, a10⟩ := hdr
        dsimp only at a1 a2 a3 a4 a5 a6 a7 a8
        rw [hmin]
        rw [hn1] at a1 a5 a6 a9 a10
        rw [hw3] at a6
        rw [List.length_set] at a3 a4
        refine ⟨by rw [a1]; push_cast; omega, by rw [a2]; push_cast; omega, a3, a4,
          ?_, ?_, a7, a8, fun h => by omega, fun _ => ?_⟩
        · intro j
          rw [a5 j, List.getElem?_set]
          by_cases hj : sh.deck.count.toNat - 1 = j
          · subst hj
            have : sh.deck.count.toNat - 1 < sh.deck.cs.length := by omega
            simp only [if_pos this, if_true]
            split <;> split <;> first | rfl | omega
          · simp only [if_neg hj]
            split <;> split <;> first | rfl | omega
        · intro j
          rw [a6 j]
          by_cases hj : sh.waste.count.toNat = j
          · subst hj
            rw [if_neg (by omega), if_pos (by omega), List.getElem?_set_self hw2]
            rw [show sh.deck.count.toNat - 1 - (sh.waste.count.toNat - sh.waste.count.toNat)
              = sh.deck.count.toNat - 1 by omega, ← hn1, htop]
            rfl
          · by_cases hin : sh.waste.count.toNat + 1 ≤ j ∧
                j < sh.waste.count.toNat + 1 + min (sh.deck.count.toNat - 1) r
            · rw [if_pos hin, if_pos (by omega), List.getElem?_set_ne (by omega)]
              congr 2
              omega
            · rw [if_neg hin, if_neg (by omega), List.getElem?_set_ne hj]
        · rcases Nat.eq_zero_or_pos (min (sh.deck.count.toNat - 1) r) with h0 | hp
          · rw [a9 h0]
            exact ⟨rfl, rfl, rfl⟩
          · exact a10 hp

/-! ## Deck and waste during play -/

theorem move_card_some {dst src d s : stack_of_cards} {t : Int} {b : Bool}
    (h : move_card dst src t = some (b, d, s)) (hc : 1 ≤ src.count) : b = true := by
  unfold move_card at h
  rw [if_pos (by omega)] at h
  split at h
  · cases h
  · split at h
    · cases h
    · dsimp only at h
      split at h
      · cases h
      · simp only [Option.some.injEq, Prod.mk.injEq] at h
        exact h.1.symm

theorem set_face_up_some {s s1 : stack_of_cards} {i : Int} {b : Bool}
    (h : set_face_up s i b = some s1) :
    ∃ x, 0 ≤ i ∧ s.cs[i.toNat]? = some x ∧
      s1 = { s with cs := s.cs.set i.toNat { x with face_up := b } } := by
  unfold set_face_up at h
  split at h
  · cases h
  · rename_i x hr
    split at h
    · cases h
    · rename_i cs hw
      obtain ⟨h0, hx⟩ := rd_eq_some hr
      obtain ⟨_, _, hcs⟩ := wr_eq_some hw
      simp only [Option.some.injEq] at h
      exact ⟨x, h0, hx, by rw [← h, hcs]⟩

/-- One drawn card keeps the invariant of deck and waste. -/
theorem deck_waste_ok_draw {sh : game_state} {t : Int} {top : card}
    (hk : deck_waste_ok sh) (h1 : 1 ≤ sh.deck.count)
    (htop : sh.deck.cs[(sh.deck.count - 1).toNat]? = some top) :
    deck_waste_ok
      { sh with
        waste := { last_modified := t,
                   cs := sh.waste.cs.set sh.waste.count.toNat { top with face_up := true },
                   count := sh.waste.count + 1 },
        deck := { last_modified := t,
                  cs := sh.deck.cs.set (sh.deck.count - 1).toNat ZEROCARD,
                  count := sh.deck.count - 1 },
        last_modified := t } := by
  obtain ⟨k1, k2, k3, k4, k5, k6, k7⟩ := hk
  have htc : top.c ≠ NO_COLOR := ((k6 _ top htop).1 (by omega)).1
  refine ⟨by dsimp only; omega, by dsimp only; omega, by dsimp only; omega,
    by dsimp only; rw [List.length_set]; exact k4,
    by dsimp only; rw [List.length_set]; exact k5, ?_, ?_⟩
  · intro i x hx
    dsimp only at hx ⊢
    rw [List.getElem?_set] at hx
    by_cases he : (sh.deck.count - 1).toNat = i
    · rw [if_pos he, if_pos (by omega)] at hx
      simp only [Option.some.injEq] at hx
      subst hx
      exact ⟨fun hi => by omega, fun _ _ => rfl⟩
    · rw [if_neg he] at hx
      obtain ⟨a, b⟩ := k6 i x hx
      exact ⟨fun hi => a (by omega), fun hi hi2 => b (by omega) hi2⟩
  · intro i x hx hi
    dsimp only at hx hi
    rw [List.getElem?_set] at hx
    by_cases he : sh.waste.count.toNat = i
    · rw [if_pos he, if_pos (by omega)] at hx
      simp only [Option.some.injEq] at hx
      subst hx
      exact htc
    · rw [if_neg he] at hx
      exact k7 i x hx (by omega)

/-- The draw loop keeps the invariant of deck and waste and does not touch the
tableaus. -/
theorem draw_loop_ok (t : Int) :
    ∀ (r : Nat) (i : Int) (sh : game_state) (res : Int × game_state),
      deck_waste_ok sh → draw_loop t r i sh = some res →
      deck_waste_ok res.2 ∧ res.2.tableau = sh.tableau
  | 0, i, sh, res, hk, h => by
    simp only [draw_loop, Option.some.injEq] at h
    subst h
    exact ⟨hk, rfl⟩
  | r + 1, i, sh, res, hk, h => by
    by_cases hc : sh.deck.count < 1
    · rw [draw_loop_empty t r i sh hc] at h
      simp only [Option.some.injEq] at h
      subst h
      exact ⟨hk, rfl⟩
    · have hlt : (sh.deck.count - 1).toNat < sh.deck.cs.length := by
        have := hk.2.2.1; have := hk.2.2.2.1; have := hk.2.1; omega
      obtain ⟨top, htop⟩ : ∃ top, sh.deck.cs[(sh.deck.count - 1).toNat]? = some top :=
        ⟨_, List.getElem?_eq_getElem hlt⟩
      have hw : sh.waste.count.toNat < sh.waste.cs.length := by
        have := hk.2.2.1; have := hk.2.2.2.2.1; have := hk.2.1; omega
      rw [draw_loop_step t r i sh top (by omega) htop hk.2.1 hw] at h
      have hk1 := deck_waste_ok_draw (t := t) hk (by omega) htop
      have hres := draw_loop_ok t r (i + 1) _ res hk1 h
      exact hres

/-- The recycle loop keeps the invariant of deck and waste and does not touch the
tableaus; `i` is the loop index, equal to the count of the deck. -/
theorem recycle_loop_ok (t : Int) :
    ∀ (fuel : Nat) (i : Int) (sh res : game_state),
      deck_waste_ok sh → sh.deck.count = i → recycle_loop t fuel i sh = some res →
      deck_waste_ok res ∧ res.tableau = sh.tableau
  | 0, i, sh, res, hk, _, h => by
    rw [recycle_loop] at h
    split at h
    · cases h
    · simp only [Option.some.injEq] at h
      subst h
      exact ⟨hk, rfl⟩
  | fuel + 1, i, sh, res, hk, hi, h => by
    rw [recycle_loop] at h
    split at h
    · rename_i hpos
      split at h
      · cases h
      · rename_i b d w hm
        have hb := move_card_some hm (by omega)
        subst hb
        obtain ⟨_, m2, m3, m4, top, htop, rfl, rfl⟩ := move_card_true hm
        split at h
        · cases h
        · rename_i d1 hf
          obtain ⟨x, f1, f2, rfl⟩ := set_face_up_some hf
          dsimp only at f2 h
          obtain ⟨k1, k2, k3, k4, k5, k6, k7⟩ := hk
          have hit : i.toNat = sh.deck.count.toNat := by rw [hi]
          rw [hit, List.getElem?_set_self m4] at f2
          simp only [Option.some.injEq] at f2
          subst f2
          rw [hit, List.set_set] at h
          have htc : top.c ≠ NO_COLOR := k7 _ top htop (by omega)
          have hk1 : deck_waste_ok
              { sh with
                deck := { last_modified := t,
                          cs := sh.deck.cs.set sh.deck.count.toNat
                            { top with face_up := false },
                          count := sh.deck.count + 1 },
                waste := { last_modified := t,
                           cs := sh.waste.cs.set (sh.waste.count - 1).toNat ZEROCARD,
                           count := sh.waste.count - 1 } } := by
            refine ⟨by dsimp only; omega, by dsimp only; omega, by dsimp only; omega,
              by dsimp only; rw [List.length_set]; exact k4,
              by dsimp only; rw [List.length_set]; exact k5, ?_, ?_⟩
            · intro j y hy
              dsimp only at hy ⊢
              rw [List.getElem?_set] at hy
              by_cases he : sh.deck.count.toNat = j
              · rw [if_pos he, if_pos m4] at hy
                simp only [Option.some.injEq] at hy
                subst hy
                exact ⟨fun _ => ⟨htc, rfl⟩, fun hj => by omega⟩
              · rw [if_neg he] at hy
                obtain ⟨a, b⟩ := k6 j y hy
                exact ⟨fun hj => a (by omega), fun hj hj2 => b (by omega) hj2⟩
            · intro j y hy hj
              dsimp only at hy hj
              rw [List.getElem?_set] at hy
              by_cases he : (sh.waste.count - 1).toNat = j
              · omega
              · rw [if_neg he] at hy
                exact k7 j y hy (by omega)
          have hres := recycle_loop_ok t fuel (i + 1) _ res hk1 (by dsimp only; omega) h
          exact hres
    · simp only [Option.some.injEq] at h
      subst h
      exact ⟨hk, rfl⟩

theorem game_state_get_update_client {c s c' s' : game_state}
    (hlt : c.last_modified < s.last_modified)
    (h : update_client_data c s = some (c', s')) (id : stack_id) :
    copy_of id (c.get id) (s.get id) (copy_size id) = some (c'.get id, s.get id) := by
  obtain ⟨_, _, hd, hw, hf, ht⟩ := update_client_data_spec hlt h
  cases id with
  | deck => exact hd
  | waste => exact hw
  | foundation i => exact hf i
  | tableau i => exact ht i

theorem copy_of_skip (id : stack_id) {dst src : stack_of_cards} (n : Nat)
    (h : src.last_modified ≤ dst.last_modified) :
    copy_of id dst src n = some (dst, src) := by
  cases id with
  | deck => exact redacted_copy_skip n h
  | waste => exact plain_copy_skip n h
  | foundation i => exact plain_copy_skip n h
  | tableau i => exact redacted_copy_skip n h

/-- Synchronising `ex_client` with `ex_shadow` yields `ex_synced`. -/
theorem ex_sync : update_client_data ex_client ex_shadow = some (ex_synced, ex_shadow) :=
  update_client_data_complete (by decide) (by decide) (by decide)
    (by decide) (by decide)

theorem copy_of_src (id : stack_id) {dst src d s : stack_of_cards} {n : Nat}
    (h : copy_of id dst src n = some (d, s)) : s = src := by
  cases id with
  | deck => exact redacted_copy_src h
  | waste => exact plain_copy_src h
  | foundation i => exact plain_copy_src h
  | tableau i => exact redacted_copy_src h

/-- `redacted_copy` writes the same destination from two well-formed sources that differ
only in the identity of their face-down cards. -/
theorem redacted_copy_agree (dst : stack_of_cards) {a b : stack_of_cards} (n : Nat)
    (hab : stacks_agree a b) (ha : stack_wf a) (hb : stack_wf b) :
    (redacted_copy dst a n).map Prod.fst = (redacted_copy dst b n).map Prod.fst := by
  obtain ⟨hlen, hlt, hge⟩ := stacks_agree_slots hab ha hb
  obtain ⟨hlm, hc, _, _⟩ := hab
  unfold redacted_copy memcpy
  rw [← hlm, ← hlen, ← hc]
  by_cases hg : dst.last_modified < a.last_modified
  · rw [if_pos hg, if_pos hg]
    by_cases hn : n ≤ dst.cs.length ∧ n ≤ a.cs.length
    · rw [if_pos hn, if_pos hn]
      dsimp only
      have hr : redact_loop (a.cs.take n ++ dst.cs.drop n)
          = redact_loop (b.cs.take n ++ dst.cs.drop n) := by
        apply redact_loop_agree _ _ (min a.count.toNat n)
        · rw [copied_length hn.1 hn.2, copied_length hn.1 (by rw [← hlen]; exact hn.2)]
        · intro i x y hi hx hy
          have hin : i < n := by omega
          rw [copied_get_lt hn.2 hin] at hx
          rw [copied_get_lt (by rw [← hlen]; exact hn.2) hin] at hy
          exact hlt i x y (by omega) hx hy
        · intro i hi
          by_cases hin : i < n
          · rw [copied_get_lt hn.2 hin, copied_get_lt (by rw [← hlen]; exact hn.2) hin]
            exact hge i (by omega)
          · rw [copied_get_ge hn.2 (by omega),
              copied_get_ge (by rw [← hlen]; exact hn.2) (by omega)]
      rw [hr]
      cases redact_loop (b.cs.take n ++ dst.cs.drop n) <;> rfl
    · rw [if_neg hn, if_neg hn]
  · rw [if_neg hg, if_neg hg]
    rfl

/-- The driver writes the same client from two shadow states with the same top-level
clock whose stacks are copied to the same destinations. -/
theorem update_client_data_congr (c s1 s2 : game_state)
    (hlm : s1.last_modified = s2.last_modified)
    (hcopy : ∀ id, (copy_of id (c.get id) (s1.get id) (copy_size id)).map Prod.fst
      = (copy_of id (c.get id) (s2.get id) (copy_size id)).map Prod.fst)
    (c' s' : game_state) (h : update_client_data c s1 = some (c', s')) :
    update_client_data c s2 = some (c', s2) := by
  by_cases hg : c.last_modified < s1.last_modified
  · obtain ⟨_, hl, _⟩ := update_client_data_spec hg h
    have key : ∀ id, copy_of id (c.get id) (s2.get id) (copy_size id)
        = some (c'.get id, s2.get id) := by
      intro id
      have h1 := game_state_get_update_client hg h id
      have h2 := hcopy id
      rw [h1] at h2
      cases hc : copy_of id (c.get id) (s2.get id) (copy_size id) with
      | none => rw [hc] at h2; cases h2
      | some p =>
        obtain ⟨d, s⟩ := p
        rw [hc] at h2
        have hs := copy_of_src id hc
        simp only [Option.map_some', Option.some.injEq] at h2
        rw [← h2, hs]
    have hres := update_client_data_complete (c := c) (s := s2) (d := c'.deck)
      (w := c'.waste) (f := c'.foundation) (g := c'.tableau) (by rw [← hlm]; exact hg)
      (key .deck) (key .waste) (fun i => key (.foundation i)) (fun i => key (.tableau i))
    rw [hres, ← hlm, ← hl]
  · rw [update_client_data_skip (by omega)] at h
    simp only [Option.some.injEq, Prod.mk.injEq] at h
    rw [← h.1]
    exact update_client_data_skip (by omega)

theorem copy_of_agree (c s1 s2 : game_state) (h1 : state_wf s1) (h2 : state_wf s2)
    (hag : shadows_agree s1 s2) (id : stack_id) :
    (copy_of id (c.get id) (s1.get id) (copy_size id)).map Prod.fst
      = (copy_of id (c.get id) (s2.get id) (copy_size id)).map Prod.fst := by
  obtain ⟨_, hd, hw, hf, ht⟩ := hag
  cases id with
  | deck => exact redacted_copy_agree _ _ hd h1.1 h2.1
  | waste =>
    show (plain_copy c.waste s1.waste 25).map Prod.fst = (plain_copy c.waste s2.waste 25).map Prod.fst
    rw [hw]
  | foundation i =>
    show (plain_copy (c.foundation i) (s1.foundation i) 14).map Prod.fst
      = (plain_copy (c.foundation i) (s2.foundation i) 14).map Prod.fst
    rw [hf i]
  | tableau i => exact redacted_copy_agree _ _ (ht i) (h1.2.2.2 i) (h2.2.2.2 i)

/-- Synchronising the blank client with `ex_shadow` yields `ex_synced` as well. -/
theorem ex_sync_blank : update_client_data ex_blank ex_shadow = some (ex_synced, ex_shadow) :=
  update_client_data_complete (by decide) (by decide) (by decide)
    (by decide) (by decide)

theorem ex_move : move_in_state ex_shadow (.foundation 1) .waste 4 = some (true, ex_moved) := by
  rfl

theorem ex_sync_moved :
    update_client_data ex_synced { ex_moved with last_modified := 4 }
      = some (ex_moved_view, { ex_moved with last_modified := 4 }) :=
  update_client_data_complete (by decide) (by decide) (by decide)
    (by decide) (by decide)

/-- `pull_from_deck` keeps the invariant of deck and waste and does not touch the
tableaus. -/
theorem pull_from_deck_ok {sh : game_state} {m t : Int} {res : Int × game_state}
    (hk : deck_waste_ok sh) (h : pull_from_deck sh m t = some res) :
    deck_waste_ok res.2 ∧ res.2.tableau = sh.tableau := by
  unfold pull_from_deck at h
  split at h
  · split at h
    · cases h
    · rename_i sh1 hr
      simp only [Option.some.injEq] at h
      subst h
      have hres := recycle_loop_ok t _ 0 sh sh1 hk (by omega) hr
      exact hres
  · exact draw_loop_ok t _ 0 sh res hk h

/-! ## Redaction of a copied stack -/

theorem hidden_pile_redacted {cl : stack_of_cards} (sh : stack_of_cards)
    (h : hidden_pile cl) : stack_redacted cl sh := by
  intro i hi x hx
  have := h i x hi hx
  subst this
  exact ⟨fun _ => rfl, fun hf => by simp [UNKNOWNCARD] at hf⟩

/-- A `redacted_copy` from a terminated source leaves the destination redacted, when the
destination was stale or redacted already. -/
theorem redacted_copy_redacted {dst src d s : stack_of_cards} {n : Nat}
    (hs : stack_terminated src n) (h : redacted_copy dst src n = some (d, s))
    (hpre : dst.last_modified < src.last_modified ∨ stack_redacted dst src) :
    stack_redacted d src := by
  by_cases hlt : dst.last_modified < src.last_modified
  · have hd : n ≤ dst.cs.length := by
      unfold redacted_copy at h
      rw [if_pos hlt] at h
      split at h
      · cases h
      · rename_i L hm
        exact (memcpy_eq_some hm).1
    rw [redacted_copy_of_terminated hlt hd hs] at h
    simp only [Option.some.injEq, Prod.mk.injEq] at h
    obtain ⟨rfl, _⟩ := h
    obtain ⟨h0, h1, h2, h3, h4⟩ := hs
    intro i hi x hx
    dsimp only at hi hx
    have hic : i < src.count.toNat := by omega
    have hk : src.count.toNat ≤ (src.cs.take n ++ dst.cs.drop n).length := by
      rw [copied_length hd h2]; omega
    rw [redacted_get_lt hic hk, copied_get_lt h2 (by omega)] at hx
    cases hy : src.cs[i]? with
    | none => rw [hy] at hx; cases hx
    | some y =>
      rw [hy] at hx
      simp only [Option.map_some', Option.some.injEq] at hx
      subst hx
      cases hf : y.face_up
      · simp [redact_card, hf, UNKNOWNCARD]
      · simp [redact_card, hf]
  · rw [redacted_copy_skip n (by omega)] at h
    simp only [Option.some.injEq, Prod.mk.injEq] at h
    obtain ⟨rfl, _⟩ := h
    rcases hpre with hp | hp
    · exact absurd hp hlt
    · exact hp

/-- A `redacted_copy` from a terminated source of face-down cards leaves the destination
hidden, when the destination was stale or hidden already. -/
theorem redacted_copy_hidden {dst src d s : stack_of_cards} {n : Nat}
    (hs : stack_terminated src n)
    (hdown : ∀ (i : Nat) (x : card), (i : Int) < src.count → src.cs[i]? = some x →
      x.face_up = false)
    (h : redacted_copy dst src n = some (d, s))
    (hpre : dst.last_modified < src.last_modified ∨ hidden_pile dst) :
    hidden_pile d := by
  by_cases hlt : dst.last_modified < src.last_modified
  · have hd : n ≤ dst.cs.length := by
      unfold redacted_copy at h
      rw [if_pos hlt] at h
      split at h
      · cases h
      · rename_i L hm
        exact (memcpy_eq_some hm).1
    rw [redacted_copy_of_terminated hlt hd hs] at h
    simp only [Option.some.injEq, Prod.mk.injEq] at h
    obtain ⟨rfl, _⟩ := h
    obtain ⟨h0, h1, h2, h3, h4⟩ := hs
    intro i x hi hx
    dsimp only at hi hx
    have hic : i < src.count.toNat := by omega
    have hk : src.count.toNat ≤ (src.cs.take n ++ dst.cs.drop n).length := by
      rw [copied_length hd h2]; omega
    rw [redacted_get_lt hic hk, copied_get_lt h2 (by omega)] at hx
    cases hy : src.cs[i]? with
    | none => rw [hy] at hx; cases hx
    | some y =>
      rw [hy] at hx
      simp only [Option.map_some', Option.some.injEq] at hx
      subst hx
      simp [redact_card, hdown i y hi hy]
  · rw [redacted_copy_skip n (by omega)] at h
    simp only [Option.some.injEq, Prod.mk.injEq] at h
    obtain ⟨rfl, _⟩ := h
    rcases hpre with hp | hp
    · exact absurd hp hlt
    · exact hp

/-- The deck of a state that satisfies the play invariant is terminated within 25 slots
and its live cards are face-down. -/
theorem deck_waste_ok_deck {sh : game_state} (hk : deck_waste_ok sh) :
    stack_terminated sh.deck 25 ∧
      ∀ (i : Nat) (x : card), (i : Int) < sh.deck.count → sh.deck.cs[i]? = some x →
        x.face_up = false := by
  obtain ⟨k1, k2, k3, k4, k5, k6, _⟩ := hk
  refine ⟨⟨k1, by omega, k4, ?_, ?_⟩, fun i x hi hx => ((k6 i x hx).1 hi).2⟩
  · intro x hx
    obtain ⟨i, hi⟩ := List.mem_iff_getElem?.1 hx
    rw [List.getElem?_take] at hi
    split at hi
    · rename_i hlt
      intro he
      have := ((k6 i x hi).1 (by omega)).1
      rw [he] at this
      exact this rfl
    · cases hi
  · have hl : sh.deck.count.toNat < sh.deck.cs.length := by omega
    have hx : sh.deck.cs[sh.deck.count.toNat]? = some (sh.deck.cs.get ⟨_, hl⟩) :=
      List.getElem?_eq_getElem hl
    rw [hx, (k6 _ _ hx).2 (by omega) (by omega)]

/-- The driver leaves the client deck hidden and the client tableaus redacted, when the
shadow satisfies the play invariant, its tableaus are terminated within 20 slots, and
every such client stack was stale or in that state already. -/
theorem update_client_data_redacts {c s c1 s1 : game_state}
    (hk : deck_waste_ok s) (ht : ∀ k, stack_terminated (s.tableau k) 20)
    (h : update_client_data c s = some (c1, s1))
    (hpre : (c.last_modified < s.last_modified ∧
        c.deck.last_modified < s.deck.last_modified ∧
        ∀ k, (c.tableau k).last_modified < (s.tableau k).last_modified) ∨
      (hidden_pile c.deck ∧ ∀ k, stack_redacted (c.tableau k) (s.tableau k))) :
    hidden_pile c1.deck ∧ ∀ k, stack_redacted (c1.tableau k) (s.tableau k) := by
  obtain ⟨hterm, hdown⟩ := deck_waste_ok_deck hk
  by_cases hlt : c.last_modified < s.last_modified
  · obtain ⟨_, _, hd, _, _, htb⟩ := update_client_data_spec hlt h
    constructor
    · refine redacted_copy_hidden hterm hdown hd ?_
      rcases hpre with hp | hp
      · exact Or.inl hp.2.1
      · exact Or.inr hp.1
    · intro k
      refine redacted_copy_redacted (ht k) (htb k) ?_
      rcases hpre with hp | hp
      · exact Or.inl (hp.2.2 k)
      · exact Or.inr (hp.2 k)
  · rw [update_client_data_skip (by omega)] at h
    simp only [Option.some.injEq, Prod.mk.injEq] at h
    obtain ⟨rfl, _⟩ := h
    rcases hpre with hp | hp
    · exact absurd hp.1 hlt
    · exact hp

/-- Steps of play keep the play invariant of the shadow, its terminated tableaus, the
hidden client deck and the redacted client tableaus. -/
theorem play_ok :
    ∀ (steps : List play_step) (sh cl sh1 cl1 : game_state), deck_waste_ok sh →
      (∀ k, stack_terminated (sh.tableau k) 20) → hidden_pile cl.deck →
      (∀ k, stack_redacted (cl.tableau k) (sh.tableau k)) →
      play sh cl steps = some (sh1, cl1) →
      deck_waste_ok sh1 ∧ (∀ k, stack_terminated (sh1.tableau k) 20) ∧
        hidden_pile cl1.deck ∧ ∀ k, stack_redacted (cl1.tableau k) (sh1.tableau k)
  | [], sh, cl, sh1, cl1, hk, ht, hh, hr, h => by
    simp only [play, Option.some.injEq, Prod.mk.injEq] at h
    obtain ⟨rfl, rfl⟩ := h
    exact ⟨hk, ht, hh, hr⟩
  | .pull m t :: rest, sh, cl, sh1, cl1, hk, ht, hh, hr, h => by
    rw [play] at h
    split at h
    · cases h
    · rename_i r sh2 hp
      obtain ⟨a, b⟩ := pull_from_deck_ok hk hp
      dsimp only at a b
      exact play_ok rest sh2 cl sh1 cl1 a (fun k => by rw [b]; exact ht k) hh
        (fun k => by rw [b]; exact hr k) h
  | .sync :: rest, sh, cl, sh1, cl1, hk, ht, hh, hr, h => by
    rw [play] at h
    split at h
    · cases h
    · rename_i cl2 sh2 hu
      have hsame := update_client_data_shadow hu
      subst hsame
      obtain ⟨a, b⟩ := update_client_data_redacts hk ht hu (Or.inr ⟨hh, hr⟩)
      exact play_ok rest sh2 cl2 sh1 cl1 hk ht a b h

/-! ## The shuffle -/

theorem cs_tmp_deck_ok : shuffled_ok cs_tmp_deck := by
  have h : ∀ x ∈ cs_tmp_deck.take 52, x.c ≠ NO_COLOR ∧ x.face_up = false := by decide
  exact ⟨by decide, fun i x hi hx => h x (mem_take_of_get hi hx)⟩

theorem swap_cards_ok {cs cs1 : List card} {i j : Nat} (hc : shuffled_ok cs)
    (hi : i < 52) (hj : j < 52) (h : swap_cards cs i j = some cs1) : shuffled_ok cs1 := by
  unfold swap_cards at h
  split at h
  · rename_i a b ha hb
    simp only [Option.some.injEq] at h
    subst h
    obtain ⟨hl, hp⟩ := hc
    refine ⟨by simp [hl], ?_⟩
    intro k x hk hx
    rw [List.getElem?_set] at hx
    by_cases e1 : j = k
    · rw [if_pos e1] at hx
      split at hx
      · simp only [Option.some.injEq] at hx
        subst hx
        exact hp i a hi ha
      · cases hx
    · rw [if_neg e1, List.getElem?_set] at hx
      by_cases e2 : i = k
      · rw [if_pos e2] at hx
        split at hx
        · simp only [Option.some.injEq] at hx
          subst hx
          exact hp j b hj hb
        · cases hx
      · rw [if_neg e2] at hx
        exact hp k x hk hx
  · cases h

theorem shuffle_loop_ok (rnd : (i : Nat) → Fin (i + 1)) :
    ∀ (n : Nat) (cs cs1 : List card), n < 52 → shuffled_ok cs →
      shuffle_loop rnd n cs = some cs1 → shuffled_ok cs1
  | 0, cs, cs1, _, hc, h => by
    simp only [shuffle_loop, Option.some.injEq] at h
    subst h
    exact hc
  | n + 1, cs, cs1, hn, hc, h => by
    rw [shuffle_loop] at h
    split at h
    · cases h
    · rename_i cs2 hs
      have hj : (rnd (n + 1)).val < 52 := by
        have := (rnd (n + 1)).isLt
        omega
      exact shuffle_loop_ok rnd n cs2 cs1 (by omega) (swap_cards_ok hc hn hj hs) h

/-! ## The deal -/

theorem memset0_eq_some {dst cs : List card} {n : Nat} (h : memset0 dst n = some cs) :
    n ≤ dst.length ∧ cs.length = dst.length ∧
      (∀ m, m < n → cs[m]? = some ZEROCARD) ∧ (∀ m, n ≤ m → cs[m]? = dst[m]?) := by
  unfold memset0 at h
  split at h
  · rename_i hn
    simp only [Option.some.injEq] at h
    subst h
    refine ⟨hn, by simp [List.length_drop]; omega, ?_, ?_⟩
    · intro m hm
      rw [List.getElem?_append_left (by simpa using hm)]
      simp [List.getElem?_replicate, hm]
    · intro m hm
      rw [List.getElem?_append_right (by simpa using hm), List.getElem?_drop]
      simp only [List.length_replicate]
      congr 1
      omega
  · cases h

/-- One round of the deal: tableau `k` (the `k+1`-th) after `memset`, `memcpy` of `k + 1`
cards from index `cur - (k + 1)` of `tmp`, and the flip of its last card. -/
theorem deal_one {tmp cs0 cs1 : List card} {tb tb1 : stack_of_cards} {k cur : Nat}
    (hk20 : k < 20) (h0 : memset0 tb.cs 20 = some cs0) (hcur : k + 1 ≤ cur)
    (h1 : memcpy cs0 (tmp.drop (cur - (k + 1))) (k + 1) = some cs1)
    (h2 : set_face_up { tb with cs := cs1 } (((k + 1 : Nat) : Int) - 1) true = some tb1)
    (lm : Int) :
    tableau_dealt tmp tb
      { tb1 with count := tb1.count + (k + 1 : Nat), last_modified := lm } lm
      (cur - (k + 1)) k := by
  obtain ⟨a1, a2, a3, a4⟩ := memset0_eq_some h0
  obtain ⟨b1, b2, rfl⟩ := memcpy_eq_some h1
  obtain ⟨x, _, c2, rfl⟩ := set_face_up_some h2
  have hk : (((k + 1 : Nat) : Int) - 1).toNat = k := by omega
  rw [hk] at c2 ⊢
  dsimp only at c2 ⊢
  rw [List.length_drop] at b2
  have hlen : ((tmp.drop (cur - (k + 1))).take (k + 1) ++ cs0.drop (k + 1)).length
      = tb.cs.length := by
    rw [copied_length b1 (by rw [List.length_drop]; exact b2), a2]
  have hget : ∀ m, m < k + 1 →
      ((tmp.drop (cur - (k + 1))).take (k + 1) ++ cs0.drop (k + 1))[m]?
        = tmp[cur - (k + 1) + m]? := by
    intro m hm
    rw [copied_get_lt (by rw [List.length_drop]; exact b2) hm, List.getElem?_drop]
  rw [hget k (by omega)] at c2
  refine ⟨rfl, rfl, by dsimp only; rw [List.length_set, hlen],
    by dsimp only; rw [List.length_set, hlen]; omega, by omega, ?_, ?_, ?_, ?_⟩
  · intro m hm
    dsimp only
    rw [List.getElem?_set_ne (by omega), hget m (by omega)]
  · dsimp only
    rw [List.getElem?_set_self (by rw [hlen]; omega), c2]
    rfl
  · intro m hm hm2
    dsimp only
    rw [List.getElem?_set_ne (by omega),
      copied_get_ge (by rw [List.length_drop]; exact b2) (by omega), a3 m hm2]
    rfl
  · intro m hm
    dsimp only
    rw [List.getElem?_set_ne (by omega),
      copied_get_ge (by rw [List.length_drop]; exact b2) (by omega), a4 m hm]

/-- What the first `k` rounds of the deal have done. -/
theorem deal_tableaus_spec (tmp : List card) (sh : game_state) (cur0 : Nat) :
    ∀ (k : Nat) (sh1 : game_state) (cur : Nat), k ≤ 7 →
      deal_tableaus tmp sh cur0 k = some (sh1, cur) →
      sh1.last_modified = sh.last_modified ∧ sh1.deck = sh.deck ∧ sh1.waste = sh.waste ∧
      sh1.foundation = sh.foundation ∧ cur + dealt_before k = cur0 ∧
      (∀ j : Fin 7, j.val < k →
        tableau_dealt tmp (sh.tableau j) (sh1.tableau j) sh.last_modified
          (cur0 - dealt_before (j.val + 1)) j.val) ∧
      (∀ j : Fin 7, k ≤ j.val → sh1.tableau j = sh.tableau j)
  | 0, sh1, cur, _, h => by
    simp only [deal_tableaus, Option.some.injEq, Prod.mk.injEq] at h
    obtain ⟨rfl, rfl⟩ := h
    exact ⟨rfl, rfl, rfl, rfl, rfl, fun j hj => absurd hj (Nat.not_lt_zero _), fun _ _ => rfl⟩
  | k + 1, sh1, cur, hk, h => by
    rw [deal_tableaus] at h
    split at h
    · cases h
    · rename_i sh2 cur2 hprev
      obtain ⟨p1, p2, p3, p4, p5, p6, p7⟩ :=
        deal_tableaus_spec tmp sh cur0 k sh2 cur2 (by omega) hprev
      split at h
      · rename_i hlt
        dsimp only at h
        split at h
        · cases h
        · rename_i cs0 h0
          split at h
          · rename_i hcur
            split at h
            · cases h
            · rename_i cs1 h1
              split at h
              · cases h
              · rename_i tb1 h2
                simp only [Option.some.injEq, Prod.mk.injEq] at h
                obtain ⟨rfl, rfl⟩ := h
                have hd := deal_one (by omega) h0 hcur h1 h2 sh2.last_modified
                rw [p7 ⟨k, hlt⟩ (Nat.le_refl _), p1] at hd
                have hbase : cur0 - dealt_before (k + 1) = cur2 - (k + 1) := by
                  simp only [dealt_before]; omega
                refine ⟨p1, p2, p3, p4, by simp only [dealt_before]; omega, ?_, ?_⟩
                · intro j hj
                  by_cases hjk : j = ⟨k, hlt⟩
                  · subst hjk
                    simp only [Function.update_same]
                    rw [hbase, p1]
                    exact hd
                  · have : j.val ≠ k := fun e => hjk (Fin.ext e)
                    simp only [Function.update_noteq hjk]
                    exact p6 j (by omega)
                · intro j hj
                  have hjk : j ≠ ⟨k, hlt⟩ := by
                    intro e; rw [e] at hj; simp at hj
                  simp only [Function.update_noteq hjk]
                  exact p7 j (by omega)
          · cases h
      · cases h

theorem pile_fresh_of_memset0 {old : stack_of_cards} {cs0 : List card} {n : Nat}
    (h : memset0 old.cs n = some cs0) (lm : Int) :
    pile_fresh old { last_modified := lm, cs := cs0, count := 0 } lm n := by
  obtain ⟨a1, a2, a3, a4⟩ := memset0_eq_some h
  exact ⟨rfl, rfl, a2, by dsimp only; omega, a3, a4⟩

/-- What the first `k` rounds of the loop over the foundations have done. -/
theorem init_foundations_spec (sh : game_state) :
    ∀ (k : Nat) (sh1 : game_state), init_foundations sh k = some sh1 →
      sh1.last_modified = sh.last_modified ∧ sh1.deck = sh.deck ∧ sh1.waste = sh.waste ∧
      sh1.tableau = sh.tableau ∧
      (∀ j : Fin 4, j.val < k →
        pile_fresh (sh.foundation j) (sh1.foundation j) sh.last_modified 14) ∧
      (∀ j : Fin 4, k ≤ j.val → sh1.foundation j = sh.foundation j)
  | 0, sh1, h => by
    simp only [init_foundations, Option.some.injEq] at h
    subst h
    exact ⟨rfl, rfl, rfl, rfl, fun j hj => absurd hj (Nat.not_lt_zero _), fun _ _ => rfl⟩
  | k + 1, sh1, h => by
    rw [init_foundations] at h
    split at h
    · cases h
    · rename_i sh2 hprev
      obtain ⟨p1, p2, p3, p4, p5, p6⟩ := init_foundations_spec sh k sh2 hprev
      split at h
      · rename_i hlt
        split at h
        · cases h
        · rename_i cs0 h0
          simp only [Option.some.injEq] at h
          subst h
          have hf := pile_fresh_of_memset0 h0 sh2.last_modified
          rw [p6 ⟨k, hlt⟩ (Nat.le_refl _), p1] at hf
          refine ⟨p1, p2, p3, p4, ?_, ?_⟩
          · intro j hj
            by_cases hjk : j = ⟨k, hlt⟩
            · subst hjk
              simp only [Function.update_same]
              rw [p1]
              exact hf
            · have : j.val ≠ k := fun e => hjk (Fin.ext e)
              simp only [Function.update_noteq hjk]
              exact p5 j (by omega)
          · intro j hj
            have hjk : j ≠ ⟨k, hlt⟩ := by
              intro e; rw [e] at hj; simp at hj
            simp only [Function.update_noteq hjk]
            exact p6 j (by omega)
      · cases h

/-- What `init_game` has done when it returns: the shuffled array `tmp` is dealt to the
tableaus and the deck, waste and foundations are emptied, every clock of the shadow is
`t`, and the client is the result of `update_client_data` on that shadow. -/
theorem init_game_spec {rnd : (i : Nat) → Fin (i + 1)} {shadow client sh0 cl0 : game_state}
    {t : Int} (h : init_game rnd shadow client t = some (sh0, cl0)) :
    ∃ tmp, shuffle_loop rnd 51 cs_tmp_deck = some tmp ∧ shuffled_ok tmp ∧
      sh0.last_modified = t ∧
      (∀ j : Fin 7, tableau_dealt tmp (shadow.tableau j) (sh0.tableau j) t
        (52 - dealt_before (j.val + 1)) j.val) ∧
      (∀ j : Fin 4, pile_fresh (shadow.foundation j) (sh0.foundation j) t 14) ∧
      pile_fresh shadow.waste sh0.waste t 25 ∧
      sh0.deck.last_modified = t ∧ sh0.deck.count = 24 ∧
      sh0.deck.cs.length = shadow.deck.cs.length ∧ 25 ≤ sh0.deck.cs.length ∧
      (∀ m : Nat, m < 24 → sh0.deck.cs[m]? = tmp[m]?) ∧
      sh0.deck.cs[24]? = some NULLCARD ∧
      (∀ m : Nat, 25 ≤ m → sh0.deck.cs[m]? = shadow.deck.cs[m]?) ∧
      update_client_data client sh0 = some (cl0, sh0) := by
  unfold init_game at h
  dsimp only at h
  split at h
  · cases h
  · rename_i tmp hsh
    have htmp := shuffle_loop_ok rnd 51 _ tmp (by omega) cs_tmp_deck_ok hsh
    split at h
    · cases h
    · rename_i shA cur hdeal
      obtain ⟨d1, d2, d3, d4, d5, d6, _⟩ :=
        deal_tableaus_spec tmp _ 52 7 shA cur (Nat.le_refl _) hdeal
      dsimp only at d1 d2 d3 d4 d5 d6
      have hcur : cur = 24 := by
        have : dealt_before 7 = 28 := rfl
        omega
      subst hcur
      split at h
      · cases h
      · rename_i shB hfound
        obtain ⟨f1, f2, f3, f4, f5, _⟩ := init_foundations_spec shA 4 shB hfound
        split at h
        · cases h
        · rename_i wcs hw
          split at h
          · cases h
          · rename_i dcs0 hd0
            split at h
            · cases h
            · rename_i dcs hd
              split at h
              · cases h
              · rename_i cl1 sh1 hu
                simp only [Option.some.injEq, Prod.mk.injEq] at h
                obtain ⟨rfl, rfl⟩ := h
                have hsame : sh1 = _ := update_client_data_shadow hu
                subst hsame
                obtain ⟨m1, m2, m3, m4⟩ := memset0_eq_some hd0
                obtain ⟨c1, c2, rfl⟩ := memcpy_eq_some hd
                have hw' := pile_fresh_of_memset0 hw shB.last_modified
                rw [f3, d3, f1, d1] at hw'
                rw [f2, d2] at m1 m2 m4
                refine ⟨tmp, hsh, htmp, ?_, ?_, ?_, ?_, ?_, ?_, ?_, ?_, ?_, ?_, ?_, hu⟩
                · exact f1.trans d1
                · intro j
                  dsimp only
                  rw [f4]
                  exact d6 j j.isLt
                · intro j
                  dsimp only
                  have := f5 j j.isLt
                  rw [d4, d1] at this
                  exact this
                · have hlm : shB.last_modified = t := f1.trans d1
                  dsimp only
                  rw [hlm]
                  exact hw'
                · exact f1.trans d1
                · rfl
                · dsimp only
                  rw [copied_length c1 c2, m2]
                · dsimp only
                  rw [copied_length c1 c2, m2]; exact m1
                · intro m hm
                  dsimp only
                  rw [copied_get_lt c2 hm]
                · dsimp only
                  rw [copied_get_ge c2 (Nat.le_refl _), m3 24 (by omega)]
                  rfl
                · intro m hm
                  dsimp only
                  rw [copied_get_ge c2 (by omega), m4 m hm]

theorem dealt_before_ge (j : Nat) : j + 1 ≤ dealt_before (j + 1) := by
  simp only [dealt_before]; omega

/-- A tableau dealt onto a stack of count 0 is terminated within 20 slots. -/
theorem tableau_dealt_terminated {tmp : List card} {old new : stack_of_cards} {lm : Int}
    {j : Nat} (hj : j < 7) (htmp : shuffled_ok tmp) (hold : old.count = 0)
    (h : tableau_dealt tmp old new lm (52 - dealt_before (j + 1)) j) :
    stack_terminated new 20 := by
  obtain ⟨_, h2, _, h4, _, h6, h7, h8, _⟩ := h
  have hge := dealt_before_ge j
  have hc : new.count.toNat = j + 1 := by rw [h2, hold]; omega
  refine ⟨by omega, by omega, h4, ?_, ?_⟩
  · intro x hx
    rw [hc] at hx
    obtain ⟨m, hm⟩ := List.mem_iff_getElem?.1 hx
    rw [List.getElem?_take] at hm
    split at hm
    · rename_i hlt
      by_cases hmj : m < j
      · rw [h6 m hmj] at hm
        have := (htmp.2 _ x (by omega) hm).1
        intro he
        rw [he] at this
        exact this rfl
      · have hmj2 : m = j := by omega
        subst hmj2
        rw [h7] at hm
        cases hy : tmp[52 - dealt_before (m + 1) + m]? with
        | none => rw [hy] at hm; cases hm
        | some y =>
          rw [hy] at hm
          simp only [Option.map_some', Option.some.injEq] at hm
          subst hm
          simp [NULLCARD]
    · cases hm
  · rw [hc]
    exact h8 (j + 1) (by omega) (by omega)

/-- After `init_game` on a shadow whose tableau counts are zero, the shadow satisfies the
play invariant and its tableaus are terminated within 20 slots. -/
theorem init_game_ok {rnd : (i : Nat) → Fin (i + 1)} {shadow client sh0 cl0 : game_state}
    {t : Int} (hcnt : ∀ k, (shadow.tableau k).count = 0)
    (h : init_game rnd shadow client t = some (sh0, cl0)) :
    deck_waste_ok sh0 ∧ ∀ k, stack_terminated (sh0.tableau k) 20 := by
  obtain ⟨tmp, _, htmp, _, htb, _, hw, _, hd2, _, hd4, hd5, hd6, _, _⟩ := init_game_spec h
  obtain ⟨_, w2, w3, w4, _, _⟩ := hw
  refine ⟨⟨by omega, by omega, by omega, hd4, by omega, ?_, ?_⟩, ?_⟩
  · intro i x hx
    refine ⟨fun hi => ?_, fun hi hi2 => ?_⟩
    · rw [hd5 i (by omega)] at hx
      exact htmp.2 i x (by omega) hx
    · have : i = 24 := by omega
      subst this
      rw [hd6] at hx
      simp only [Option.some.injEq] at hx
      exact hx.symm
  · intro i x _ hi
    omega
  · intro k
    exact tableau_dealt_terminated k.isLt htmp (hcnt k) (htb k)

/-! ## What a pull leaves alone -/

/-- The result of `move_card`, when it returns: either nothing has changed, or the source
was not empty and its top card has moved. -/
theorem move_card_cases {dst src d s : stack_of_cards} {t : Int} {b : Bool}
    (h : move_card dst src t = some (b, d, s)) :
    (b = false ∧ d = dst ∧ s = src ∧ src.count < 1) ∨
      (b = true ∧ 1 ≤ src.count ∧ d.count = dst.count + 1 ∧ s.count = src.count - 1 ∧
        d.last_modified = t ∧ s.last_modified = t) := by
  by_cases hc : 1 ≤ src.count
  · have hb := move_card_some h hc
    subst hb
    obtain ⟨_, _, _, _, top, _, rfl, rfl⟩ := move_card_true h
    exact Or.inr ⟨rfl, hc, rfl, rfl, rfl, rfl⟩
  · unfold move_card at h
    rw [if_neg (by omega)] at h
    simp only [Option.some.injEq, Prod.mk.injEq] at h
    obtain ⟨rfl, rfl, rfl⟩ := h
    exact Or.inl ⟨rfl, rfl, rfl, by omega⟩

theorem set_face_up_frame {s s1 : stack_of_cards} {i : Int} {b : Bool}
    (h : set_face_up s i b = some s1) :
    s1.count = s.count ∧ s1.last_modified = s.last_modified := by
  obtain ⟨x, _, _, rfl⟩ := set_face_up_some h
  exact ⟨rfl, rfl⟩

/-- The draw loop leaves foundations and tableaus alone, keeps the number of cards of
deck and waste together, and keeps each of their clocks or sets it to `t`. -/
theorem draw_loop_frame (t : Int) :
    ∀ (r : Nat) (i : Int) (sh : game_state) (res : Int × game_state),
      draw_loop t r i sh = some res →
      res.2.foundation = sh.foundation ∧ res.2.tableau = sh.tableau ∧
      res.2.deck.count + res.2.waste.count = sh.deck.count + sh.waste.count ∧
      clock_kept_or t sh.deck res.2.deck ∧ clock_kept_or t sh.waste res.2.waste
  | 0, i, sh, res, h => by
    simp only [draw_loop, Option.some.injEq] at h
    subst h
    exact ⟨rfl, rfl, rfl, Or.inl rfl, Or.inl rfl⟩
  | r + 1, i, sh, res, h => by
    rw [draw_loop] at h
    split at h
    · cases h
    · rename_i w d hm
      rcases move_card_cases hm with ⟨hb, rfl, rfl, _⟩ | ⟨hb, _, _, _, _, _⟩
      · simp only [Option.some.injEq] at h
        subst h
        exact ⟨rfl, rfl, rfl, Or.inl rfl, Or.inl rfl⟩
      · cases hb
    · rename_i w d hm
      rcases move_card_cases hm with ⟨hb, _, _, _⟩ | ⟨_, _, c1, c2, c3, c4⟩
      · cases hb
      · split at h
        · cases h
        · rename_i w1 hf
          obtain ⟨f1, f2⟩ := set_face_up_frame hf
          have hres := draw_loop_frame t r (i + 1) _ res h
          obtain ⟨a1, a2, a3, a4, a5⟩ := hres
          dsimp only at a1 a2 a3 a4 a5
          refine ⟨a1, a2, by rw [a3, f1, c1, c2]; omega, ?_, ?_⟩
          · rcases a4 with e | e
            · exact Or.inr (by rw [e, c4])
            · exact Or.inr e
          · rcases a5 with e | e
            · exact Or.inr (by rw [e, f2, c3])
            · exact Or.inr e

/-- The recycle loop leaves foundations and tableaus alone, keeps the number of cards of
deck and waste together, and keeps each of their clocks or sets it to `t`. -/
theorem recycle_loop_frame (t : Int) :
    ∀ (fuel : Nat) (i : Int) (sh res : game_state),
      recycle_loop t fuel i sh = some res →
      res.foundation = sh.foundation ∧ res.tableau = sh.tableau ∧
      res.last_modified = sh.last_modified ∧
      res.deck.count + res.waste.count = sh.deck.count + sh.waste.count ∧
      clock_kept_or t sh.deck res.deck ∧ clock_kept_or t sh.waste res.waste
  | 0, i, sh, res, h => by
    rw [recycle_loop] at h
    split at h
    · cases h
    · simp only [Option.some.injEq] at h
      subst h
      exact ⟨rfl, rfl, rfl, rfl, Or.inl rfl, Or.inl rfl⟩
  | fuel + 1, i, sh, res, h => by
    rw [recycle_loop] at h
    split at h
    · rename_i hpos
      split at h
      · cases h
      · rename_i b d w hm
        rcases move_card_cases hm with ⟨_, _, _, hlt⟩ | ⟨_, _, c1, c2, c3, c4⟩
        · omega
        · split at h
          · cases h
          · rename_i d1 hf
            obtain ⟨f1, f2⟩ := set_face_up_frame hf
            have hres := recycle_loop_frame t fuel (i + 1) _ res h
            obtain ⟨a1, a2, a3, a4, a5, a6⟩ := hres
            dsimp only at a1 a2 a3 a4 a5 a6
            refine ⟨a1, a2, a3, by rw [a4, f1, c1, c2]; omega, ?_, ?_⟩
            · rcases a5 with e | e
              · exact Or.inr (by rw [e, f2, c3])
              · exact Or.inr e
            · rcases a6 with e | e
              · exact Or.inr (by rw [e, c4])
              · exact Or.inr e
    · simp only [Option.some.injEq] at h
      subst h
      exact ⟨rfl, rfl, rfl, rfl, Or.inl rfl, Or.inl rfl⟩

/-- `pull_from_deck` leaves foundations and tableaus alone, keeps the number of cards of
deck and waste together, and keeps each of their clocks or sets it to `t`. -/
theorem pull_from_deck_frame {sh : game_state} {m t : Int} {res : Int × game_state}
    (h : pull_from_deck sh m t = some res) :
    res.2.foundation = sh.foundation ∧ res.2.tableau = sh.tableau ∧
      res.2.deck.count + res.2.waste.count = sh.deck.count + sh.waste.count ∧
      clock_kept_or t sh.deck res.2.deck ∧ clock_kept_or t sh.waste res.2.waste := by
  unfold pull_from_deck at h
  split at h
  · split at h
    · cases h
    · rename_i sh1 hr
      simp only [Option.some.injEq] at h
      subst h
      obtain ⟨a1, a2, _, a4, a5, a6⟩ := recycle_loop_frame t _ 0 sh sh1 hr
      exact ⟨a1, a2, a4, a5, a6⟩
  · exact draw_loop_frame t _ 0 sh res h

theorem redacted_copy_clock_mono {dst src d s : stack_of_cards} {n : Nat}
    (h : redacted_copy dst src n = some (d, s)) :
    dst.last_modified ≤ d.last_modified := by
  by_cases hlt : dst.last_modified < src.last_modified
  · have := redacted_copy_clock h
    omega
  · rw [redacted_copy_skip n (by omega)] at h
    simp only [Option.some.injEq, Prod.mk.injEq] at h
    rw [← h.1]

theorem plain_copy_clock_mono {dst src d s : stack_of_cards} {n : Nat}
    (h : plain_copy dst src n = some (d, s)) :
    dst.last_modified ≤ d.last_modified := by
  by_cases hlt : dst.last_modified < src.last_modified
  · have := plain_copy_clock h
    omega
  · rw [plain_copy_skip n (by omega)] at h
    simp only [Option.some.injEq, Prod.mk.injEq] at h
    rw [← h.1]

theorem copy_of_clock_mono (id : stack_id) {dst src d s : stack_of_cards} {n : Nat}
    (h : copy_of id dst src n = some (d, s)) :
    dst.last_modified ≤ d.last_modified := by
  cases id with
  | deck => exact redacted_copy_clock_mono h
  | waste => exact plain_copy_clock_mono h
  | foundation i => exact plain_copy_clock_mono h
  | tableau i => exact redacted_copy_clock_mono h

/-! ## Conservation of cards -/

theorem sum_count_update {n : Nat} (f : Fin n → stack_of_cards) (k : Fin n)
    (s : stack_of_cards) :
    (∑ i, (Function.update f k s i).count) = (∑ i, (f i).count) - (f k).count + s.count := by
  have h1 := Finset.sum_update_of_mem (Finset.mem_univ k) (fun i => (f i).count) s.count
  have h2 := Finset.add_sum_erase Finset.univ (fun i => (f i).count) (Finset.mem_univ k)
  have h3 : (fun i => (Function.update f k s i).count)
      = Function.update (fun i => (f i).count) k s.count := by
    funext i
    by_cases hi : i = k
    · subst hi; simp
    · simp [Function.update_noteq hi]
  rw [h3, h1, Finset.sdiff_singleton_eq_erase]
  dsimp only at h2
  omega

theorem total_count_put (gs : game_state) (id : stack_id) (s : stack_of_cards) :
    total_count (gs.put id s) = total_count gs - (gs.get id).count + s.count := by
  cases id with
  | deck => simp only [total_count, game_state.put, game_state.get]; omega
  | waste => simp only [total_count, game_state.put, game_state.get]; omega
  | foundation i =>
    simp only [total_count, game_state.put, game_state.get, sum_count_update]; omega
  | tableau i =>
    simp only [total_count, game_state.put, game_state.get, sum_count_update]; omega

/-- `move_card` between two distinct stacks of a state keeps the total count. -/
theorem move_in_state_total {gs gs1 : game_state} {dst src : stack_id} {t : Int} {b : Bool}
    (hne : dst ≠ src) (h : move_in_state gs dst src t = some (b, gs1)) :
    total_count gs1 = total_count gs := by
  unfold move_in_state at h
  split at h
  · cases h
  · rename_i b1 d s hm
    simp only [Option.some.injEq, Prod.mk.injEq] at h
    obtain ⟨_, rfl⟩ := h
    rw [total_count_put, total_count_put, get_put_ne _ hne.symm]
    rcases move_card_cases hm with ⟨_, rfl, rfl, _⟩ | ⟨_, _, c1, c2, _, _⟩
    · omega
    · rw [c1, c2]; omega

/-- `pull_from_deck` keeps the total count. -/
theorem pull_from_deck_total {sh : game_state} {m t : Int} {res : Int × game_state}
    (h : pull_from_deck sh m t = some res) : total_count res.2 = total_count sh := by
  obtain ⟨a1, a2, a3, _, _⟩ := pull_from_deck_frame h
  simp only [total_count, a1, a2]
  omega

theorem shadow_steps_total :
    ∀ (steps : List shadow_step) (sh sh1 : game_state), distinct_moves steps →
      shadow_steps sh steps = some sh1 → total_count sh1 = total_count sh
  | [], sh, sh1, _, h => by
    simp only [shadow_steps, Option.some.injEq] at h
    rw [h]
  | .pull m t :: rest, sh, sh1, hd, h => by
    rw [shadow_steps] at h
    split at h
    · cases h
    · rename_i r sh2 hp
      rw [shadow_steps_total rest sh2 sh1 hd h]
      exact pull_from_deck_total hp
  | .move dst src t :: rest, sh, sh1, hd, h => by
    rw [shadow_steps] at h
    split at h
    · cases h
    · rename_i b sh2 hp
      rw [shadow_steps_total rest sh2 sh1 hd.2 h]
      exact move_in_state_total hd.1 hp

/-- After `init_game` the total count is 52 plus what the tableau counts were before. -/
theorem init_game_total {rnd : (i : Nat) → Fin (i + 1)} {shadow client sh0 cl0 : game_state}
    {t : Int} (h : init_game rnd shadow client t = some (sh0, cl0)) :
    total_count sh0 = 52 + ∑ k, (shadow.tableau k).count := by
  obtain ⟨tmp, _, _, _, htb, hf, hw, _, hd2, _⟩ := init_game_spec h
  have e1 : (∑ i, (sh0.foundation i).count) = 0 :=
    Finset.sum_eq_zero (fun i _ => (hf i).2.1)
  have e2 : (∑ k, (sh0.tableau k).count)
      = ∑ k : Fin 7, ((shadow.tableau k).count + ((k.val + 1 : Nat) : Int)) :=
    Finset.sum_congr rfl (fun k _ => (htb k).2.1)
  have e3 : (∑ k : Fin 7, ((k.val + 1 : Nat) : Int)) = 28 := by decide
  rw [total_count, e1, e2, Finset.sum_add_distrib, e3, hd2, hw.2.1]
  omega

/-! ## The recycle loop -/

theorem set_face_up_at {cs : List card} {t c i : Int} {k : Nat} {x : card} {b : Bool}
    (hk : k < cs.length) (hi : 0 ≤ i) (hik : i.toNat = k) :
    set_face_up { last_modified := t, cs := cs.set k x, count := c } i b
      = some { last_modified := t, cs := cs.set k { x with face_up := b }, count := c } := by
  have hl : i.toNat < (cs.set k x).length := by rw [List.length_set]; omega
  unfold set_face_up
  dsimp only
  rw [rd_of_lt hi hl]
  dsimp only
  rw [wr_of_lt _ hi hl]
  dsimp only
  congr 2
  subst hik
  simp [List.set_set]

/-- One round of the recycle loop: the top card of the waste goes to the top of the deck,
face-down; `i` is the loop index, equal to the count of the deck. -/
theorem recycle_loop_step (t : Int) (fuel : Nat) (i : Int) (sh : game_state) (top : card)
    (h1 : 0 < sh.waste.count) (htop : sh.waste.cs[(sh.waste.count - 1).toNat]? = some top)
    (h3 : 0 ≤ sh.deck.count) (h4 : sh.deck.count.toNat < sh.deck.cs.length)
    (hi : sh.deck.count = i) :
    recycle_loop t (fuel + 1) i sh = recycle_loop t fuel (i + 1)
      { sh with
        deck := { last_modified := t,
                  cs := sh.deck.cs.set sh.deck.count.toNat { top with face_up := false },
                  count := sh.deck.count + 1 },
        waste := { last_modified := t,
                   cs := sh.waste.cs.set (sh.waste.count - 1).toNat ZEROCARD,
                   count := sh.waste.count - 1 } } := by
  have hi0 : 0 ≤ sh.waste.count - 1 := by omega
  have hi1 : (sh.waste.count - 1).toNat < sh.waste.cs.length := by
    by_contra hc
    rw [List.getElem?_eq_none (by omega)] at htop
    cases htop
  have hm : move_card sh.deck sh.waste t = some (true,
      { last_modified := t, cs := sh.deck.cs.set sh.deck.count.toNat top,
        count := sh.deck.count + 1 },
      { last_modified := t, cs := sh.waste.cs.set (sh.waste.count - 1).toNat ZEROCARD,
        count := sh.waste.count - 1 }) := by
    unfold move_card
    have hr : rd sh.waste.cs (sh.waste.count - 1) = some top := by
      unfold rd; rw [if_pos hi0]; exact htop
    rw [if_pos (by omega), hr]
    dsimp only
    rw [wr_of_lt _ h3 h4]
    dsimp only
    rw [wr_of_lt _ hi0 hi1]
  rw [recycle_loop, if_pos h1, hm]
  dsimp only
  rw [set_face_up_at h4 (by omega) (by rw [← hi])]

theorem recycled_zero (t : Int) (sh : game_state) : recycled t sh sh 0 :=
  ⟨by simp, by simp, rfl, rfl, fun j => by rw [if_neg (by omega)],
    fun j => by rw [if_neg (by omega)], rfl, rfl, rfl, fun _ => rfl,
    fun h => absurd h (Nat.lt_irrefl 0)⟩

/-- The recycle loop moves the whole waste back to the deck, card by card. -/
theorem recycle_loop_spec (t : Int) :
    ∀ (fuel : Nat) (i : Int) (sh : game_state), sh.deck.count = i → 0 ≤ sh.deck.count →
      sh.waste.count = fuel → fuel ≤ sh.waste.cs.length →
      sh.deck.count.toNat + fuel ≤ sh.deck.cs.length →
      ∃ sh1, recycle_loop t fuel i sh = some sh1 ∧ recycled t sh sh1 fuel
  | 0, i, sh, _, _, hw, _, _ => by
    refine ⟨sh, ?_, recycled_zero t sh⟩
    rw [recycle_loop, if_neg (by omega)]
  | fuel + 1, i, sh, hi, hd0, hw, hwl, hdl => by
    have hn : (sh.waste.count - 1).toNat = sh.waste.count.toNat - 1 := by omega
    have hwn : sh.waste.count.toNat = fuel + 1 := by omega
    have hlt : (sh.waste.count - 1).toNat < sh.waste.cs.length := by omega
    obtain ⟨top, htop⟩ : ∃ top, sh.waste.cs[(sh.waste.count - 1).toNat]? = some top :=
      ⟨_, List.getElem?_eq_getElem hlt⟩
    have hd2 : sh.deck.count.toNat < sh.deck.cs.length := by omega
    rw [recycle_loop_step t fuel i sh top (by omega) htop hd0 hd2 hi]
    obtain ⟨sh1, hrun, hrec⟩ := recycle_loop_spec t fuel (i + 1)
      { sh with
        deck := { last_modified := t,
                  cs := sh.deck.cs.set sh.deck.count.toNat { top with face_up := false },
                  count := sh.deck.count + 1 },
        waste := { last_modified := t,
                   cs := sh.waste.cs.set (sh.waste.count - 1).toNat ZEROCARD,
                   count := sh.waste.count - 1 } }
      (by dsimp only; omega) (by dsimp only; omega) (by dsimp only; omega)
      (by dsimp only; rw [List.length_set]; omega)
      (by dsimp only; rw [List.length_set]; omega)
    have hd3 : (sh.deck.count + 1).toNat = sh.deck.count.toNat + 1 := by omega
    refine ⟨sh1, hrun, ?_⟩
    obtain ⟨a1, a2, a3, a4, a5, a6, a7, a8, a9, a10, a11⟩ := hrec
    dsimp only at a1 a2 a3 a4 a5 a6 a7 a8 a9 a10 a11
    rw [hn] at a5 a6
    rw [hd3] at a5
    rw [List.length_set] at a3 a4
    refine ⟨by rw [a1]; push_cast; omega, by rw [a2]; push_cast; omega, a3, a4,
      ?_, ?_, a7, a8, a9, fun h => by omega, fun _ => ?_⟩
    · intro j
      rw [a5 j]
      by_cases hj : sh.deck.count.toNat = j
      · subst hj
        rw [if_neg (by omega), if_pos (by omega), List.getElem?_set_self hd2]
        rw [show sh.waste.count.toNat - 1 - (sh.deck.count.toNat - sh.deck.count.toNat)
          = sh.waste.count.toNat - 1 by omega, ← hn, htop]
        rfl
      · by_cases hin : sh.deck.count.toNat + 1 ≤ j ∧ j < sh.deck.count.toNat + 1 + fuel
        · rw [if_pos hin, if_pos (by omega), List.getElem?_set_ne (by omega)]
          congr 2
          omega
        · rw [if_neg hin, if_neg (by omega), List.getElem?_set_ne hj]
    · intro j
      rw [a6 j, List.getElem?_set]
      by_cases hj : sh.waste.count.toNat - 1 = j
      · subst hj
        have : sh.waste.count.toNat - 1 < sh.waste.cs.length := by omega
        simp only [if_pos this, if_true]
        split <;> split <;> first | rfl | omega
      · simp only [if_neg hj]
        split <;> split <;> first | rfl | omega
    · rcases Nat.eq_zero_or_pos fuel with h0 | hp
      · rw [a10 h0]
        exact ⟨rfl, rfl⟩
      · exact a11 hp

/-! ## Well-formedness across draws and recycles -/

theorem face_down_ne_null {x : card} (h1 : x ≠ NULLCARD) (h2 : x ≠ BLANK_FACE_UP) :
    ({ x with face_up := false } : card) ≠ NULLCARD := by
  obtain ⟨c, r, f⟩ := x
  intro h
  simp only [NULLCARD, card.mk.injEq] at h
  obtain ⟨rfl, rfl, _⟩ := h
  cases f
  · exact h1 rfl
  · exact h2 rfl

theorem face_up_ne_null (x : card) : ({ x with face_up := true } : card) ≠ NULLCARD := by
  intro h
  simp [NULLCARD] at h

/-- After `k` draws from well-formed stacks with room in the waste, deck and waste are
strictly well formed. -/
theorem drawn_wf {t : Int} {sh sh1 : game_state} {k : Nat} (h : drawn t sh sh1 k)
    (hd : stack_wf sh.deck) (hw : stack_wf sh.waste) (hk : k ≤ sh.deck.count.toNat)
    (hdl : sh.deck.count.toNat < sh.deck.cs.length)
    (hwl : sh.waste.count.toNat + k < sh.waste.cs.length) :
    stack_wf_strict sh1.deck ∧ stack_wf_strict sh1.waste := by
  obtain ⟨a1, a2, a3, a4, a5, a6, _⟩ := h
  rw [stack_wf_iff] at hd hw
  obtain ⟨d0, d1, d2⟩ := hd
  obtain ⟨w0, w1, w2⟩ := hw
  refine ⟨⟨(stack_wf_iff _).2 ⟨by omega, by omega, ?_⟩, by omega⟩,
    ⟨(stack_wf_iff _).2 ⟨by omega, by omega, ?_⟩, by omega⟩⟩
  · intro j x hx
    rw [a5 j] at hx
    split at hx
    · simp only [Option.some.injEq] at hx
      subst hx
      exact ⟨fun hj => by omega, fun _ => rfl⟩
    · obtain ⟨p, q⟩ := d2 j x hx
      exact ⟨fun hj => p (by omega), fun hj => q (by omega)⟩
  · intro j x hx
    rw [a6 j] at hx
    split at hx
    · rename_i hc
      cases hy : sh.deck.cs[sh.deck.count.toNat - 1 - (j - sh.waste.count.toNat)]? with
      | none => rw [hy] at hx; cases hx
      | some y =>
        rw [hy] at hx
        simp only [Option.map_some', Option.some.injEq] at hx
        subst hx
        exact ⟨fun _ => face_up_ne_null y, fun hj => by omega⟩
    · obtain ⟨p, q⟩ := w2 j x hx
      exact ⟨fun hj => p (by omega), fun hj => q (by omega)⟩

/-- After the recycle of a well-formed waste without blank face-up card onto an empty,
well-formed deck with room, deck and waste are strictly well formed. -/
theorem recycled_wf {t : Int} {sh sh1 : game_state} {k : Nat} (h : recycled t sh sh1 k)
    (hd : stack_wf sh.deck) (hw : stack_wf sh.waste) (hk : sh.waste.count.toNat = k)
    (hdl : sh.deck.count.toNat + k < sh.deck.cs.length)
    (hwl : 0 < sh.waste.cs.length) (hb : BLANK_FACE_UP ∉ sh.waste.cs) :
    stack_wf_strict sh1.deck ∧ stack_wf_strict sh1.waste := by
  obtain ⟨a1, a2, a3, a4, a5, a6, _⟩ := h
  rw [stack_wf_iff] at hd hw
  obtain ⟨d0, d1, d2⟩ := hd
  obtain ⟨w0, w1, w2⟩ := hw
  refine ⟨⟨(stack_wf_iff _).2 ⟨by omega, by omega, ?_⟩, by omega⟩,
    ⟨(stack_wf_iff _).2 ⟨by omega, by omega, ?_⟩, by omega⟩⟩
  · intro j x hx
    rw [a5 j] at hx
    split at hx
    · rename_i hc
      cases hy : sh.waste.cs[sh.waste.count.toNat - 1 - (j - sh.deck.count.toNat)]? with
      | none => rw [hy] at hx; cases hx
      | some y =>
        rw [hy] at hx
        simp only [Option.map_some', Option.some.injEq] at hx
        subst hx
        have hy1 : y ≠ NULLCARD := (w2 _ y hy).1 (by omega)
        have hy2 : y ≠ BLANK_FACE_UP := fun e => hb (e ▸ List.getElem?_mem hy)
        exact ⟨fun _ => face_down_ne_null hy1 hy2, fun hj => by omega⟩
    · obtain ⟨p, q⟩ := d2 j x hx
      exact ⟨fun hj => p (by omega), fun hj => q (by omega)⟩
  · intro j x hx
    rw [a6 j] at hx
    split at hx
    · simp only [Option.some.injEq] at hx
      subst hx
      exact ⟨fun hj => by omega, fun _ => rfl⟩
    · obtain ⟨p, q⟩ := w2 j x hx
      exact ⟨fun hj => p (by omega), fun hj => q (by omega)⟩
/-- The call `move_card` returns when the live part of the source lies inside its array
and the destination has a free slot at `count`. -/
theorem move_card_total (dst src : stack_of_cards) (t : Int)
    (hs : src.count.toNat ≤ src.cs.length) (hd0 : 0 ≤ dst.count)
    (hd1 : dst.count.toNat < dst.cs.length) :
    ∃ b d s, move_card dst src t = some (b, d, s) := by
  unfold move_card
  by_cases hc : src.count ≥ 1
  · rw [if_pos hc]
    have h1 : (src.count - 1).toNat < src.cs.length := by omega
    rw [rd_of_lt (by omega) h1]
    dsimp only
    rw [wr_of_lt _ hd0 hd1]
    dsimp only
    rw [wr_of_lt _ (by omega) h1]
    exact ⟨_, _, _, rfl⟩
  · rw [if_neg hc]
    exact ⟨_, _, _, rfl⟩
/-! ## Successive draws -/

/-- One more card drawn after `k` cards drawn. -/
theorem drawn_succ {t t1 : Int} {sh0 sh sh1 : game_state} {k : Nat}
    (h : drawn t sh0 sh k) (h1 : drawn t1 sh sh1 1) (hd0 : 0 ≤ sh0.deck.count)
    (hw0 : 0 ≤ sh0.waste.count) (hk : k + 1 ≤ sh0.deck.count.toNat) :
    drawn t1 sh0 sh1 (k + 1) := by
  obtain ⟨a1, a2, a3, a4, a5, a6, a7, a8, _, _⟩ := h
  obtain ⟨b1, b2, b3, b4, b5, b6, b7, b8, _, b10⟩ := h1
  have ed : sh.deck.count.toNat = sh0.deck.count.toNat - k := by omega
  have ew : sh.waste.count.toNat = sh0.waste.count.toNat + k := by omega
  refine ⟨by rw [b1, a1]; push_cast; omega, by rw [b2, a2]; push_cast; omega,
    by rw [b3, a3], by rw [b4, a4], ?_, ?_, by rw [b7, a7], by rw [b8, a8],
    fun h0 => by omega, fun _ => b10 (by omega)⟩
  · intro j
    rw [b5 j, a5 j, ed]
    by_cases c1 : sh0.deck.count.toNat - k - 1 ≤ j ∧ j < sh0.deck.count.toNat - k
    · rw [if_pos c1, if_pos (by omega)]
    · rw [if_neg c1]
      by_cases c2 : sh0.deck.count.toNat - k ≤ j ∧ j < sh0.deck.count.toNat
      · rw [if_pos c2, if_pos (by omega)]
      · rw [if_neg c2, if_neg (by omega)]
  · intro j
    rw [b6 j, a6 j, ed, ew]
    by_cases c1 : sh0.waste.count.toNat + k ≤ j ∧ j < sh0.waste.count.toNat + k + 1
    · rw [if_pos c1, if_pos (by omega)]
      have ej : j = sh0.waste.count.toNat + k := by omega
      subst ej
      rw [a5 _, if_neg (by omega)]
      congr 2
      omega
    · rw [if_neg c1]
      by_cases c2 : sh0.waste.count.toNat ≤ j ∧ j < sh0.waste.count.toNat + k
      · rw [if_pos c2, if_pos (by omega)]
      · rw [if_neg c2, if_neg (by omega)]

/-- In classic mode a call of `pull_from_deck` on a deck that is not empty draws one
card. -/
theorem pull_from_deck_classic (sh : game_state) (t : Int) (hd : 1 ≤ sh.deck.count)
    (hdl : sh.deck.count.toNat ≤ sh.deck.cs.length) (hw0 : 0 ≤ sh.waste.count)
    (hwl : sh.waste.count.toNat + 1 ≤ sh.waste.cs.length) :
    ∃ sh1, pull_from_deck sh CLASSIC t = some (1, sh1) ∧ drawn t sh sh1 1 := by
  obtain ⟨sh1, hrun, hdr⟩ :=
    draw_loop_spec t 1 0 sh (by omega) hdl hw0 (by
      have : min sh.deck.count.toNat 1 = 1 := by omega
      omega)
  have hm : min sh.deck.count.toNat 1 = 1 := by omega
  rw [hm] at hrun hdr
  refine ⟨sh1, ?_, hdr⟩
  unfold pull_from_deck
  rw [if_neg (by omega)]
  exact hrun

/-- The first `k` calls of the draw-through in classic mode, `k` at most the number of
cards of the deck: each returns 1 and the state is the first one with `k` cards drawn. -/
theorem pulls_spec (t0 : Int) (shadow : game_state) (hd0 : 0 ≤ shadow.deck.count)
    (hdl : shadow.deck.count.toNat ≤ shadow.deck.cs.length) (hw0 : 0 ≤ shadow.waste.count)
    (hwl : shadow.waste.count.toNat + shadow.deck.count.toNat ≤ shadow.waste.cs.length) :
    ∀ k, k ≤ shadow.deck.count.toNat →
      ∃ sh, pulls CLASSIC t0 shadow k = some (List.replicate k 1, sh) ∧
        drawn (t0 + k) shadow sh k
  | 0, _ => ⟨shadow, rfl, drawn_zero _ shadow⟩
  | k + 1, hk => by
    obtain ⟨sh, hrun, hdr⟩ := pulls_spec t0 shadow hd0 hdl hw0 hwl k (by omega)
    have a1 := hdr.1
    have a2 := hdr.2.1
    have a3 := hdr.2.2.1
    have a4 := hdr.2.2.2.1
    obtain ⟨sh1, hp, hd1⟩ :=
      pull_from_deck_classic sh (t0 + k + 1) (by omega) (by omega) (by omega) (by omega)
    refine ⟨sh1, ?_, ?_⟩
    · rw [pulls, hrun]
      dsimp only
      rw [hp, List.replicate_succ']
    · have e : t0 + ((k + 1 : Nat) : Int) = t0 + k + 1 := by push_cast; omega
      rw [e]
      exact drawn_succ hdr hd1 hd0 hw0 hk
/-! ## The shuffle is a permutation -/

theorem swap_perm (cs : List card) (i j : Nat) (hi : i < cs.length) (hj : j < cs.length) :
    ((cs.set i cs[j]).set j cs[i]).Perm cs := by
  rw [List.perm_iff_count]
  intro b
  have hj2 : j < (cs.set i cs[j]).length := by rw [List.length_set]; exact hj
  rw [List.count_set _ _ _ _ hj2, List.count_set _ _ _ _ hi]
  have e : (cs.set i cs[j])[j] = cs[j] := by
    rw [List.getElem_set]
    split <;> rfl
  rw [e]
  have h1 : (if (cs[i] == b) = true then 1 else 0) ≤ List.count b cs := by
    split
    · rename_i hb
      have hb2 : cs[i] = b := by simpa using hb
      exact List.count_pos_iff.2 (hb2 ▸ List.getElem_mem hi)
    · omega
  have h2 : (if (cs[j] == b) = true then 1 else 0) ≤ List.count b cs := by
    split
    · rename_i hb
      have hb2 : cs[j] = b := by simpa using hb
      exact List.count_pos_iff.2 (hb2 ▸ List.getElem_mem hj)
    · omega
  omega

/-- The exchange of two slots inside the array returns a permutation of the array that
differs from it in those two slots only. -/
theorem swap_cards_perm (cs : List card) (i j : Nat) (hi : i < cs.length)
    (hj : j < cs.length) :
    ∃ cs1, swap_cards cs i j = some cs1 ∧ cs1.Perm cs ∧
      ∀ m, i ≠ m → j ≠ m → cs1[m]? = cs[m]? := by
  refine ⟨(cs.set i cs[j]).set j cs[i], ?_, swap_perm cs i j hi hj, ?_⟩
  · unfold swap_cards
    rw [List.getElem?_eq_getElem hi, List.getElem?_eq_getElem hj]
  · intro m h1 h2
    rw [List.getElem?_set_ne h2, List.getElem?_set_ne h1]

/-- The rounds `n, .., 1` of the shuffle on an array of more than `n` slots return a
permutation of the array and leave the slots after `n` as they were. -/
theorem shuffle_loop_perm (rnd : (i : Nat) → Fin (i + 1)) :
    ∀ (n : Nat) (cs : List card), n < cs.length →
      ∃ cs1, shuffle_loop rnd n cs = some cs1 ∧ cs1.Perm cs ∧
        ∀ m, n < m → cs1[m]? = cs[m]?
  | 0, cs, _ => ⟨cs, rfl, List.Perm.refl _, fun _ _ => rfl⟩
  | n + 1, cs, hn => by
    have hj : (rnd (n + 1)).val < cs.length := by
      have := (rnd (n + 1)).isLt
      omega
    obtain ⟨cs2, hs, hp, hk⟩ := swap_cards_perm cs (n + 1) (rnd (n + 1)).val hn hj
    have hl : n < cs2.length := by rw [hp.length_eq]; omega
    obtain ⟨cs1, hrun, hp1, hk1⟩ := shuffle_loop_perm rnd n cs2 hl
    refine ⟨cs1, ?_, hp1.trans hp, ?_⟩
    · rw [shuffle_loop, hs]
      exact hrun
    · intro m hm
      have := (rnd (n + 1)).isLt
      rw [hk1 m (by omega), hk m (by omega) (by omega)]

/-- The shuffle of `init_game` returns, for every outcome of the random draws: an array of
53 slots whose first 52 are a permutation of the 52 cards of the unshuffled set. -/
theorem shuffle_result (rnd : (i : Nat) → Fin (i + 1)) :
    ∃ tmp, shuffle_loop rnd 51 cs_tmp_deck = some tmp ∧ tmp.length = 53 ∧
      (tmp.take 52).Perm (cs_tmp_deck.take 52) := by
  obtain ⟨tmp, hrun, hp, hk⟩ := shuffle_loop_perm rnd 51 cs_tmp_deck (by decide)
  have hl : tmp.length = 53 := by rw [hp.length_eq]; decide
  refine ⟨tmp, hrun, hl, ?_⟩
  have h52 : tmp[52]? = some ZEROCARD := by rw [hk 52 (by omega)]; decide
  have e1 : tmp = tmp.take 52 ++ [ZEROCARD] := by
    apply List.ext_getElem?
    intro m
    by_cases hm : m < 52
    · rw [List.getElem?_append_left (by rw [List.length_take]; omega),
        List.getElem?_take_of_lt hm]
    · rw [List.getElem?_append_right (by rw [List.length_take]; omega), List.length_take,
        hl]
      by_cases hm2 : m = 52
      · subst hm2
        rw [h52]
        rfl
      · rw [List.getElem?_eq_none (by omega), List.getElem?_eq_none (by simp; omega)]
  have e2 : cs_tmp_deck = cs_tmp_deck.take 52 ++ [ZEROCARD] := by decide
  rw [e1, e2] at hp
  exact (List.perm_append_right_iff [ZEROCARD]).1 hp
/-! ## `init_game` returns -/

theorem memset0_of_le {dst : List card} {n : Nat} (h : n ≤ dst.length) :
    memset0 dst n = some (List.replicate n ZEROCARD ++ dst.drop n) := by
  unfold memset0
  rw [if_pos h]

theorem memset0_length {dst : List card} {n : Nat} (h : n ≤ dst.length) :
    (List.replicate n ZEROCARD ++ dst.drop n).length = dst.length := by
  rw [List.length_append, List.length_replicate, List.length_drop]
  omega

theorem set_face_up_defined (s : stack_of_cards) (i : Int) (b : Bool) (h0 : 0 ≤ i)
    (h1 : i.toNat < s.cs.length) : ∃ s1, set_face_up s i b = some s1 := by
  unfold set_face_up
  rw [rd_of_lt h0 h1]
  dsimp only
  rw [wr_of_lt _ h0 h1]
  exact ⟨_, rfl⟩

theorem dealt_before_le (k : Nat) (hk : k ≤ 7) : dealt_before k ≤ 28 := by
  interval_cases k <;> decide

/-- The deal of the tableaus returns when the shuffled array has 53 slots and every
tableau array at least 20. -/
theorem deal_tableaus_defined (tmp : List card) (sh : game_state) (htmp : tmp.length = 53)
    (hsz : ∀ k, 20 ≤ (sh.tableau k).cs.length) :
    ∀ k, k ≤ 7 → ∃ sh1 cur, deal_tableaus tmp sh 52 k = some (sh1, cur)
  | 0, _ => ⟨sh, 52, rfl⟩
  | k + 1, hk => by
    obtain ⟨sh2, cur2, hprev⟩ := deal_tableaus_defined tmp sh htmp hsz k (by omega)
    obtain ⟨_, _, _, _, p5, _, p7⟩ :=
      deal_tableaus_spec tmp sh 52 k sh2 cur2 (by omega) hprev
    have hlt : k < 7 := by omega
    have hdb := dealt_before_le (k + 1) hk
    simp only [dealt_before] at hdb
    have etb : sh2.tableau ⟨k, hlt⟩ = sh.tableau ⟨k, hlt⟩ := p7 ⟨k, hlt⟩ (Nat.le_refl _)
    have h20 := hsz ⟨k, hlt⟩
    have hcur : k + 1 ≤ cur2 := by omega
    have hl0 := memset0_length h20
    have hm : k + 1 ≤ (tmp.drop (cur2 - (k + 1))).length := by
      rw [List.length_drop]; omega
    have hl1 := @copied_length (List.replicate 20 ZEROCARD
      ++ (sh.tableau ⟨k, hlt⟩).cs.drop 20) _ _ (by omega : k + 1 ≤ _) hm
    obtain ⟨tb1, hf⟩ := set_face_up_defined
      { sh.tableau ⟨k, hlt⟩ with
        cs := (tmp.drop (cur2 - (k + 1))).take (k + 1)
          ++ (List.replicate 20 ZEROCARD ++ (sh.tableau ⟨k, hlt⟩).cs.drop 20).drop (k + 1) }
      (((k + 1 : Nat) : Int) - 1) true (by omega) (by dsimp only; omega)
    rw [deal_tableaus, hprev]
    dsimp only
    rw [dif_pos hlt, etb, memset0_of_le h20]
    dsimp only
    rw [if_pos hcur, memcpy_of_le (by omega) hm]
    dsimp only
    rw [hf]
    exact ⟨_, _, rfl⟩

/-- The loop over the foundations returns when every foundation array has at least 14
slots. -/
theorem init_foundations_defined (sh : game_state)
    (hsz : ∀ i, 14 ≤ (sh.foundation i).cs.length) :
    ∀ k, k ≤ 4 → ∃ sh1, init_foundations sh k = some sh1
  | 0, _ => ⟨sh, rfl⟩
  | k + 1, hk => by
    obtain ⟨sh2, hprev⟩ := init_foundations_defined sh hsz k (by omega)
    obtain ⟨_, _, _, _, _, p6⟩ := init_foundations_spec sh k sh2 hprev
    have hlt : k < 4 := by omega
    rw [init_foundations, hprev]
    dsimp only
    rw [dif_pos hlt, p6 ⟨k, hlt⟩ (Nat.le_refl _), memset0_of_le (hsz ⟨k, hlt⟩)]
    exact ⟨_, rfl⟩
theorem redact_loop_defined : ∀ L : List card, NULLCARD ∈ L → ∃ L1, redact_loop L = some L1
  | [], h => absurd h (List.not_mem_nil _)
  | x :: rest, h => by
    rw [redact_loop]
    by_cases hx : x = NULLCARD
    · rw [if_pos hx]
      exact ⟨_, rfl⟩
    · rw [if_neg hx]
      have hr : NULLCARD ∈ rest := by
        rcases List.mem_cons.1 h with e | e
        · exact absurd e.symm hx
        · exact e
      obtain ⟨L1, h1⟩ := redact_loop_defined rest hr
      rw [h1]
      exact ⟨_, rfl⟩

/-- `redacted_copy` returns when both arrays hold the `n` copied slots and one of the
copied slots of the source is empty. -/
theorem redacted_copy_defined (dst src : stack_of_cards) {n : Nat} (hd : n ≤ dst.cs.length)
    (hs : n ≤ src.cs.length) (hz : NULLCARD ∈ src.cs.take n) :
    ∃ d, redacted_copy dst src n = some (d, src) := by
  unfold redacted_copy
  by_cases hlt : dst.last_modified < src.last_modified
  · rw [if_pos hlt, memcpy_of_le hd hs]
    dsimp only
    obtain ⟨L1, h1⟩ := redact_loop_defined (src.cs.take n ++ dst.cs.drop n)
      (List.mem_append_left _ hz)
    rw [h1]
    exact ⟨_, rfl⟩
  · rw [if_neg hlt]
    exact ⟨_, rfl⟩

/-- `plain_copy` returns when both arrays hold the `n` copied slots. -/
theorem plain_copy_defined (dst src : stack_of_cards) {n : Nat} (hd : n ≤ dst.cs.length)
    (hs : n ≤ src.cs.length) : ∃ d, plain_copy dst src n = some (d, src) := by
  unfold plain_copy
  by_cases hlt : dst.last_modified < src.last_modified
  · rw [if_pos hlt, memcpy_of_le hd hs]
    exact ⟨_, rfl⟩
  · rw [if_neg hlt]
    exact ⟨_, rfl⟩

/-- `update_client_data` returns when the arrays of both states have their capacities and
the deck and every tableau of the shadow have an empty slot among the copied ones. -/
theorem update_client_data_defined (c s : game_state) (hc : state_sized c)
    (hs : state_sized s) (hdz : NULLCARD ∈ s.deck.cs.take 25)
    (htz : ∀ k, NULLCARD ∈ (s.tableau k).cs.take 20) :
    ∃ c1, update_client_data c s = some (c1, s) := by
  obtain ⟨c1, c2, c3, c4⟩ := hc
  obtain ⟨s1, s2, s3, s4⟩ := hs
  by_cases hlt : c.last_modified < s.last_modified
  · obtain ⟨d, hd⟩ := redacted_copy_defined c.deck s.deck c1 s1 hdz
    obtain ⟨w, hw⟩ := plain_copy_defined c.waste s.waste c2 s2
    choose f hf using fun i => plain_copy_defined (c.foundation i) (s.foundation i)
      (c3 i) (s3 i)
    choose g hg using fun k => redacted_copy_defined (c.tableau k) (s.tableau k)
      (c4 k) (s4 k) (htz k)
    exact ⟨_, update_client_data_complete hlt hd hw hf hg⟩
  · exact ⟨c, update_client_data_skip (by omega)⟩
/-- The call `init_game` returns, for every outcome of the random draws and every
generation, when the arrays of the shadow and of the client have their capacities. -/
theorem init_game_defined (rnd : (i : Nat) → Fin (i + 1)) (shadow client : game_state)
    (t : Int) (hs : state_sized shadow) (hc : state_sized client) :
    ∃ sh0 cl0, init_game rnd shadow client t = some (sh0, cl0) := by
  obtain ⟨s1, s2, s3, s4⟩ := hs
  obtain ⟨tmp, hsh, hl, _⟩ := shuffle_result rnd
  obtain ⟨shA, cur, hdeal⟩ :=
    deal_tableaus_defined tmp { shadow with last_modified := t } hl s4 7 (Nat.le_refl _)
  obtain ⟨_, d2, d3, d4, d5, d6, _⟩ :=
    deal_tableaus_spec tmp _ 52 7 shA cur (Nat.le_refl _) hdeal
  dsimp only at d2 d3 d4 d5 d6
  have hcur : cur = 24 := by
    have : dealt_before 7 = 28 := rfl
    omega
  subst hcur
  obtain ⟨shB, hfnd⟩ :=
    init_foundations_defined shA (fun i => by rw [d4]; exact s3 i) 4 (Nat.le_refl _)
  obtain ⟨_, f2, f3, f4, f5, _⟩ := init_foundations_spec shA 4 shB hfnd
  have hw : 25 ≤ shB.waste.cs.length := by rw [f3, d3]; exact s2
  have hd : 25 ≤ shB.deck.cs.length := by rw [f2, d2]; exact s1
  have hl0 := memset0_length (n := 25) hd
  have hl1 := @copied_length (List.replicate 25 ZEROCARD ++ shB.deck.cs.drop 25) tmp 24
    (by omega) (by omega)
  obtain ⟨cl0, hup⟩ := update_client_data_defined client
    { shB with
      waste := { last_modified := shB.last_modified,
                 cs := List.replicate 25 ZEROCARD ++ shB.waste.cs.drop 25, count := 0 },
      deck := { last_modified := shB.last_modified,
                cs := tmp.take 24
                  ++ (List.replicate 25 ZEROCARD ++ shB.deck.cs.drop 25).drop 24,
                count := (24 : Nat) } }
    hc
    ⟨by dsimp only; omega, by dsimp only; rw [memset0_length hw]; exact hw,
      fun i => by
        dsimp only
        rw [(f5 i i.isLt).2.2.1, d4]
        exact s3 i,
      fun k => by
        dsimp only
        rw [f4, (d6 k k.isLt).2.2.1]
        exact s4 k⟩
    (by
      dsimp only
      refine mem_take_of_get (i := 24) (by omega) ?_
      rw [copied_get_ge (by omega) (by omega),
        List.getElem?_append_left (by rw [List.length_replicate]; omega)]
      rfl)
    (fun k => by
      dsimp only
      rw [f4]
      have hk := k.isLt
      exact mem_take_of_get (i := 19) (by omega) ((d6 k hk).2.2.2.2.2.2.2.1 19 (by omega)
        (by omega)))
  unfold init_game
  dsimp only
  rw [hsh]
  dsimp only
  rw [hdeal]
  dsimp only
  rw [hfnd]
  dsimp only
  rw [memset0_of_le hw]
  dsimp only
  rw [memset0_of_le hd]
  dsimp only
  rw [memcpy_of_le (by omega) (by omega)]
  dsimp only
  rw [hup]
  exact ⟨_, _, rfl⟩
/-! ## The cards of the deal -/

/-- The first 52 cards of the shuffled array are real and face-down. -/
theorem shuffled_real {rnd : (i : Nat) → Fin (i + 1)} {tmp : List card}
    (h : shuffle_loop rnd 51 cs_tmp_deck = some tmp) (i : Nat) (x : card) (hi : i < 52)
    (hx : tmp[i]? = some x) : is_real x ∧ x.face_up = false := by
  obtain ⟨tmp1, h1, _, hp⟩ := shuffle_result rnd
  rw [h] at h1
  simp only [Option.some.injEq] at h1
  subst h1
  have hall : ∀ y ∈ cs_tmp_deck.take 52, is_real y ∧ y.face_up = false := by decide
  exact hall x (hp.subset (mem_take_of_get hi hx))

/-- The cards of a dealt tableau are, up to `face_up`, a slice of the shuffled array. -/
theorem tableau_dealt_cards {tmp : List card} {old new : stack_of_cards} {lm : Int}
    {base j : Nat} (h : tableau_dealt tmp old new lm base j) :
    (new.cs.take (j + 1)).map suit_rank = ((tmp.drop base).take (j + 1)).map suit_rank := by
  obtain ⟨_, _, _, _, _, h6, h7, _⟩ := h
  apply List.ext_getElem?
  intro m
  rw [List.getElem?_map, List.getElem?_map, List.getElem?_take, List.getElem?_take,
    List.getElem?_drop]
  by_cases hm : m < j + 1
  · rw [if_pos hm, if_pos hm]
    by_cases hmj : m < j
    · rw [h6 m hmj]
    · have e : m = j := by omega
      subst e
      rw [h7]
      cases tmp[base + m]? with
      | none => rfl
      | some y => rfl
  · rw [if_neg hm, if_neg hm]

theorem finRange_seven : List.finRange 7 = [0, 1, 2, 3, 4, 5, 6] := by decide

/-- The cards the deal has placed are, up to `face_up` and order, the 52 cards of the
unshuffled set. -/
theorem dealt_cards_perm {rnd : (i : Nat) → Fin (i + 1)} {shadow client sh0 cl0 : game_state}
    {t : Int} (h : init_game rnd shadow client t = some (sh0, cl0)) :
    ((dealt_cards sh0).map suit_rank).Perm ((cs_tmp_deck.take 52).map suit_rank) := by
  obtain ⟨tmp, hsh, _, _, htb, _, _, _, _, _, _, hd5, _⟩ := init_game_spec h
  obtain ⟨tmp1, h1, _, hp⟩ := shuffle_result rnd
  rw [hsh] at h1
  simp only [Option.some.injEq] at h1
  subst h1
  refine List.Perm.trans ?_ (hp.map suit_rank)
  have hdeck : sh0.deck.cs.take 24 = tmp.take 24 := by
    apply List.ext_getElem?
    intro m
    rw [List.getElem?_take, List.getElem?_take]
    by_cases hm : m < 24
    · rw [if_pos hm, if_pos hm, hd5 m hm]
    · rw [if_neg hm, if_neg hm]
  have t0 : ((sh0.tableau 0).cs.take ((0 : Fin 7).val + 1)).map suit_rank
      = ((tmp.drop 51).take 1).map suit_rank := tableau_dealt_cards (htb 0)
  have t1 : ((sh0.tableau 1).cs.take ((1 : Fin 7).val + 1)).map suit_rank
      = ((tmp.drop 49).take 2).map suit_rank := tableau_dealt_cards (htb 1)
  have t2 : ((sh0.tableau 2).cs.take ((2 : Fin 7).val + 1)).map suit_rank
      = ((tmp.drop 46).take 3).map suit_rank := tableau_dealt_cards (htb 2)
  have t3 : ((sh0.tableau 3).cs.take ((3 : Fin 7).val + 1)).map suit_rank
      = ((tmp.drop 42).take 4).map suit_rank := tableau_dealt_cards (htb 3)
  have t4 : ((sh0.tableau 4).cs.take ((4 : Fin 7).val + 1)).map suit_rank
      = ((tmp.drop 37).take 5).map suit_rank := tableau_dealt_cards (htb 4)
  have t5 : ((sh0.tableau 5).cs.take ((5 : Fin 7).val + 1)).map suit_rank
      = ((tmp.drop 31).take 6).map suit_rank := tableau_dealt_cards (htb 5)
  have t6 : ((sh0.tableau 6).cs.take ((6 : Fin 7).val + 1)).map suit_rank
      = ((tmp.drop 24).take 7).map suit_rank := tableau_dealt_cards (htb 6)
  have e52 : tmp.take 52 = tmp.take 24 ++ ((tmp.drop 24).take 7 ++ ((tmp.drop 31).take 6
      ++ ((tmp.drop 37).take 5 ++ ((tmp.drop 42).take 4 ++ ((tmp.drop 46).take 3
      ++ ((tmp.drop 49).take 2 ++ (tmp.drop 51).take 1)))))) := by
    rw [show 52 = 24 + (7 + (6 + (5 + (4 + (3 + (2 + 1)))))) from rfl]
    simp only [List.take_add, List.drop_drop]
  rw [e52, dealt_cards, finRange_seven]
  simp only [List.flatMap_cons, List.flatMap_nil, List.map_append, List.append_nil, hdeck]
  rw [t0, t1, t2, t3, t4, t5, t6]
  rw [List.perm_iff_count]
  intro p
  simp only [List.count_append]
  omega
/-- A `redacted_copy` that copies from a terminated source, slot by slot: the destination
gets the count and the clock of the source, its live cards redacted and, after them, the
slots of the source, over the `n` copied slots. -/
theorem redacted_copy_slots {dst src d s : stack_of_cards} {n : Nat}
    (hlt : dst.last_modified < src.last_modified) (hs : stack_terminated src n)
    (h : redacted_copy dst src n = some (d, s)) :
    d.count = src.count ∧ d.last_modified = src.last_modified ∧
      d.cs.length = dst.cs.length ∧
      ∀ i, i < n → d.cs[i]? =
        if i < src.count.toNat then (src.cs[i]?).map redact_card else src.cs[i]? := by
  have hd : n ≤ dst.cs.length := by
    unfold redacted_copy at h
    rw [if_pos hlt] at h
    split at h
    · cases h
    · rename_i L hm
      exact (memcpy_eq_some hm).1
  rw [redacted_copy_of_terminated hlt hd hs] at h
  simp only [Option.some.injEq, Prod.mk.injEq] at h
  obtain ⟨rfl, _⟩ := h
  obtain ⟨h0, h1, h2, h3, h4⟩ := hs
  have hk : src.count.toNat ≤ (src.cs.take n ++ dst.cs.drop n).length := by
    rw [copied_length hd h2]; omega
  refine ⟨rfl, rfl, ?_, ?_⟩
  · dsimp only
    rw [redacted_length, copied_length hd h2]
  · intro i hi
    dsimp only
    by_cases hic : i < src.count.toNat
    · rw [if_pos hic, redacted_get_lt hic hk, copied_get_lt h2 hi]
    · rw [if_neg hic, redacted_get_ge (by omega) hk, copied_get_lt h2 hi]

theorem redact_card_face_down {x : card} (h : x.face_up = false) :
    redact_card x = UNKNOWNCARD := by
  unfold redact_card
  rw [h]
  rfl

theorem redact_card_face_up {x : card} (h : x.face_up = true) : redact_card x = x := by
  unfold redact_card
  rw [h]
  rfl

/-! ## The claims -/

/-- C1. Redaction invariant after synchronisation: in every state reached by `init_game`
(called with a client whose top-level and per-stack clocks are all strictly below the
generation and a shadow whose tableau counts are zero) followed by any sequence of
`pull_from_deck` calls (whatever their modes and generations, strictly increasing or not,
and whether or not `update_client_data` is called in between), immediately after
`update_client_data(client, shadow)` every live entry (index below `count`) of the
client's deck and of each of the 7 client tableaus satisfies: if its `face_up` is false
the entry equals `UNKNOWNCARD`, and if its `face_up` is true its suit and rank equal those
of the shadow entry at the same stack and index. -/
theorem redaction_invariant_after_sync (rnd : (i : Nat) → Fin (i + 1))
    (shadow client : game_state) (t : Int) (steps : List play_step)
    (hclk : clocks_below client t) (hcnt : ∀ k, (shadow.tableau k).count = 0)
    (cl2 sh2 : game_state)
    (hrun : deal_play_sync rnd shadow client t steps = some (cl2, sh2)) :
    redaction_invariant cl2 sh2 := by
  unfold deal_play_sync at hrun
  split at hrun
  · cases hrun
  · rename_i sh0 cl0 hinit
    split at hrun
    · cases hrun
    · rename_i sh1 cl1 hplay
      have hsame := update_client_data_shadow hrun
      subst hsame
      obtain ⟨hk0, ht0⟩ := init_game_ok hcnt hinit
      obtain ⟨tmp, _, _, hlm, htb, _, _, hdl, _, _, _, _, _, _, hu0⟩ := init_game_spec hinit
      obtain ⟨c0, c1, _, _, c4⟩ := hclk
      have h0 := update_client_data_redacts hk0 ht0 hu0
        (Or.inl ⟨by rw [hlm]; exact c0, by rw [hdl]; exact c1,
          fun k => by rw [(htb k).1]; exact c4 k⟩)
      obtain ⟨hk1, ht1, hh1, hr1⟩ := play_ok steps sh0 cl0 sh2 cl1 hk0 ht0 h0.1 h0.2 hplay
      have h1 := update_client_data_redacts hk1 ht1 hrun (Or.inr ⟨hh1, hr1⟩)
      exact ⟨hidden_pile_redacted _ h1.1, h1.2⟩

/-- C1, witness: a deal from the blank states of `main` at generation 0, then a draw, a synchronisation and two more draws. -/
theorem redaction_invariant_after_sync_witness :
    clocks_below ex_blank 0 ∧ (∀ k, (ex_blank.tableau k).count = 0) ∧
      (deal_play_sync ex_rnd ex_blank ex_blank 0
        [.pull 0 1, .sync, .pull 1 2, .pull 0 3]).isSome = true ∧
      ∀ cl2 sh2,
        deal_play_sync ex_rnd ex_blank ex_blank 0 [.pull 0 1, .sync, .pull 1 2, .pull 0 3]
          = some (cl2, sh2) →
        redaction_invariant cl2 sh2 :=
  ⟨by decide, by decide, by decide,
    redaction_invariant_after_sync ex_rnd ex_blank ex_blank 0
      [.pull 0 1, .sync, .pull 1 2, .pull 0 3] (by decide) (by decide)⟩

/-- C2. No leak of hidden identities (two-run noninterference): for any starting client and
any two shadow states whose stacks are well formed and which agree on every clock, every
count, every `face_up` flag, the whole content of waste and foundations, and the suit and
rank of every face-up deck and tableau card, `update_client_data` produces exactly the same
client state from both (and is defined on the one exactly when it is on the other). -/
theorem update_client_data_noninterference (client s1 s2 : game_state)
    (h1 : state_wf s1) (h2 : state_wf s2) (hag : shadows_agree s1 s2) :
    (update_client_data client s1).map Prod.fst
      = (update_client_data client s2).map Prod.fst := by
  have hcopy := copy_of_agree client s1 s2 h1 h2 hag
  cases e1 : update_client_data client s1 with
  | some p =>
    obtain ⟨c', s'⟩ := p
    rw [update_client_data_congr client s1 s2 hag.1 hcopy c' s' e1]
    rfl
  | none =>
    cases e2 : update_client_data client s2 with
    | none => rfl
    | some q =>
      obtain ⟨c', s'⟩ := q
      have := update_client_data_congr client s2 s1 hag.1.symm
        (fun id => (hcopy id).symm) c' s' e2
      rw [e1] at this
      cases this

/-- C2, witness: `ex_shadow` and `ex_shadow_alt` differ in their face-down cards and give the blank client the same view. -/
theorem update_client_data_noninterference_witness :
    ex_shadow.deck ≠ ex_shadow_alt.deck ∧
      update_client_data ex_blank ex_shadow = some (ex_synced, ex_shadow) ∧
      (update_client_data ex_blank ex_shadow).map Prod.fst
        = (update_client_data ex_blank ex_shadow_alt).map Prod.fst :=
  ⟨by decide, ex_sync_blank,
    update_client_data_noninterference ex_blank ex_shadow ex_shadow_alt
      (by decide) (by decide) (by decide)⟩

/-- C3. Idempotence of synchronisation: when `update_client_data(client, shadow)` has
produced the client `c1` (and handed the shadow back as `s1`), the shadow is unchanged and
a second call with the same shadow returns exactly `c1` again: every card slot, count and
clock of every stack and the top-level clock are those of `c1`. -/
theorem update_client_data_idempotent (client shadow c1 s1 : game_state)
    (h : update_client_data client shadow = some (c1, s1)) :
    s1 = shadow ∧ update_client_data c1 shadow = some (c1, shadow) := by
  by_cases hlt : client.last_modified < shadow.last_modified
  · obtain ⟨hs, hc, _⟩ := update_client_data_spec hlt h
    exact ⟨hs, update_client_data_skip (by rw [hc])⟩
  · rw [update_client_data_skip (by omega)] at h
    simp only [Option.some.injEq, Prod.mk.injEq] at h
    obtain ⟨rfl, rfl⟩ := h
    exact ⟨rfl, update_client_data_skip (by omega)⟩

/-- C3, witness: synchronising `ex_client` with `ex_shadow` copies deck and waste; a second call changes nothing. -/
theorem update_client_data_idempotent_witness :
    update_client_data ex_client ex_shadow = some (ex_synced, ex_shadow) ∧
      ex_shadow = ex_shadow ∧
      update_client_data ex_synced ex_shadow = some (ex_synced, ex_shadow) :=
  ⟨ex_sync, update_client_data_idempotent ex_client ex_shadow ex_synced ex_shadow ex_sync⟩

/-- C4. Field-granular synchronisation: `update_client_data` leaves unchanged (cards,
count and `last_modified`) every client stack whose `last_modified` is not less than the
`last_modified` of the corresponding shadow stack, whatever the top-level clocks are. -/
theorem update_client_data_field_granular (client shadow c1 s1 : game_state)
    (h : update_client_data client shadow = some (c1, s1)) (id : stack_id)
    (hclk : (shadow.get id).last_modified ≤ (client.get id).last_modified) :
    c1.get id = client.get id := by
  by_cases hlt : client.last_modified < shadow.last_modified
  · have hid := game_state_get_update_client hlt h id
    rw [copy_of_skip id _ hclk] at hid
    simp only [Option.some.injEq, Prod.mk.injEq] at hid
    exact hid.1.symm
  · rw [update_client_data_skip (by omega)] at h
    simp only [Option.some.injEq, Prod.mk.injEq] at h
    rw [h.1]

/-- C4, witness: the top-level clock of `ex_client` advances from 2 to 3 while its tableau 1, as recent as the shadow's, is left as it was. -/
theorem update_client_data_field_granular_witness :
    ex_client.last_modified < ex_shadow.last_modified ∧
      ex_synced.last_modified = ex_shadow.last_modified ∧
      ex_synced.get (.tableau 1) = ex_client.get (.tableau 1) :=
  ⟨by decide, by decide,
    update_client_data_field_granular ex_client ex_shadow ex_synced ex_shadow ex_sync
      (.tableau 1) (by decide)⟩

/-- C5, counterexample. The client `ex_synced` is in sync with `ex_shadow`
(`update_client_data` has just produced it); `move_card` then moves the waste card onto
foundation 1 with generation 4, greater than every clock of the client, and succeeds; the
next `update_client_data` leaves the client as it was, so the counts of its waste and of
its foundation 1 differ from the shadow's: `move_card` does not advance the top-level
clock of the shadow, and the driver returns at once. -/
theorem move_not_propagated_counterexample :
    update_client_data ex_client ex_shadow = some (ex_synced, ex_shadow) ∧
      clocks_below ex_synced 4 ∧
      move_in_state ex_shadow (.foundation 1) .waste 4 = some (true, ex_moved) ∧
      update_client_data ex_synced ex_moved = some (ex_synced, ex_moved) ∧
      (ex_synced.get .waste).count ≠ (ex_moved.get .waste).count ∧
      (ex_synced.get (.foundation 1)).count ≠ (ex_moved.get (.foundation 1)).count :=
  ⟨ex_sync, by decide, ex_move, update_client_data_skip (by decide), by decide, by decide⟩

/-- C5, amended. A move is propagated by the next synchronisation once the top-level clock
of the shadow has been advanced: after a successful `move_card` between two distinct,
well-formed stacks of the shadow state with a generation `t` greater than every clock of
the client, and once the shadow's `last_modified` has been set to `t` (as `pull_from_deck`
does after its moves; `move_card` itself leaves it alone), the next `update_client_data`
makes the client's copies of both stacks reflect the move: their count and `last_modified`
equal the shadow's, and over the copied slots their cards equal the shadow's cards,
verbatim for waste and foundations, with the face-down live cards replaced by
`UNKNOWNCARD` for deck and tableaus. -/
theorem move_propagated_after_clock_update (client shadow sh1 c1 s1 : game_state)
    (dst src : stack_id) (t : Int) (hne : dst ≠ src)
    (hwd : stack_wf (shadow.get dst)) (hws : stack_wf (shadow.get src))
    (hclk : clocks_below client t)
    (hmove : move_in_state shadow dst src t = some (true, sh1))
    (hupd : update_client_data client { sh1 with last_modified := t } = some (c1, s1))
    (id : stack_id) (hid : id = dst ∨ id = src) :
    (sh1.get id).last_modified = t ∧
      (c1.get id).count = (sh1.get id).count ∧
      (c1.get id).last_modified = (sh1.get id).last_modified ∧
      ∀ i x, i < copy_size id → (sh1.get id).cs[i]? = some x →
        (c1.get id).cs[i]? =
          some (if is_redacted id = true ∧ i < (sh1.get id).count.toNat
                then redact_card x else x) := by
  -- the two stacks after the move
  unfold move_in_state at hmove
  split at hmove
  · cases hmove
  · rename_i b d s hm
    simp only [Option.some.injEq, Prod.mk.injEq] at hmove
    obtain ⟨rfl, rfl⟩ := hmove
    obtain ⟨hwd', hws'⟩ := move_card_wf hwd hws hm
    obtain ⟨_, _, _, _, top, _, hd, hs⟩ := move_card_true hm
    have hgd : ((shadow.put dst d).put src s).get dst = d := by
      rw [get_put_ne _ hne, get_put_same]
    have hgs : ((shadow.put dst d).put src s).get src = s := get_put_same _ _ _
    have hwf : stack_wf (((shadow.put dst d).put src s).get id) := by
      rcases hid with rfl | rfl
      · rw [hgd]; exact hwd'
      · rw [hgs]; exact hws'
    have hlm : (((shadow.put dst d).put src s).get id).last_modified = t := by
      rcases hid with rfl | rfl
      · rw [hgd, hd]
      · rw [hgs, hs]
    -- the copy of the stack `id`
    obtain ⟨h0, h1, h2, h3, h4⟩ := hclk
    have hcl : (client.get id).last_modified < t := by
      cases id with
      | deck => exact h1
      | waste => exact h2
      | foundation i => exact h3 i
      | tableau i => exact h4 i
    have hcopy := game_state_get_update_client (c := client) h0 hupd id
    rw [get_set_clock] at hcopy
    have hlt : (client.get id).last_modified
        < (((shadow.put dst d).put src s).get id).last_modified := by rw [hlm]; exact hcl
    refine ⟨hlm, ?_⟩
    cases id with
    | deck =>
      obtain ⟨a, b, c⟩ := redacted_copy_reflects hlt hwf hcopy
      refine ⟨a, b, fun i x hi hx => ?_⟩
      rw [c i x hi hx]
      simp [is_redacted]
    | tableau j =>
      obtain ⟨a, b, c⟩ := redacted_copy_reflects hlt hwf hcopy
      refine ⟨a, b, fun i x hi hx => ?_⟩
      rw [c i x hi hx]
      simp [is_redacted]
    | waste =>
      obtain ⟨a, b, c⟩ := plain_copy_reflects hlt hcopy
      refine ⟨a, b, fun i x hi hx => ?_⟩
      rw [c i hi, hx]
      simp [is_redacted]
    | foundation j =>
      obtain ⟨a, b, c⟩ := plain_copy_reflects hlt hcopy
      refine ⟨a, b, fun i x hi hx => ?_⟩
      rw [c i hi, hx]
      simp [is_redacted]

/-- C5, witness of the amended claim: the move of the counterexample, followed by the update of the top-level clock, reaches the client. -/
theorem move_propagated_after_clock_update_witness :
    clocks_below ex_synced 4 ∧
      move_in_state ex_shadow (.foundation 1) .waste 4 = some (true, ex_moved) ∧
      update_client_data ex_synced { ex_moved with last_modified := 4 }
        = some (ex_moved_view, { ex_moved with last_modified := 4 }) ∧
      (ex_moved.get .waste).last_modified = 4 ∧
      (ex_moved_view.get .waste).count = (ex_moved.get .waste).count ∧
      (ex_moved_view.get .waste).last_modified = (ex_moved.get .waste).last_modified ∧
      ∀ i x, i < copy_size .waste → (ex_moved.get .waste).cs[i]? = some x →
        (ex_moved_view.get .waste).cs[i]? =
          some (if is_redacted .waste = true ∧ i < (ex_moved.get .waste).count.toNat
                then redact_card x else x) :=
  ⟨by decide, ex_move, ex_sync_moved,
    move_propagated_after_clock_update ex_synced ex_shadow ex_moved ex_moved_view
      { ex_moved with last_modified := 4 } (.foundation 1) .waste 4 (by decide)
      (by decide) (by decide) (by decide) ex_move ex_sync_moved .waste (Or.inr rfl)⟩

/-- C6, counterexample. The source `ex_src_tail` holds `count = 1` live card followed by an
empty slot within the 20 copied slots, and the destination is stale, yet after
`redacted_copy` slot 2 of the destination (an index from `count` on) is not empty: it holds
the card the source had behind its terminator. -/
theorem redacted_copy_trailing_slots_counterexample :
    stack_terminated ex_src_tail 20 ∧
      ex_dst.last_modified < ex_src_tail.last_modified ∧
      ∃ d, redacted_copy ex_dst ex_src_tail 20 = some (d, ex_src_tail) ∧
        d.count = 1 ∧ d.cs[2]? = some ⟨2, 2, true⟩ ∧
        ¬ (∀ i : Nat, d.count.toNat ≤ i → i < 20 → d.cs[i]? = some NULLCARD) := by
  refine ⟨by decide, by decide, ⟨ex_src_tail.last_modified, ex_src_tail.cs, 1⟩,
    by decide, rfl, by decide, ?_⟩
  intro h
  exact absurd (h 2 (by decide) (by decide)) (by decide)

/-- C6, amended. `redacted_copy` result: for a source holding `count` live cards followed
by an empty slot within the `n` copied slots and a destination of at least `n` slots with
`dst.last_modified < src.last_modified`, the destination gets the `count` and
`last_modified` of the source; at every index below `count` it holds `UNKNOWNCARD` where
the source card is face-down and the source card itself where it is face-up; the slot at
index `count` is empty; the slots after it, up to `n`, are the slots of the source verbatim
(so they are empty when those of the source are), and the slots from `n` on are kept.
When `dst.last_modified >= src.last_modified` the destination is left completely
unchanged. In both cases the source is unchanged. -/
theorem redacted_copy_result (dst src : stack_of_cards) (n : Nat) :
    (dst.last_modified < src.last_modified → n ≤ dst.cs.length → stack_terminated src n →
      ∃ d, redacted_copy dst src n = some (d, src) ∧
        d.count = src.count ∧ d.last_modified = src.last_modified ∧
        d.cs.length = dst.cs.length ∧
        (∀ i x, i < src.count.toNat → src.cs[i]? = some x →
          (x.face_up = false → d.cs[i]? = some UNKNOWNCARD) ∧
          (x.face_up = true → d.cs[i]? = some x)) ∧
        d.cs[src.count.toNat]? = some NULLCARD ∧
        (∀ i, src.count.toNat < i → i < n → d.cs[i]? = src.cs[i]?) ∧
        ((∀ i, src.count.toNat < i → i < n → src.cs[i]? = some NULLCARD) →
          ∀ i, src.count.toNat ≤ i → i < n → d.cs[i]? = some NULLCARD) ∧
        (∀ i, n ≤ i → d.cs[i]? = dst.cs[i]?)) ∧
    (src.last_modified ≤ dst.last_modified → redacted_copy dst src n = some (dst, src)) := by
  refine ⟨fun hlt hd hs => ?_, fun hge => redacted_copy_skip n hge⟩
  have hcopy := redacted_copy_of_terminated hlt hd hs
  obtain ⟨_, h1, h2, h3, h4⟩ := hs
  have hlen : (src.cs.take n ++ dst.cs.drop n).length = dst.cs.length := copied_length hd h2
  have hk : src.count.toNat ≤ (src.cs.take n ++ dst.cs.drop n).length := by omega
  have hat : ∀ i, src.count.toNat ≤ i →
      (((src.cs.take n ++ dst.cs.drop n).take src.count.toNat).map redact_card
        ++ (src.cs.take n ++ dst.cs.drop n).drop src.count.toNat)[i]?
      = (src.cs.take n ++ dst.cs.drop n)[i]? := fun i hi => redacted_get_ge hi hk
  have hcnt : (((src.cs.take n ++ dst.cs.drop n).take src.count.toNat).map redact_card
        ++ (src.cs.take n ++ dst.cs.drop n).drop src.count.toNat)[src.count.toNat]?
      = some NULLCARD := by
    rw [hat _ (Nat.le_refl _), copied_get_lt h2 h1]; exact h4
  have hmid : ∀ i, src.count.toNat < i → i < n →
      (((src.cs.take n ++ dst.cs.drop n).take src.count.toNat).map redact_card
        ++ (src.cs.take n ++ dst.cs.drop n).drop src.count.toNat)[i]? = src.cs[i]? := by
    intro i hi hin
    rw [hat i (by omega), copied_get_lt h2 hin]
  refine ⟨_, hcopy, rfl, rfl, ?_, ?_, hcnt, hmid, ?_, ?_⟩
  · rw [redacted_length]; exact hlen
  · intro i x hi hx
    have hix : (((src.cs.take n ++ dst.cs.drop n).take src.count.toNat).map redact_card
        ++ (src.cs.take n ++ dst.cs.drop n).drop src.count.toNat)[i]?
        = some (redact_card x) := by
      rw [redacted_get_lt hi hk, copied_get_lt h2 (by omega), hx]; rfl
    constructor
    · intro hf; rw [hix]; simp [redact_card, hf]
    · intro hf; rw [hix]; simp [redact_card, hf]
  · intro hall i hi hin
    rcases Nat.eq_or_lt_of_le hi with he | hl
    · rw [← he]; exact hcnt
    · rw [hmid i hl hin]; exact hall i hl hin
  · intro i hi
    rw [hat i (by omega), copied_get_ge h2 hi]

/-- C6, witness of the amended claim, at the input of the counterexample. -/
theorem redacted_copy_result_witness :
    ∃ d, redacted_copy ex_dst ex_src_tail 20 = some (d, ex_src_tail) ∧
      d.count = ex_src_tail.count ∧ d.last_modified = ex_src_tail.last_modified ∧
      d.cs.length = ex_dst.cs.length ∧
      (∀ i x, i < ex_src_tail.count.toNat → ex_src_tail.cs[i]? = some x →
        (x.face_up = false → d.cs[i]? = some UNKNOWNCARD) ∧
        (x.face_up = true → d.cs[i]? = some x)) ∧
      d.cs[ex_src_tail.count.toNat]? = some NULLCARD ∧
      (∀ i, ex_src_tail.count.toNat < i → i < 20 → d.cs[i]? = ex_src_tail.cs[i]?) ∧
      ((∀ i, ex_src_tail.count.toNat < i → i < 20 → ex_src_tail.cs[i]? = some NULLCARD) →
        ∀ i, ex_src_tail.count.toNat ≤ i → i < 20 → d.cs[i]? = some NULLCARD) ∧
      (∀ i, 20 ≤ i → d.cs[i]? = ex_dst.cs[i]?) :=
  (redacted_copy_result ex_dst ex_src_tail 20).1 (by decide) (by decide) (by decide)

/-- C7. `plain_copy` result: if `dst.last_modified < src.last_modified` (and the `n`
copied slots lie inside both arrays) the destination gets the `n` first card slots of the
source verbatim, face-down cards included, keeps its slots from `n` on, and gets the
`count` and `last_modified` of the source; if `dst.last_modified >= src.last_modified` the
destination is left completely unchanged. In both cases the source is unchanged. -/
theorem plain_copy_result (dst src : stack_of_cards) (n : Nat) :
    (dst.last_modified < src.last_modified → n ≤ dst.cs.length → n ≤ src.cs.length →
      ∃ d, plain_copy dst src n = some (d, src) ∧
        d.count = src.count ∧ d.last_modified = src.last_modified ∧
        d.cs.length = dst.cs.length ∧
        (∀ i, i < n → d.cs[i]? = src.cs[i]?) ∧
        (∀ i, n ≤ i → d.cs[i]? = dst.cs[i]?)) ∧
    (src.last_modified ≤ dst.last_modified → plain_copy dst src n = some (dst, src)) := by
  refine ⟨fun hlt hd hs => ?_, fun hge => plain_copy_skip n hge⟩
  refine ⟨⟨src.last_modified, src.cs.take n ++ dst.cs.drop n, src.count⟩, ?_, rfl, rfl,
    copied_length hd hs, fun i hi => copied_get_lt hs hi, fun i hi => copied_get_ge hs hi⟩
  unfold plain_copy
  rw [if_pos hlt, memcpy_of_le hd hs]

/-- C7, witness: a face-down card is copied with its suit and rank. -/
theorem plain_copy_result_witness :
    ∃ d, plain_copy (pile 0 [] 25) (pile 3 [⟨4, 9, false⟩] 25) 25
        = some (d, pile 3 [⟨4, 9, false⟩] 25) ∧
      d.count = 1 ∧ d.last_modified = 3 ∧ d.cs.length = 25 ∧
      (∀ i, i < 25 → d.cs[i]? = (pile 3 [⟨4, 9, false⟩] 25).cs[i]?) ∧
      (∀ i, 25 ≤ i → d.cs[i]? = (pile 0 [] 25).cs[i]?) :=
  (plain_copy_result (pile 0 [] 25) (pile 3 [⟨4, 9, false⟩] 25) 25).1
    (by decide) (by decide) (by decide)

/-- C8. `move_card` on a non-empty source: with `1 <= src.count` (the top card
`src.cs[src.count - 1]` lying inside the source array) and `dst.count` a valid index below
the capacity of the destination, the call returns true; `dst.cs[old dst.count]` is the old
top card of the source, `dst.count` grew by 1, `src.cs[old src.count - 1]` is the empty
card, `src.count` shrank by 1, both `last_modified` equal `t`, and every other slot of both
stacks is unchanged. -/
theorem move_card_result (dst src : stack_of_cards) (t : Int)
    (hs1 : 1 ≤ src.count) (hs2 : src.count.toNat ≤ src.cs.length)
    (hd1 : 0 ≤ dst.count) (hd2 : dst.count.toNat < dst.cs.length) :
    ∃ d s top, move_card dst src t = some (true, d, s) ∧
      src.cs[(src.count - 1).toNat]? = some top ∧
      d.cs[dst.count.toNat]? = some top ∧ d.count = dst.count + 1 ∧
      s.cs[(src.count - 1).toNat]? = some NULLCARD ∧ s.count = src.count - 1 ∧
      d.last_modified = t ∧ s.last_modified = t ∧
      d.cs.length = dst.cs.length ∧ s.cs.length = src.cs.length ∧
      (∀ i, i ≠ dst.count.toNat → d.cs[i]? = dst.cs[i]?) ∧
      (∀ i, i ≠ (src.count - 1).toNat → s.cs[i]? = src.cs[i]?) := by
  have hi0 : 0 ≤ src.count - 1 := by omega
  have hi1 : (src.count - 1).toNat < src.cs.length := by omega
  refine ⟨⟨t, dst.cs.set dst.count.toNat (src.cs.get ⟨_, hi1⟩), dst.count + 1⟩,
    ⟨t, src.cs.set (src.count - 1).toNat ZEROCARD, src.count - 1⟩,
    src.cs.get ⟨_, hi1⟩, ?_, ?_, ?_, rfl, ?_, rfl, rfl, rfl, ?_, ?_, ?_, ?_⟩
  · unfold move_card
    rw [if_pos (by omega), rd_of_lt hi0 hi1]
    dsimp only
    rw [wr_of_lt _ hd1 hd2]
    dsimp only
    rw [wr_of_lt _ hi0 hi1]
  · exact List.getElem?_eq_getElem hi1
  · exact List.getElem?_set_self hd2
  · exact List.getElem?_set_self hi1
  · exact List.length_set _ _ _
  · exact List.length_set _ _ _
  · intro i hi
    exact List.getElem?_set_ne (Ne.symm hi)
  · intro i hi
    exact List.getElem?_set_ne (Ne.symm hi)

/-- C8, witness: the top of a deck of two cards moves onto a waste of one card. -/
theorem move_card_result_witness :
    ∃ d s top, move_card (pile 3 [⟨4, 9, true⟩] 25) (pile 3 [⟨1, 2, false⟩, ⟨3, 7, false⟩] 25) 4
        = some (true, d, s) ∧
      (pile 3 [⟨1, 2, false⟩, ⟨3, 7, false⟩] 25).cs[1]? = some top ∧
      d.cs[1]? = some top ∧ d.count = 2 ∧
      s.cs[1]? = some NULLCARD ∧ s.count = 1 ∧
      d.last_modified = 4 ∧ s.last_modified = 4 ∧
      d.cs.length = 25 ∧ s.cs.length = 25 ∧
      (∀ i, i ≠ 1 → d.cs[i]? = (pile 3 [⟨4, 9, true⟩] 25).cs[i]?) ∧
      (∀ i, i ≠ 1 → s.cs[i]? = (pile 3 [⟨1, 2, false⟩, ⟨3, 7, false⟩] 25).cs[i]?) :=
  move_card_result (pile 3 [⟨4, 9, true⟩] 25) (pile 3 [⟨1, 2, false⟩, ⟨3, 7, false⟩] 25) 4
    (by decide) (by decide) (by decide) (by decide)

/-- C9. `move_card` on an empty source: when `src.count` is 0 the call returns false and
leaves both stacks entirely unchanged (cards, count and `last_modified`). -/
theorem move_card_empty_source (dst src : stack_of_cards) (t : Int) (h : src.count = 0) :
    move_card dst src t = some (false, dst, src) := by
  unfold move_card
  rw [if_neg (by omega)]

/-- C9, witness: nothing moves from an empty waste. -/
theorem move_card_empty_source_witness :
    move_card (pile 3 [⟨4, 9, true⟩] 25) (pile 3 [] 25) 4
      = some (false, pile 3 [⟨4, 9, true⟩] 25, pile 3 [] 25) :=
  move_card_empty_source _ _ 4 (by decide)

/-- C10, counterexample. On `ex_shadow`, whose well-formed deck holds 2 cards and whose
well-formed waste holds 1 card in 25 slots, with the mode value 2^31 = 2147483648, which is
not negative, `min(deck.count, 1 + 2*m)` is 2 and `waste.count + 2` is below the waste
capacity; but line 257 computes `1 + 2 * game_mode` in the 32-bit type of `enum mode`,
where it is 1, so `pull_from_deck` draws one card and returns 1, not 2: the deck keeps one
card. -/
theorem pull_from_deck_wrap_counterexample :
    stack_wf ex_shadow.deck ∧ stack_wf ex_shadow.waste ∧
    ¬ (ex_shadow.deck.count = 0 ∧ ex_shadow.waste.count > 0) ∧
    (0 : Int) ≤ 2147483648 ∧
    ex_shadow.waste.count + min ex_shadow.deck.count (1 + 2 * 2147483648)
      < ex_shadow.waste.cs.length ∧
    min ex_shadow.deck.count (1 + 2 * 2147483648) = 2 ∧
    ∃ sh1, pull_from_deck ex_shadow 2147483648 4 = some (1, sh1) ∧
      sh1.deck.count = 1 ∧ sh1.waste.count = 2 := by
  have hb : draw_bound 2147483648 = 1 := by decide
  obtain ⟨sh1, hrun, a1, a2, _⟩ :=
    draw_loop_spec 4 1 0 ex_shadow (by decide) (by decide) (by decide) (by decide)
  refine ⟨by decide, by decide, by decide, by decide, by decide, by decide, sh1, ?_, ?_, ?_⟩
  · unfold pull_from_deck
    rw [if_neg (by decide), hb, hrun]
    rfl
  · rw [a1]
    decide
  · rw [a2]
    decide

/-- C10, amended. `pull_from_deck` draw: for a shadow state with well-formed deck and waste
that is not in the recycle case, a mode `m >= 0` with `1 + 2*m` below 2^32, so that the
bound of line 257 does not wrap in the 32-bit type of `enum mode`, and a generation `t`,
with `waste.count + min(deck.count, 1 + 2*m)` below the waste capacity, the call returns
`k = min(deck.count, 1 + 2*m)`; afterwards the deck has lost its top `k` cards (its slots
below `deck.count - k` are kept, the `k` vacated slots are empty), the waste has gained
exactly those `k` cards on top in reversed order (the old deck top `deck.cs[deck.count-1]`
lands at `waste.cs[waste.count]`, the deepest of the new cards), each with `face_up` true
and suit and rank unchanged, the other slots of both arrays are unchanged, and foundations
and tableaus are unchanged. -/
theorem pull_from_deck_draw (shadow : game_state) (m t : Int) (hm : 0 ≤ m)
    (hb : 1 + 2 * m < 4294967296) (hd : stack_wf shadow.deck) (hw : stack_wf shadow.waste)
    (hnr : ¬ (shadow.deck.count = 0 ∧ shadow.waste.count > 0))
    (hcap : shadow.waste.count + min shadow.deck.count (1 + 2 * m)
      < shadow.waste.cs.length) :
    ∃ sh1, pull_from_deck shadow m t = some (min shadow.deck.count (1 + 2 * m), sh1) ∧
      sh1.deck.count = shadow.deck.count - min shadow.deck.count (1 + 2 * m) ∧
      sh1.waste.count = shadow.waste.count + min shadow.deck.count (1 + 2 * m) ∧
      (∀ j : Nat, (j : Int) < shadow.deck.count - min shadow.deck.count (1 + 2 * m) →
        sh1.deck.cs[j]? = shadow.deck.cs[j]?) ∧
      (∀ j : Nat, shadow.deck.count - min shadow.deck.count (1 + 2 * m) ≤ (j : Int) →
        (j : Int) < shadow.deck.count → sh1.deck.cs[j]? = some NULLCARD) ∧
      (∀ j : Nat, shadow.deck.count ≤ (j : Int) → sh1.deck.cs[j]? = shadow.deck.cs[j]?) ∧
      (∀ j : Nat, (j : Int) < shadow.waste.count →
        sh1.waste.cs[j]? = shadow.waste.cs[j]?) ∧
      (∀ (j : Nat) (x : card), (j : Int) < min shadow.deck.count (1 + 2 * m) →
        shadow.deck.cs[shadow.deck.count.toNat - 1 - j]? = some x →
        sh1.waste.cs[shadow.waste.count.toNat + j]?
          = some { c := x.c, r := x.r, face_up := true }) ∧
      (∀ j : Nat, shadow.waste.count + min shadow.deck.count (1 + 2 * m) ≤ (j : Int) →
        sh1.waste.cs[j]? = shadow.waste.cs[j]?) ∧
      sh1.foundation = shadow.foundation ∧ sh1.tableau = shadow.tableau := by
  obtain ⟨hd0, hd1, _, _⟩ := hd
  obtain ⟨hw0, hw1, _, _⟩ := hw
  have hbd : draw_bound m = (1 + 2 * m).toNat := by
    unfold draw_bound
    rw [Int.emod_eq_of_lt (by omega) hb]
  have hk : ((min shadow.deck.count.toNat (draw_bound m) : Nat) : Int)
      = min shadow.deck.count (1 + 2 * m) := by rw [hbd]; omega
  obtain ⟨sh1, hrun, a1, a2, _, _, a5, a6, a7, a8, _, _⟩ :=
    draw_loop_spec t (draw_bound m) 0 shadow hd0 hd1 hw0 (by rw [hbd]; omega)
  refine ⟨sh1, ?_, ?_, ?_, ?_, ?_, ?_, ?_, ?_, ?_, a7, a8⟩
  · unfold pull_from_deck
    rw [if_neg hnr, hrun, hk, Int.zero_add]
  · rw [a1, hk]
  · rw [a2, hk]
  · intro j hj
    rw [a5 j, if_neg (by omega)]
  · intro j h1 h2
    rw [a5 j, if_pos (by omega)]
  · intro j hj
    rw [a5 j, if_neg (by omega)]
  · intro j hj
    rw [a6 j, if_neg (by omega)]
  · intro j x hj hx
    rw [a6 _, if_pos (by omega)]
    rw [show shadow.deck.count.toNat - 1
        - (shadow.waste.count.toNat + j - shadow.waste.count.toNat)
      = shadow.deck.count.toNat - 1 - j by omega, hx]
    rfl
  · intro j hj
    rw [a6 j, if_neg (by omega)]

/-- C10, witness: a draw of up to 3 cards from the 2-card deck of `ex_shadow` moves both, the deck top first. -/
theorem pull_from_deck_draw_witness :
    stack_wf ex_shadow.deck ∧ stack_wf ex_shadow.waste ∧
      ¬ (ex_shadow.deck.count = 0 ∧ ex_shadow.waste.count > 0) ∧
      ∃ sh1, pull_from_deck ex_shadow 1 4 = some (2, sh1) ∧
        sh1.deck.count = 0 ∧ sh1.waste.count = 3 ∧
        sh1.waste.cs[1]? = some ⟨3, 7, true⟩ ∧ sh1.waste.cs[2]? = some ⟨1, 2, true⟩ ∧
        sh1.deck.cs[0]? = some NULLCARD ∧ sh1.deck.cs[1]? = some NULLCARD := by
  obtain ⟨sh1, h0, h1, h2, _, h4, _, _, h7, _, _, _⟩ :=
    pull_from_deck_draw ex_shadow 1 4 (by decide) (by decide) (by decide) (by decide)
      (by decide) (by decide)
  exact ⟨by decide, by decide, by decide, sh1, h0, h1, h2,
    h7 0 ⟨3, 7, false⟩ (by decide) (by decide), h7 1 ⟨1, 2, false⟩ (by decide) (by decide),
    h4 0 (by decide) (by decide), h4 1 (by decide) (by decide)⟩

/-- C11. `pull_from_deck` recycle: for every shadow state whose deck is empty (count 0, all
slots empty, an array of at least `n` slots) and whose well-formed waste holds `n >= 1`
cards, every mode and every generation `t`, the call returns `DECK_RECYCLED`, a value
different from every draw count; afterwards the waste is empty (count 0, all slots
empty), the deck holds the `n` former waste cards in reversed order (old waste top at deck
index 0) with count `n`, every one of them face-down with suit and rank unchanged, its
other slots still empty, the `last_modified` of deck, waste and of the shadow state equal
`t`, and foundations and tableaus are unchanged. -/
theorem pull_from_deck_recycle (shadow : game_state) (m t : Int) (n : Nat)
    (hdc : shadow.deck.count = 0) (hde : ∀ x ∈ shadow.deck.cs, x = NULLCARD)
    (hcap : n ≤ shadow.deck.cs.length) (hw : stack_wf shadow.waste)
    (hn : shadow.waste.count = n) (h1 : 1 ≤ n) :
    ∃ sh1, pull_from_deck shadow m t = some (DECK_RECYCLED, sh1) ∧
      (∀ k : Int, 0 ≤ k → k ≤ 1 + 2 * m → DECK_RECYCLED ≠ k) ∧
      sh1.waste.count = 0 ∧ (∀ x ∈ sh1.waste.cs, x = NULLCARD) ∧
      sh1.deck.count = n ∧
      (∀ (j : Nat) (x : card), j < n → shadow.waste.cs[n - 1 - j]? = some x →
        sh1.deck.cs[j]? = some { c := x.c, r := x.r, face_up := false }) ∧
      (∀ x ∈ sh1.deck.cs.drop n, x = NULLCARD) ∧
      sh1.deck.last_modified = t ∧ sh1.waste.last_modified = t ∧
      sh1.last_modified = t ∧
      sh1.foundation = shadow.foundation ∧ sh1.tableau = shadow.tableau := by
  have hwn : shadow.waste.count.toNat = n := by omega
  have hwl : n ≤ shadow.waste.cs.length := by have := hw.2.1; omega
  obtain ⟨sh1, hrun, a1, a2, _, a4, a5, a6, a7, a8, _, _, a11⟩ :=
    recycle_loop_spec t n 0 shadow hdc (by omega) hn hwl (by omega)
  obtain ⟨c1, c2⟩ := a11 (by omega)
  have hd0 : shadow.deck.count.toNat = 0 := by omega
  rw [hwn] at a6 a5
  rw [hd0] at a5
  refine ⟨{ sh1 with last_modified := t }, ?_, ?_, ?_, ?_, ?_, ?_, ?_, c1, c2, rfl, a7, a8⟩
  · unfold pull_from_deck
    rw [if_pos ⟨hdc, by omega⟩, hwn, hrun]
  · intro k hk _ he
    rw [← he] at hk
    exact absurd hk (by decide)
  · show sh1.waste.count = 0
    rw [a2, hn]; omega
  · intro x hx
    obtain ⟨j, hj⟩ := List.mem_iff_getElem?.1 hx
    dsimp only at hj
    rw [a6 j] at hj
    split at hj
    · simp only [Option.some.injEq] at hj
      exact hj.symm
    · rename_i hc
      have hjl : j < shadow.waste.cs.length := by
        by_contra hcon
        rw [List.getElem?_eq_none (by omega)] at hj
        cases hj
      rw [stack_wf_get_ge hw (by omega) hjl] at hj
      simp only [Option.some.injEq] at hj
      exact hj.symm
  · show sh1.deck.count = n
    rw [a1, hdc]; omega
  · intro j x hj hx
    dsimp only
    rw [a5 j, if_pos (by omega)]
    rw [show n - 1 - (j - 0) = n - 1 - j by omega, hx]
    rfl
  · intro x hx
    obtain ⟨j, hj⟩ := List.mem_iff_getElem?.1 hx
    dsimp only at hj
    rw [List.getElem?_drop, a5 _, if_neg (by omega)] at hj
    exact hde x (List.getElem?_mem hj)

/-- C11, witness: the recycle of the three waste cards of `ex_spent`. -/
theorem pull_from_deck_recycle_witness :
    ex_spent.deck.count = 0 ∧ (∀ x ∈ ex_spent.deck.cs, x = NULLCARD) ∧
      stack_wf ex_spent.waste ∧ ex_spent.waste.count = 3 ∧
      ∃ sh1, pull_from_deck ex_spent 0 6 = some (DECK_RECYCLED, sh1) ∧
        sh1.waste.count = 0 ∧ sh1.deck.count = 3 ∧
        sh1.deck.cs[0]? = some ⟨1, 2, false⟩ ∧ sh1.deck.cs[1]? = some ⟨3, 7, false⟩ ∧
        sh1.deck.cs[2]? = some ⟨4, 9, false⟩ ∧ sh1.last_modified = 6 := by
  obtain ⟨sh1, h0, _, h2, _, h4, h5, _, _, _, h9, _, _⟩ :=
    pull_from_deck_recycle ex_spent 0 6 3 (by decide) (by decide) (by decide) (by decide)
      (by decide) (by decide)
  exact ⟨by decide, by decide, by decide, by decide, sh1, h0, h2, h4,
    h5 0 ⟨1, 2, true⟩ (by decide) (by decide), h5 1 ⟨3, 7, true⟩ (by decide) (by decide),
    h5 2 ⟨4, 9, true⟩ (by decide) (by decide), h9⟩

/-- C12. Draw with nothing to draw: for every shadow state with `deck.count = 0` and
`waste.count = 0`, every mode and every generation `t`, `pull_from_deck` returns 0 (not
`DECK_RECYCLED`) and leaves the whole shadow state unchanged, including the top-level
clock and the clocks of deck and waste. -/
theorem pull_from_deck_nothing (shadow : game_state) (m t : Int)
    (hd : shadow.deck.count = 0) (hw : shadow.waste.count = 0) :
    pull_from_deck shadow m t = some (0, shadow) ∧ (0 : Int) ≠ DECK_RECYCLED := by
  refine ⟨?_, by decide⟩
  unfold pull_from_deck
  rw [if_neg (by omega)]
  cases h : draw_bound m with
  | zero => rfl
  | succ r => exact draw_loop_empty t r 0 shadow (by omega)

/-- C12, witness: a pull on the blank state of `main`, whose deck and waste are empty. -/
theorem pull_from_deck_nothing_witness :
    pull_from_deck ex_blank 1 5 = some (0, ex_blank) ∧ (0 : Int) ≠ DECK_RECYCLED :=
  pull_from_deck_nothing ex_blank 1 5 (by decide) (by decide)

/-- C13. Conservation of cards: `init_game` on a shadow state whose tableau counts were
zero (shadow and client in arrays of the capacities of `main`) returns with the sum of the
count fields of the deck, the waste, the 4 foundations and the 7 tableaus of the shadow
state equal to 52, and after every subsequent sequence of `pull_from_deck` calls (any mode,
any generation) and `move_card` calls between two distinct stacks of the shadow state
(source empty or not) that stays inside the arrays, the sum still equals 52. -/
theorem cards_conserved (rnd : (i : Nat) → Fin (i + 1)) (shadow client : game_state)
    (t : Int) (hs : state_sized shadow) (hc : state_sized client)
    (hcnt : ∀ k, (shadow.tableau k).count = 0) :
    ∃ sh0 cl0, init_game rnd shadow client t = some (sh0, cl0) ∧ total_count sh0 = 52 ∧
      ∀ (steps : List shadow_step) (sh1 : game_state), distinct_moves steps →
        shadow_steps sh0 steps = some sh1 → total_count sh1 = 52 := by
  obtain ⟨sh0, cl0, h⟩ := init_game_defined rnd shadow client t hs hc
  have h0 : total_count sh0 = 52 := by
    rw [init_game_total h, Finset.sum_eq_zero (fun k _ => hcnt k)]
    rfl
  refine ⟨sh0, cl0, h, h0, ?_⟩
  intro steps sh1 hdist hrun
  rw [shadow_steps_total steps sh0 sh1 hdist hrun, h0]

/-- C13, witness: a deal from the blank states of `main`; the sequence of a draw, a move
from the waste to a foundation, a draw of three, a move from an empty foundation, which is
refused, and a move from the deck to a tableau returns. -/
theorem cards_conserved_witness :
    (deal_then_steps ex_rnd ex_blank ex_blank 0 [.pull 0 1, .move (.foundation 0) .waste 2,
        .pull 1 3, .move (.foundation 1) (.foundation 2) 4,
        .move (.tableau 3) .deck 5]).isSome = true ∧
      ∃ sh0 cl0, init_game ex_rnd ex_blank ex_blank 0 = some (sh0, cl0) ∧
        total_count sh0 = 52 ∧
        ∀ (steps : List shadow_step) (sh1 : game_state), distinct_moves steps →
          shadow_steps sh0 steps = some sh1 → total_count sh1 = 52 :=
  ⟨by decide, cards_conserved ex_rnd ex_blank ex_blank 0 (by decide) (by decide)
    (by decide)⟩

/-- C14. Deal shape in the shadow state: for every prior content of shadow and client in
arrays of the capacities of `main`, every generation `t` and every outcome `rnd` of the
random draws of the shuffle, `init_game` returns and afterwards the card array of shadow
tableau `k` (`k = 1 .. 7`, index `k - 1`) holds `k` leading real cards, the first `k - 1`
face-down and the `k`-th face-up, followed only by empty slots up to slot 19; the deck
array holds 24 leading real cards, all face-down, followed by an empty slot, with
`deck.count = 24`; the waste and the 4 foundations have count 0 and only empty slots (25
and 14 of them); the `last_modified` of the shadow state and of each of its 13 stacks
equals `t`; and no array has changed its length. -/
theorem init_game_deal_shape (rnd : (i : Nat) → Fin (i + 1)) (shadow client : game_state)
    (t : Int) (hs : state_sized shadow) (hc : state_sized client) :
    ∃ sh0 cl0, init_game rnd shadow client t = some (sh0, cl0) ∧
      (∀ k : Fin 7,
        (∀ m, m < k.val → ∃ x, (sh0.tableau k).cs[m]? = some x ∧ is_real x ∧
          x.face_up = false) ∧
        (∃ x, (sh0.tableau k).cs[k.val]? = some x ∧ is_real x ∧ x.face_up = true) ∧
        (∀ m, k.val < m → m < 20 → (sh0.tableau k).cs[m]? = some NULLCARD) ∧
        (sh0.tableau k).cs.length = (shadow.tableau k).cs.length ∧
        (sh0.tableau k).last_modified = t) ∧
      (∀ m, m < 24 → ∃ x, sh0.deck.cs[m]? = some x ∧ is_real x ∧ x.face_up = false) ∧
      sh0.deck.cs[24]? = some NULLCARD ∧ sh0.deck.count = 24 ∧
      sh0.deck.cs.length = shadow.deck.cs.length ∧ sh0.deck.last_modified = t ∧
      sh0.waste.count = 0 ∧ (∀ m, m < 25 → sh0.waste.cs[m]? = some NULLCARD) ∧
      sh0.waste.cs.length = shadow.waste.cs.length ∧ sh0.waste.last_modified = t ∧
      (∀ i : Fin 4, (sh0.foundation i).count = 0 ∧
        (∀ m, m < 14 → (sh0.foundation i).cs[m]? = some NULLCARD) ∧
        (sh0.foundation i).cs.length = (shadow.foundation i).cs.length ∧
        (sh0.foundation i).last_modified = t) ∧
      sh0.last_modified = t := by
  obtain ⟨sh0, cl0, h⟩ := init_game_defined rnd shadow client t hs hc
  obtain ⟨tmp, hsh, _, hlm, htb, hf, hw, hd1, hd2, hd3, _, hd5, hd6, _, _⟩ :=
    init_game_spec h
  have hl : tmp.length = 53 := by
    obtain ⟨tmp1, h1, hl1, _⟩ := shuffle_result rnd
    rw [hsh] at h1
    simp only [Option.some.injEq] at h1
    subst h1
    exact hl1
  have hreal := shuffled_real hsh
  refine ⟨sh0, cl0, h, ?_, ?_, hd6, hd2, hd3, hd1, hw.2.1, hw.2.2.2.2.1, hw.2.2.1, hw.1,
    fun i => ⟨(hf i).2.1, (hf i).2.2.2.2.1, (hf i).2.2.1, (hf i).1⟩, hlm⟩
  · intro k
    obtain ⟨b1, _, b3, _, b5, b6, b7, b8, _⟩ := htb k
    have hk := k.isLt
    have hge := dealt_before_ge k.val
    have hle := dealt_before_le (k.val + 1) (by omega)
    refine ⟨?_, ?_, b8, b3, b1⟩
    · intro m hm
      obtain ⟨x, hx⟩ : ∃ x, tmp[52 - dealt_before (k.val + 1) + m]? = some x :=
        ⟨_, List.getElem?_eq_getElem (by omega)⟩
      exact ⟨x, by rw [b6 m hm, hx], hreal _ x (by omega) hx⟩
    · obtain ⟨x, hx⟩ : ∃ x, tmp[52 - dealt_before (k.val + 1) + k.val]? = some x :=
        ⟨_, List.getElem?_eq_getElem (by omega)⟩
      have hr := (hreal _ x (by omega) hx).1
      exact ⟨{ x with face_up := true }, by rw [b7, hx]; rfl, hr, rfl⟩
  · intro m hm
    obtain ⟨x, hx⟩ : ∃ x, tmp[m]? = some x := ⟨_, List.getElem?_eq_getElem (by omega)⟩
    exact ⟨x, by rw [hd5 m hm, hx], hreal m x (by omega) hx⟩

/-- C14, witness: the deal on the states of `main` with the draws `ex_rnd` and generation
0. -/
theorem init_game_deal_shape_witness :
    ∃ sh0 cl0, init_game ex_rnd ex_blank ex_blank 0 = some (sh0, cl0) ∧
      (∀ k : Fin 7,
        (∀ m, m < k.val → ∃ x, (sh0.tableau k).cs[m]? = some x ∧ is_real x ∧
          x.face_up = false) ∧
        (∃ x, (sh0.tableau k).cs[k.val]? = some x ∧ is_real x ∧ x.face_up = true) ∧
        (∀ m, k.val < m → m < 20 → (sh0.tableau k).cs[m]? = some NULLCARD) ∧
        (sh0.tableau k).cs.length = (ex_blank.tableau k).cs.length ∧
        (sh0.tableau k).last_modified = 0) ∧
      (∀ m, m < 24 → ∃ x, sh0.deck.cs[m]? = some x ∧ is_real x ∧ x.face_up = false) ∧
      sh0.deck.cs[24]? = some NULLCARD ∧ sh0.deck.count = 24 ∧
      sh0.deck.cs.length = ex_blank.deck.cs.length ∧ sh0.deck.last_modified = 0 ∧
      sh0.waste.count = 0 ∧ (∀ m, m < 25 → sh0.waste.cs[m]? = some NULLCARD) ∧
      sh0.waste.cs.length = ex_blank.waste.cs.length ∧ sh0.waste.last_modified = 0 ∧
      (∀ i : Fin 4, (sh0.foundation i).count = 0 ∧
        (∀ m, m < 14 → (sh0.foundation i).cs[m]? = some NULLCARD) ∧
        (sh0.foundation i).cs.length = (ex_blank.foundation i).cs.length ∧
        (sh0.foundation i).last_modified = 0) ∧
      sh0.last_modified = 0 :=
  init_game_deal_shape ex_rnd ex_blank ex_blank 0 (by decide) (by decide)

/-- C15. First synchronisation populates the redacted view: for every generation `t`, every
outcome of the random draws, every shadow state whose tableau counts are zero and every
client state whose top-level clock and 13 stack clocks are all strictly less than `t` (both
in arrays of the capacities of `main`), `init_game` returns and afterwards client tableau
`k` (`k = 1 .. 7`, index `k - 1`) has count `k` and shows `k - 1` `UNKNOWNCARD` entries
followed by one face-up card equal to the top card of shadow tableau `k` and by an empty
slot; the client deck has count 24 and shows 24 `UNKNOWNCARD` entries followed by an empty
slot; the client waste and foundations are empty (count 0, only empty slots among the 25
and 14 copied); and the top-level clock and every stack clock of the client equal `t`. -/
theorem first_sync_populates (rnd : (i : Nat) → Fin (i + 1)) (shadow client : game_state)
    (t : Int) (hs : state_sized shadow) (hc : state_sized client)
    (hcnt : ∀ k, (shadow.tableau k).count = 0) (hclk : clocks_below client t) :
    ∃ sh0 cl0, init_game rnd shadow client t = some (sh0, cl0) ∧
      (∀ k : Fin 7,
        (cl0.tableau k).count = (k.val + 1 : Nat) ∧
        (∀ m, m < k.val → (cl0.tableau k).cs[m]? = some UNKNOWNCARD) ∧
        (∃ x, (sh0.tableau k).cs[((sh0.tableau k).count - 1).toNat]? = some x ∧
          x.face_up = true ∧ (cl0.tableau k).cs[k.val]? = some x) ∧
        (cl0.tableau k).cs[k.val + 1]? = some NULLCARD ∧
        (cl0.tableau k).last_modified = t) ∧
      cl0.deck.count = 24 ∧ (∀ m, m < 24 → cl0.deck.cs[m]? = some UNKNOWNCARD) ∧
      cl0.deck.cs[24]? = some NULLCARD ∧ cl0.deck.last_modified = t ∧
      cl0.waste.count = 0 ∧ (∀ m, m < 25 → cl0.waste.cs[m]? = some NULLCARD) ∧
      cl0.waste.last_modified = t ∧
      (∀ i : Fin 4, (cl0.foundation i).count = 0 ∧
        (∀ m, m < 14 → (cl0.foundation i).cs[m]? = some NULLCARD) ∧
        (cl0.foundation i).last_modified = t) ∧
      cl0.last_modified = t := by
  obtain ⟨sh0, cl0, h⟩ := init_game_defined rnd shadow client t hs hc
  obtain ⟨hok, hterm⟩ := init_game_ok hcnt h
  obtain ⟨hdterm, _⟩ := deck_waste_ok_deck hok
  obtain ⟨tmp, hsh, htmp, hlm, htb, hf, hw, hd1, hd2, _, _, hd5, hd6, _, hup⟩ :=
    init_game_spec h
  obtain ⟨k0, k1, k2, k3, k4⟩ := hclk
  obtain ⟨_, u2, ud, uw, uf, ut⟩ :=
    update_client_data_spec (by rw [hlm]; exact k0) hup
  refine ⟨sh0, cl0, h, ?_, ?_⟩
  · intro k
    obtain ⟨b1, b2, _, _, b5, b6, b7, b8, _⟩ := htb k
    have hk := k.isLt
    have hge := dealt_before_ge k.val
    have hle := dealt_before_le (k.val + 1) (by omega)
    obtain ⟨r1, r2, _, r4⟩ :=
      redacted_copy_slots (by rw [b1]; exact k4 k) (hterm k) (ut k)
    have hc0 : (sh0.tableau k).count = (k.val + 1 : Nat) := by rw [b2, hcnt k]; omega
    have hcn : (sh0.tableau k).count.toNat = k.val + 1 := by omega
    rw [hcn] at r4
    obtain ⟨x, hx⟩ : ∃ x, tmp[52 - dealt_before (k.val + 1) + k.val]? = some x :=
      ⟨_, List.getElem?_eq_getElem (by omega)⟩
    refine ⟨by rw [r1, hc0], ?_, ⟨{ x with face_up := true }, ?_, rfl, ?_⟩, ?_,
      by rw [r2, b1]⟩
    · intro m hm
      obtain ⟨y, hy⟩ : ∃ y, tmp[52 - dealt_before (k.val + 1) + m]? = some y :=
        ⟨_, List.getElem?_eq_getElem (by omega)⟩
      rw [r4 m (by omega), if_pos (by omega), b6 m hm, hy]
      have hfd := (htmp.2 _ y (by omega) hy).2
      rw [Option.map_some', redact_card_face_down hfd]
    · have e : ((sh0.tableau k).count - 1).toNat = k.val := by omega
      rw [e, b7, hx]
      rfl
    · rw [r4 k.val (by omega), if_pos (by omega), b7, hx]
      rfl
    · rw [r4 (k.val + 1) (by omega), if_neg (by omega)]
      exact b8 (k.val + 1) (by omega) (by omega)
  · obtain ⟨r1, r2, _, r4⟩ := redacted_copy_slots (by rw [hd1]; exact k1) hdterm ud
    have hcn : sh0.deck.count.toNat = 24 := by omega
    rw [hcn] at r4
    obtain ⟨w1, w2, w3⟩ := plain_copy_reflects (by rw [hw.1]; exact k2) uw
    refine ⟨by rw [r1, hd2], ?_, ?_, by rw [r2, hd1], by rw [w1, hw.2.1], ?_,
      by rw [w2, hw.1], ?_, by rw [u2, hlm]⟩
    · intro m hm
      obtain ⟨y, hy⟩ : ∃ y, tmp[m]? = some y :=
        ⟨_, List.getElem?_eq_getElem (by have := htmp.1; omega)⟩
      rw [r4 m (by omega), if_pos hm, hd5 m hm, hy]
      have hfd := (htmp.2 _ y (by omega) hy).2
      rw [Option.map_some', redact_card_face_down hfd]
    · rw [r4 24 (by omega), if_neg (by omega)]
      exact hd6
    · intro m hm
      rw [w3 m hm]
      exact hw.2.2.2.2.1 m hm
    · intro i
      obtain ⟨f1, f2, f3⟩ := plain_copy_reflects (by rw [(hf i).1]; exact k3 i) (uf i)
      refine ⟨by rw [f1, (hf i).2.1], ?_, by rw [f2, (hf i).1]⟩
      intro m hm
      rw [f3 m hm]
      exact (hf i).2.2.2.2.1 m hm

/-- C15, witness: the deal at generation 0 on the states of `main`, whose clocks are all
-1. -/
theorem first_sync_populates_witness :
    ∃ sh0 cl0, init_game ex_rnd ex_blank ex_blank 0 = some (sh0, cl0) ∧
      (∀ k : Fin 7,
        (cl0.tableau k).count = (k.val + 1 : Nat) ∧
        (∀ m, m < k.val → (cl0.tableau k).cs[m]? = some UNKNOWNCARD) ∧
        (∃ x, (sh0.tableau k).cs[((sh0.tableau k).count - 1).toNat]? = some x ∧
          x.face_up = true ∧ (cl0.tableau k).cs[k.val]? = some x) ∧
        (cl0.tableau k).cs[k.val + 1]? = some NULLCARD ∧
        (cl0.tableau k).last_modified = 0) ∧
      cl0.deck.count = 24 ∧ (∀ m, m < 24 → cl0.deck.cs[m]? = some UNKNOWNCARD) ∧
      cl0.deck.cs[24]? = some NULLCARD ∧ cl0.deck.last_modified = 0 ∧
      cl0.waste.count = 0 ∧ (∀ m, m < 25 → cl0.waste.cs[m]? = some NULLCARD) ∧
      cl0.waste.last_modified = 0 ∧
      (∀ i : Fin 4, (cl0.foundation i).count = 0 ∧
        (∀ m, m < 14 → (cl0.foundation i).cs[m]? = some NULLCARD) ∧
        (cl0.foundation i).last_modified = 0) ∧
      cl0.last_modified = 0 :=
  first_sync_populates ex_rnd ex_blank ex_blank 0 (by decide) (by decide) (by decide)
    (by decide)

/-- C16. The deal is a full 52-card set: for every outcome `rnd` of the random draws of the
shuffle (any `j` with `0 <= j <= i` in round `i`), every generation and all states with
arrays of the capacities of `main`, `init_game` returns, and the 24 cards it has placed in
the shadow deck together with the 28 cards it has placed in the 7 shadow tableaus are 52
cards which, `face_up` ignored, are a permutation of the unshuffled set and contain each
of the 4 x 13 suit/rank combinations exactly once. -/
theorem deal_is_full_set (rnd : (i : Nat) → Fin (i + 1)) (shadow client : game_state)
    (t : Int) (hs : state_sized shadow) (hc : state_sized client) :
    ∃ sh0 cl0, init_game rnd shadow client t = some (sh0, cl0) ∧
      (dealt_cards sh0).length = 52 ∧
      ((dealt_cards sh0).map suit_rank).Perm ((cs_tmp_deck.take 52).map suit_rank) ∧
      ∀ c r : Int, HEARTS ≤ c → c ≤ CLUBS → ACE ≤ r → r ≤ KING →
        (dealt_cards sh0).countP (fun x => decide (x.c = c ∧ x.r = r)) = 1 := by
  obtain ⟨sh0, cl0, h⟩ := init_game_defined rnd shadow client t hs hc
  have hp := dealt_cards_perm h
  refine ⟨sh0, cl0, h, ?_, hp, ?_⟩
  · have hl := hp.length_eq
    rw [List.length_map, List.length_map] at hl
    rw [hl]
    decide
  · intro c r h1 h2 h3 h4
    have hcnt := hp.countP_eq (fun p => decide (p.1 = c ∧ p.2 = r))
    rw [List.countP_map, List.countP_map] at hcnt
    refine Eq.trans hcnt ?_
    have c1 : (1 : Int) ≤ c := h1
    have c2 : c ≤ (4 : Int) := h2
    have r1 : (1 : Int) ≤ r := h3
    have r2 : r ≤ (13 : Int) := h4
    interval_cases c <;> interval_cases r <;> decide

/-- C16, witness: the deal on the states of `main` with the draws `ex_rnd`. -/
theorem deal_is_full_set_witness :
    ∃ sh0 cl0, init_game ex_rnd ex_blank ex_blank 0 = some (sh0, cl0) ∧
      (dealt_cards sh0).length = 52 ∧
      ((dealt_cards sh0).map suit_rank).Perm ((cs_tmp_deck.take 52).map suit_rank) ∧
      ∀ c r : Int, HEARTS ≤ c → c ≤ CLUBS → ACE ≤ r → r ≤ KING →
        (dealt_cards sh0).countP (fun x => decide (x.c = c ∧ x.r = r)) = 1 :=
  deal_is_full_set ex_rnd ex_blank ex_blank 0 (by decide) (by decide)

/-- C17, counterexample. `move_card` with generation 0 on two stacks whose clocks are 3
returns true and leaves both clocks at 0, and `pull_from_deck` with generation 0 on
`ex_shadow`, whose deck and waste have clock 3, draws a card and leaves both clocks at 0:
the clocks have decreased. -/
theorem clock_decreases_counterexample :
    (∃ d s, move_card (pile 3 [⟨4, 9, true⟩] 25) (pile 3 [⟨1, 2, false⟩] 25) 0
        = some (true, d, s) ∧
      d.last_modified < (pile 3 [⟨4, 9, true⟩] 25).last_modified ∧
      s.last_modified < (pile 3 [⟨1, 2, false⟩] 25).last_modified) ∧
    (∃ sh1, pull_from_deck ex_shadow 0 0 = some (1, sh1) ∧
      sh1.deck.last_modified < ex_shadow.deck.last_modified ∧
      sh1.waste.last_modified < ex_shadow.waste.last_modified) := by
  constructor
  · exact ⟨pile 0 [⟨4, 9, true⟩, ⟨1, 2, false⟩] 25, pile 0 [] 25, by decide, by decide,
      by decide⟩
  · obtain ⟨sh1, hrun, hdr⟩ :=
      draw_loop_spec 0 (draw_bound 0) 0 ex_shadow (by decide) (by decide)
        (by decide) (by decide)
    obtain ⟨_, _, _, _, _, _, _, _, _, hclk⟩ := hdr
    obtain ⟨_, c2, c3⟩ := hclk (by decide)
    refine ⟨sh1, ?_, by rw [c2]; decide, by rw [c3]; decide⟩
    unfold pull_from_deck
    rw [if_neg (by decide), hrun]
    rfl

/-- C17, amended. Clock monotonicity: for every call of `move_card` or `pull_from_deck`
whose generation `t` is not less than the `last_modified` of the stacks the call may write
(destination and source for `move_card`, deck and waste for `pull_from_deck`), and for
every call of `update_client_data`, the `last_modified` of every stack (of the two stacks
moved between, of the 13 stacks of the shadow state, of the 13 stacks of the client state)
after the call is greater than or equal to its `last_modified` before the call. -/
theorem clocks_monotone (t : Int) :
    (∀ (dst src d s : stack_of_cards) (b : Bool), move_card dst src t = some (b, d, s) →
      dst.last_modified ≤ t → src.last_modified ≤ t →
      dst.last_modified ≤ d.last_modified ∧ src.last_modified ≤ s.last_modified) ∧
    (∀ (sh sh1 : game_state) (m r : Int), pull_from_deck sh m t = some (r, sh1) →
      sh.deck.last_modified ≤ t → sh.waste.last_modified ≤ t →
      ∀ id, (sh.get id).last_modified ≤ (sh1.get id).last_modified) ∧
    (∀ (c s c1 s1 : game_state), update_client_data c s = some (c1, s1) →
      ∀ id, (c.get id).last_modified ≤ (c1.get id).last_modified) := by
  refine ⟨?_, ?_, ?_⟩
  · intro dst src d s b h hd hs
    rcases move_card_cases h with ⟨_, rfl, rfl, _⟩ | ⟨_, _, _, _, e1, e2⟩
    · exact ⟨Int.le_refl _, Int.le_refl _⟩
    · rw [e1, e2]; exact ⟨hd, hs⟩
  · intro sh sh1 m r h hd hw id
    obtain ⟨a1, a2, _, a4, a5⟩ := pull_from_deck_frame h
    dsimp only at a1 a2 a4 a5
    cases id with
    | deck =>
      show sh.deck.last_modified ≤ sh1.deck.last_modified
      rcases a4 with e | e
      · rw [e]
      · rw [e]; exact hd
    | waste =>
      show sh.waste.last_modified ≤ sh1.waste.last_modified
      rcases a5 with e | e
      · rw [e]
      · rw [e]; exact hw
    | foundation i =>
      show (sh.foundation i).last_modified ≤ (sh1.foundation i).last_modified
      rw [a1]
    | tableau i =>
      show (sh.tableau i).last_modified ≤ (sh1.tableau i).last_modified
      rw [a2]
  · intro c s c1 s1 h id
    by_cases hlt : c.last_modified < s.last_modified
    · exact copy_of_clock_mono id (game_state_get_update_client hlt h id)
    · rw [update_client_data_skip (by omega)] at h
      simp only [Option.some.injEq, Prod.mk.injEq] at h
      rw [h.1]

/-- C17, witness of the amended claim: a move with generation 4 on stacks of clock 3, a
pull with generation 4 on `ex_shadow`, and the synchronisation of `ex_client`. -/
theorem clocks_monotone_witness :
    (∃ d s, move_card (pile 3 [⟨4, 9, true⟩] 25) (pile 3 [⟨1, 2, false⟩] 25) 4
        = some (true, d, s) ∧
      (pile 3 [⟨4, 9, true⟩] 25).last_modified ≤ d.last_modified ∧
      (pile 3 [⟨1, 2, false⟩] 25).last_modified ≤ s.last_modified) ∧
    (∃ sh1, pull_from_deck ex_shadow 1 4 = some (2, sh1) ∧
      ∀ id, (ex_shadow.get id).last_modified ≤ (sh1.get id).last_modified) ∧
    (∀ id, (ex_client.get id).last_modified ≤ (ex_synced.get id).last_modified) := by
  refine ⟨?_, ?_, (clocks_monotone 0).2.2 ex_client ex_shadow ex_synced ex_shadow ex_sync⟩
  · have h : move_card (pile 3 [⟨4, 9, true⟩] 25) (pile 3 [⟨1, 2, false⟩] 25) 4
        = some (true, pile 4 [⟨4, 9, true⟩, ⟨1, 2, false⟩] 25, pile 4 [] 25) := by decide
    exact ⟨_, _, h, (clocks_monotone 4).1 _ _ _ _ true h (by decide) (by decide)⟩
  · obtain ⟨sh1, hrun, _⟩ :=
      draw_loop_spec 4 (draw_bound 1) 0 ex_shadow (by decide) (by decide)
        (by decide) (by decide)
    have h : pull_from_deck ex_shadow 1 4 = some (2, sh1) := by
      unfold pull_from_deck
      rw [if_neg (by decide), hrun]
      rfl
    exact ⟨sh1, h, (clocks_monotone 4).2.1 ex_shadow sh1 1 2 h (by decide) (by decide)⟩

/-- C18. Classic draw-through: from a shadow state whose deck holds 24 face-down cards and
whose waste is empty (count 0, only empty slots, at least 24 slots), the calls
`pull_from_deck(&shadow, CLASSIC, ++t)` of the loop of `main` behave as follows. Each of
the first 24 calls returns 1, a value other than `DECK_RECYCLED`, and moves exactly the top
card of the deck to the top of the waste, face-up, leaving an empty slot in the deck and
every other slot as it was; the 25th call returns `DECK_RECYCLED`; after it the waste is
empty, and the deck has count 24 and holds, face-down, the cards the waste had just before
in reversed order, which is the deck as it was before the first draw. -/
theorem classic_draw_through (shadow : game_state) (t0 : Int)
    (hdc : shadow.deck.count = 24) (hdl : 24 ≤ shadow.deck.cs.length)
    (hfd : ∀ x ∈ shadow.deck.cs.take 24, x.face_up = false)
    (hwc : shadow.waste.count = 0) (hwl : 24 ≤ shadow.waste.cs.length)
    (hwe : ∀ x ∈ shadow.waste.cs, x = NULLCARD) :
    (∀ k, k < 24 → ∃ sh sh1,
      pulls CLASSIC t0 shadow k = some (List.replicate k 1, sh) ∧
      pull_from_deck sh CLASSIC (t0 + k + 1) = some (1, sh1) ∧ (1 : Int) ≠ DECK_RECYCLED ∧
      sh.deck.count = 24 - k ∧ sh.waste.count = k ∧
      sh1.deck.count = sh.deck.count - 1 ∧ sh1.waste.count = sh.waste.count + 1 ∧
      (∃ x, sh.deck.cs[23 - k]? = some x ∧
        sh1.waste.cs[k]? = some { x with face_up := true }) ∧
      sh1.deck.cs[23 - k]? = some NULLCARD ∧
      (∀ j, j ≠ 23 - k → sh1.deck.cs[j]? = sh.deck.cs[j]?) ∧
      (∀ j, j ≠ k → sh1.waste.cs[j]? = sh.waste.cs[j]?) ∧
      sh1.foundation = sh.foundation ∧ sh1.tableau = sh.tableau) ∧
    (∃ sh24 sh25,
      pulls CLASSIC t0 shadow 24 = some (List.replicate 24 1, sh24) ∧
      pull_from_deck sh24 CLASSIC (t0 + 25) = some (DECK_RECYCLED, sh25) ∧
      sh24.deck.count = 0 ∧ sh24.waste.count = 24 ∧
      sh25.waste.count = 0 ∧ (∀ x ∈ sh25.waste.cs, x = NULLCARD) ∧
      sh25.deck.count = 24 ∧
      (∀ j x, j < 24 → sh24.waste.cs[23 - j]? = some x →
        sh25.deck.cs[j]? = some { x with face_up := false }) ∧
      (∀ j, j < 24 → sh25.deck.cs[j]? = shadow.deck.cs[j]?) ∧
      (∀ x ∈ sh25.deck.cs.take 24, x.face_up = false)) := by
  have hdn : shadow.deck.count.toNat = 24 := by omega
  have hwn : shadow.waste.count.toNat = 0 := by omega
  have hspec := pulls_spec t0 shadow (by omega) (by omega) (by omega) (by omega)
  constructor
  · intro k hk
    obtain ⟨sh, hrun, a1, a2, a3, a4, a5, a6, _⟩ := hspec k (by omega)
    obtain ⟨sh1, hp, b1, b2, _, _, b5, b6, b7, b8, _⟩ :=
      pull_from_deck_classic sh (t0 + k + 1) (by omega) (by omega) (by omega) (by omega)
    have ed : sh.deck.count.toNat = 24 - k := by omega
    have ew : sh.waste.count.toNat = k := by omega
    rw [ed] at b5 b6
    rw [ew] at b6
    obtain ⟨x, hx⟩ : ∃ x, sh.deck.cs[23 - k]? = some x :=
      ⟨_, List.getElem?_eq_getElem (by omega)⟩
    refine ⟨sh, sh1, hrun, hp, by decide, by omega, by omega, by rw [b1]; rfl,
      by rw [b2]; rfl, ⟨x, hx, ?_⟩, ?_, ?_, ?_, b7, b8⟩
    · rw [b6 k, if_pos (by omega)]
      have e : 24 - k - 1 - (k - k) = 23 - k := by omega
      rw [e, hx]
      rfl
    · rw [b5 (23 - k), if_pos (by omega)]
    · intro j hj
      rw [b5 j, if_neg (by omega)]
    · intro j hj
      rw [b6 j, if_neg (by omega)]
  · obtain ⟨sh24, hrun, a1, a2, a3, a4, a5, a6, _⟩ := hspec 24 (by omega)
    rw [hdn] at a5 a6
    rw [hwn] at a6
    have ed : sh24.deck.count = 0 := by omega
    have ew : sh24.waste.count = 24 := by omega
    obtain ⟨sh1, hrec, c1, c2, c3, c4, c5, c6, _⟩ :=
      recycle_loop_spec (t0 + 25) 24 0 sh24 ed (by omega) ew (by omega) (by omega)
    have edn : sh24.deck.count.toNat = 0 := by omega
    have ewn : sh24.waste.count.toNat = 24 := by omega
    rw [edn] at c5
    rw [ewn] at c5 c6
    have hdeck : ∀ j x, j < 24 → sh24.waste.cs[23 - j]? = some x →
        sh1.deck.cs[j]? = some { x with face_up := false } := by
      intro j x hj hx
      rw [c5 j, if_pos (by omega)]
      have e : 24 - 1 - (j - 0) = 23 - j := by omega
      rw [e, hx]
      rfl
    have horig : ∀ j, j < 24 → sh1.deck.cs[j]? = shadow.deck.cs[j]? := by
      intro j hj
      obtain ⟨x, hx⟩ : ∃ x, shadow.deck.cs[j]? = some x :=
        ⟨_, List.getElem?_eq_getElem (by omega)⟩
      have hw : sh24.waste.cs[23 - j]? = some { x with face_up := true } := by
        rw [a6 (23 - j), if_pos (by omega)]
        have e : 24 - 1 - (23 - j - 0) = j := by omega
        rw [e, hx]
        rfl
      rw [hdeck j _ hj hw, hx]
      have hf := hfd x (mem_take_of_get hj hx)
      obtain ⟨c, r, f⟩ := x
      dsimp only at hf ⊢
      rw [hf]
    refine ⟨sh24, { sh1 with last_modified := t0 + 25 }, hrun, ?_, ed, ew, ?_, ?_, ?_, hdeck,
      horig, ?_⟩
    · unfold pull_from_deck
      rw [if_pos ⟨ed, by omega⟩, ewn, hrec]
    · show sh1.waste.count = 0
      rw [c2, ew]; rfl
    · intro x hx
      obtain ⟨j, hj⟩ := List.mem_iff_getElem?.1 hx
      dsimp only at hj
      rw [c6 j] at hj
      split at hj
      · simp only [Option.some.injEq] at hj
        exact hj.symm
      · rw [a6 j, if_neg (by omega)] at hj
        exact hwe x (List.getElem?_mem hj)
    · show sh1.deck.count = 24
      rw [c1, ed]; rfl
    · intro x hx
      obtain ⟨j, hj⟩ := List.mem_iff_getElem?.1 hx
      dsimp only at hj
      have hjl : j < 24 := by
        by_contra hcon
        rw [List.getElem?_take, if_neg hcon] at hj
        cases hj
      rw [List.getElem?_take_of_lt hjl, horig j hjl] at hj
      exact hfd x (mem_take_of_get hjl hj)

/-- C18, witness: the draw-through of `ex_full_deck` with the generations 1, 2, 3, ... -/
theorem classic_draw_through_witness :
    ex_full_deck.deck.count = 24 ∧ ex_full_deck.waste.count = 0 ∧
    (∃ sh24 sh25,
      pulls CLASSIC 0 ex_full_deck 24 = some (List.replicate 24 1, sh24) ∧
      pull_from_deck sh24 CLASSIC (0 + 25) = some (DECK_RECYCLED, sh25) ∧
      sh24.deck.count = 0 ∧ sh24.waste.count = 24 ∧
      sh25.waste.count = 0 ∧ (∀ x ∈ sh25.waste.cs, x = NULLCARD) ∧
      sh25.deck.count = 24 ∧
      (∀ j x, j < 24 → sh24.waste.cs[23 - j]? = some x →
        sh25.deck.cs[j]? = some { x with face_up := false }) ∧
      (∀ j, j < 24 → sh25.deck.cs[j]? = ex_full_deck.deck.cs[j]?) ∧
      (∀ x ∈ sh25.deck.cs.take 24, x.face_up = false)) :=
  ⟨by decide, by decide,
    (classic_draw_through ex_full_deck 0 (by decide) (by decide) (by decide) (by decide)
      (by decide) (by decide)).2⟩

/-- C19, the code at a failing input. `init_game` on `ex_shadow`, a shadow state left by
play whose tableaus 1 and 2 have the counts 1 and 2, returns with deck count 24 and waste
count 0, as assigned, but with the tableau counts 2 and 4: the statement
`shadow->tableau[i - 1].count += i` adds to the old count. Tableau 2 then has two leading
non-empty entries followed by an empty slot, and count 4. -/
theorem init_game_adds_to_tableau_count :
    (ex_shadow.tableau 0).count = 1 ∧ (ex_shadow.tableau 1).count = 2 ∧
    ∃ sh0 cl0, init_game ex_rnd ex_shadow ex_client 4 = some (sh0, cl0) ∧
      sh0.deck.count = 24 ∧ sh0.waste.count = 0 ∧
      (sh0.tableau 0).count = 2 ∧ (sh0.tableau 1).count = 4 ∧
      (∃ x y, (sh0.tableau 1).cs[0]? = some x ∧ x ≠ NULLCARD ∧
        (sh0.tableau 1).cs[1]? = some y ∧ y ≠ NULLCARD) ∧
      (sh0.tableau 1).cs[2]? = some NULLCARD ∧ ¬ stack_wf (sh0.tableau 1) := by
  obtain ⟨sh0, cl0, h⟩ :=
    init_game_defined ex_rnd ex_shadow ex_client 4 (by decide) (by decide)
  obtain ⟨tmp, hsh, _, _, htb, _, hw, _, hd2, _⟩ := init_game_spec h
  have hl : tmp.length = 53 := by
    obtain ⟨tmp1, h1, hl1, _⟩ := shuffle_result ex_rnd
    rw [hsh] at h1
    simp only [Option.some.injEq] at h1
    subst h1
    exact hl1
  have hreal := shuffled_real hsh
  have hnn : ∀ z : card, is_real z → z ≠ NULLCARD := by
    intro z hz e
    subst e
    exact absurd hz (by decide)
  obtain ⟨_, a2, _⟩ := htb 0
  obtain ⟨_, b2, _, _, _, b6, b7, b8, _⟩ := htb 1
  obtain ⟨x, hx⟩ : ∃ x, tmp[49]? = some x := ⟨_, List.getElem?_eq_getElem (by omega)⟩
  obtain ⟨y, hy⟩ : ∃ y, tmp[50]? = some y := ⟨_, List.getElem?_eq_getElem (by omega)⟩
  have h0 : (sh0.tableau 1).cs[0]? = some x := by rw [b6 0 (by decide)]; exact hx
  have h1 : (sh0.tableau 1).cs[1]? = some { y with face_up := true } := by
    have e := b7
    rw [show (52 - dealt_before ((1 : Fin 7).val + 1) + (1 : Fin 7).val) = 50 from rfl,
      hy] at e
    exact e
  have h2 : (sh0.tableau 1).cs[2]? = some NULLCARD := b8 2 (by decide) (by decide)
  have hc : (sh0.tableau 1).count = 4 := by rw [b2]; decide
  refine ⟨by decide, by decide, sh0, cl0, h, hd2, hw.2.1, by rw [a2]; decide, hc,
    ⟨x, _, h0, hnn x (hreal 49 x (by omega) hx).1, h1, face_up_ne_null y⟩, h2, ?_⟩
  intro hwf
  exact stack_wf_get_lt hwf (i := 2) (by rw [hc]; decide) h2 rfl

/-- C20, counterexample. The deck of `ex_blank_waste` is empty and its waste holds one
live card, the face-up card without suit and rank, which is not the empty card; both stacks
are strictly well formed and hold one card together. `pull_from_deck` recycles: the card
lands in deck slot 0 turned face-down, which is the empty card, while `deck.count` is 1, so
the deck is no longer well formed. -/
theorem recycle_breaks_wf_counterexample :
    stack_wf_strict ex_blank_waste.deck ∧ stack_wf_strict ex_blank_waste.waste ∧
    ex_blank_waste.deck.count + ex_blank_waste.waste.count ≤ 24 ∧
    ∃ sh1, pull_from_deck ex_blank_waste CLASSIC 0 = some (DECK_RECYCLED, sh1) ∧
      sh1.deck.count = 1 ∧ sh1.deck.cs[0]? = some NULLCARD ∧
      ¬ stack_wf_strict sh1.deck := by
  obtain ⟨sh1, hrun, hrec⟩ :=
    recycle_loop_spec 0 1 0 ex_blank_waste (by decide) (by decide) (by decide) (by decide)
      (by decide)
  obtain ⟨a1, _, _, _, a5, _⟩ := hrec
  have hcnt : sh1.deck.count = 1 := by rw [a1]; decide
  have h0 : sh1.deck.cs[0]? = some NULLCARD := by rw [a5 0]; decide
  refine ⟨by decide, by decide, by decide, { sh1 with last_modified := 0 }, ?_, hcnt, h0, ?_⟩
  · unfold pull_from_deck
    rw [if_pos (by decide)]
    have e : ex_blank_waste.waste.count.toNat = 1 := by decide
    rw [e, hrun]
  · intro h
    have hlt : 0 < sh1.deck.count.toNat := by omega
    exact stack_wf_get_lt h.1 hlt h0 rfl

/-- C20, amended. The strict well-formedness of stacks (`count` live cards, `count` below
the capacity, only empty slots from `count` on) is preserved: `move_card` between two
strictly well-formed stacks with `dst.count + 1` below the capacity of `dst` returns and
leaves both stacks strictly well formed; `pull_from_deck` on a state whose deck and waste
are strictly well formed, have at least 25 slots each and hold at most 24 cards together,
and whose waste holds no face-up card without suit and rank, returns in the draw and in the
recycle case and leaves deck and waste strictly well formed in arrays of unchanged
length. -/
theorem wf_preserved (t : Int) :
    (∀ (dst src : stack_of_cards), stack_wf_strict dst → stack_wf_strict src →
      (dst.count + 1).toNat < dst.cs.length →
      ∃ b d s, move_card dst src t = some (b, d, s) ∧
        stack_wf_strict d ∧ stack_wf_strict s) ∧
    (∀ (shadow : game_state) (game_mode : Int),
      stack_wf_strict shadow.deck → stack_wf_strict shadow.waste →
      shadow.deck.count + shadow.waste.count ≤ 24 →
      25 ≤ shadow.deck.cs.length → 25 ≤ shadow.waste.cs.length →
      BLANK_FACE_UP ∉ shadow.waste.cs →
      ∃ r sh1, pull_from_deck shadow game_mode t = some (r, sh1) ∧
        stack_wf_strict sh1.deck ∧ stack_wf_strict sh1.waste ∧
        sh1.deck.cs.length = shadow.deck.cs.length ∧
        sh1.waste.cs.length = shadow.waste.cs.length) := by
  constructor
  · intro dst src hd hs hcap
    have hd0 : 0 ≤ dst.count := hd.1.1
    obtain ⟨b, d, s, h⟩ := move_card_total dst src t hs.1.2.1 hd0 hd.2
    refine ⟨b, d, s, h, ?_⟩
    by_cases hc : 1 ≤ src.count
    · have hb := move_card_some h hc
      subst hb
      obtain ⟨wd, ws⟩ := move_card_wf hd.1 hs.1 h
      obtain ⟨_, _, _, _, top, _, rfl, rfl⟩ := move_card_true h
      refine ⟨⟨wd, ?_⟩, ⟨ws, ?_⟩⟩
      · show (dst.count + 1).toNat < (dst.cs.set _ _).length
        rw [List.length_set]
        exact hcap
      · show (src.count - 1).toNat < (src.cs.set _ _).length
        rw [List.length_set]
        have := hs.2
        omega
    · rcases move_card_cases h with ⟨_, rfl, rfl, _⟩ | ⟨_, h1, _⟩
      · exact ⟨hd, hs⟩
      · exact absurd h1 hc
  · intro shadow m hd hw hsum hdl hwl hb
    have hd0 : 0 ≤ shadow.deck.count := hd.1.1
    have hw0 : 0 ≤ shadow.waste.count := hw.1.1
    unfold pull_from_deck
    by_cases hc : shadow.deck.count = 0 ∧ shadow.waste.count > 0
    · rw [if_pos hc]
      obtain ⟨sh1, hrun, hrec⟩ :=
        recycle_loop_spec t shadow.waste.count.toNat 0 shadow hc.1 hd0 (by omega)
          (by omega) (by omega)
      rw [hrun]
      obtain ⟨p, q⟩ := recycled_wf hrec hd.1 hw.1 rfl (by omega) (by omega) hb
      exact ⟨_, _, rfl, p, q, hrec.2.2.1, hrec.2.2.2.1⟩
    · rw [if_neg hc]
      obtain ⟨sh1, hrun, hdr⟩ :=
        draw_loop_spec t (draw_bound m) 0 shadow hd0 (by omega) hw0 (by omega)
      obtain ⟨p, q⟩ := drawn_wf hdr hd.1 hw.1 (Nat.min_le_left _ _) (by omega) (by omega)
      exact ⟨_, sh1, hrun, p, q, hdr.2.2.1, hdr.2.2.2.1⟩

/-- C20, witness: a move from a one-card stack onto an empty one, and the recycle of the
three-card waste of `ex_spent`. -/
theorem wf_preserved_witness :
    (∃ b d s, move_card (pile 0 [] 14) (pile 3 [⟨4, 9, true⟩] 25) 4 = some (b, d, s) ∧
      stack_wf_strict d ∧ stack_wf_strict s) ∧
    (∃ r sh1, pull_from_deck ex_spent CLASSIC 4 = some (r, sh1) ∧
      stack_wf_strict sh1.deck ∧ stack_wf_strict sh1.waste ∧
      sh1.deck.cs.length = ex_spent.deck.cs.length ∧
      sh1.waste.cs.length = ex_spent.waste.cs.length) :=
  ⟨(wf_preserved 4).1 (pile 0 [] 14) (pile 3 [⟨4, 9, true⟩] 25) (by decide) (by decide)
      (by decide),
    (wf_preserved 4).2 ex_spent CLASSIC (by decide) (by decide) (by decide) (by decide)
      (by decide) (by decide)⟩

end Klondike
